import Mathlib

/-! # Caesar: the CGRP container extraction engine

A shallow embedding of `Cgrp::Extract` (src/caesar/Cgrp.cpp) and theorems about it.

The input file is a list of bytes (`List Nat`, every byte taken modulo 256 when
it is decoded).  Pointers into the buffer are byte offsets from `Data`.  A read
outside the buffer, which the C++ code does not guard against, ends the run with
the outcome `Outcome.outOfBounds`.  Everything the function does to the outside
world is recorded, in order, in a log of `Event`s; the working directory is an
explicit stack of directory names.  The three converters are parameters.

The RIFF writer of sf2cute (src/caesar/sf2cute-0.1/src/sf2cute/riff.cpp) is
embedded next to it: a tree of chunks, its `size` and its `Write` to a stream
of bytes that takes every byte, `std::length_error` being an error result.
-/

namespace Caesar

/-! ## The read cursor (Common.hpp, not part of the sources at hand) -/

/-- The bytes `[pos, pos + n)` of the buffer, when they all lie inside it. -/
def slice (data : List Nat) (pos n : Nat) : Option (List Nat) :=
  if pos + n ≤ data.length then some ((data.drop pos).take n) else none

/-- Big-endian value of a run of bytes. -/
def beValue (bs : List Nat) : Nat :=
  bs.foldl (fun acc b => acc * 256 + b % 256) 0

/-- Little-endian value of a run of bytes. -/
def leValue (bs : List Nat) : Nat :=
  beValue bs.reverse

/-- Modelled from the spec: `ReadFixLen` of Common.hpp, the read cursor: it
decodes an unsigned integer of `n` bytes at `pos`, little-endian unless told
otherwise, and advances the position by `n`.  The result is the decoded value
and the new position, or `none` when the bytes are not all inside the buffer. -/
def ReadFixLen (data : List Nat) (pos n : Nat) (littleEndian : Bool) : Option (Nat × Nat) :=
  match slice data pos n with
  | none => none
  | some bs => some (if littleEndian then leValue bs else beValue bs, pos + n)

/-! ## Effects -/

/-- A `std::string`. -/
abbrev Str := List Char

/-- The decimal digits of a number: `std::to_string`. -/
def to_string (n : Nat) : Str := Nat.toDigits 10 n

/-- What `Cgrp::Extract` does to the outside world. -/
inductive Event where
  /-- A failed `Common::Assert`: the expected and the decoded value. -/
  | assertFailed (expected actual : Nat)
  /-- The report of `Common::Error` at a buffer offset. -/
  | error (offset : Nat) (message : String) (actual : Nat)
  /-- The report of `Common::Warning` at a buffer offset. -/
  | warning (offset : Nat) (message : String)
  /-- A `mkdir` of `name` inside the directory `cwd`. -/
  | mkdir (cwd : List Str) (name : Str)
  /-- A `chdir` to `name`. -/
  | chdir (name : Str)
  /-- A file `name` written in the directory `cwd` with the bytes given. -/
  | write (cwd : List Str) (name : Str) (bytes : List Nat)
  /-- The call `Cwars[i]->Extract()`. -/
  | cwarExtract (i : Nat)
  /-- The call `Cbnks[i]->Convert("..")`. -/
  | cbnkConvert (i : Nat)
  /-- The call `Cseqs[i]->Convert()`. -/
  | cseqConvert (i : Nat)
  deriving DecidableEq, Repr

/-- A wave archive handle: the file it was opened over and the bytes of it. -/
structure Cwar where
  FileName : Str
  Data : List Nat
  deriving DecidableEq, Repr

/-- A bank handle; `P` is the conversion-mode flag handed to its constructor. -/
structure Cbnk where
  FileName : Str
  Data : List Nat
  P : Bool
  deriving DecidableEq, Repr

/-- A sequence handle. -/
structure Cseq where
  FileName : Str
  Data : List Nat
  deriving DecidableEq, Repr

/-- The sub-resource converters, external to the engine: each reports success
or failure.  A bank is converted against the collection of wave archives. -/
structure Converters where
  cwarExtract : Cwar → Bool
  cbnkConvert : Cbnk → List Cwar → Bool
  cseqConvert : Cseq → Bool

/-- The mutable state of a run: the three handle collections of the `Cgrp`
object, the working directory (innermost directory first, relative to the
directory the run started in) and the log of effects. -/
structure State where
  Cwars : List Cwar
  Cbnks : List Cbnk
  Cseqs : List Cseq
  cwd : List Str
  log : List Event
  deriving DecidableEq, Repr

/-- The state of a freshly constructed `Cgrp`, in the starting directory. -/
def State.fresh : State := ⟨[], [], [], [], []⟩

/-- The working directory after `chdir(name)`, every `chdir` succeeding. -/
def chdirPath (cwd : List Str) (name : Str) : List Str :=
  if name = ['.', '.'] then
    match cwd with
    | [] => [['.', '.']]
    | c :: cs => if c = ['.', '.'] then name :: c :: cs else cs
  else name :: cwd

/-- The call `mkdir(name)`. -/
def State.mkdir (s : State) (name : Str) : State :=
  { s with log := s.log ++ [Event.mkdir s.cwd name] }

/-- The call `chdir(name)`. -/
def State.chdir (s : State) (name : Str) : State :=
  { s with cwd := chdirPath s.cwd name, log := s.log ++ [Event.chdir name] }

/-- Writing a file in the working directory. -/
def State.write (s : State) (name : Str) (bytes : List Nat) : State :=
  { s with log := s.log ++ [Event.write s.cwd name bytes] }

/-- Appending one event to the log. -/
def State.emit (s : State) (e : Event) : State :=
  { s with log := s.log ++ [e] }

/-- How a run ends: `Extract` returns a boolean, or it reads outside the
buffer (undefined behaviour in the C++ code). -/
inductive Outcome where
  | returned (b : Bool)
  | outOfBounds
  deriving DecidableEq, Repr

/-- A finished run. -/
structure Run where
  outcome : Outcome
  state : State
  deriving DecidableEq, Repr

/-- A step of the run: go on with a value, or the run is over. -/
inductive Flow (α : Type) where
  | next (a : α)
  | halt (r : Run)

/-! ## Parsing: header, chunk directory, INFO chunk (Cgrp.cpp lines 71-151) -/

/-- Why parsing stopped: a validation failure with its report (`Extract`
returns false), or a read outside the buffer. -/
inductive ParseStop where
  | rejected (e : Event)
  | outOfBounds
  deriving DecidableEq, Repr

/-- The cursor read as a parsing step. -/
def rd (data : List Nat) (pos n : Nat) (littleEndian : Bool) : Except ParseStop (Nat × Nat) :=
  match ReadFixLen data pos n littleEndian with
  | none => .error .outOfBounds
  | some r => .ok r

/-- Modelled from the spec: `Common::Assert` of Common.hpp, the comparison
helper: it succeeds when the decoded value is the expected one and reports a
validation failure otherwise. -/
def Assert (expected actual : Nat) : Except ParseStop Unit :=
  if expected = actual then .ok () else .error (.rejected (.assertFailed expected actual))

/-- The header checks of lines 73-81; the result is the chunk count and the
position after it. -/
def readHeader (data : List Nat) (Length : Nat) : Except ParseStop (Nat × Nat) := do
  let (magic, pos) ← rd data 0 4 false
  Assert 0x43475250 magic
  let (bom, pos) ← rd data pos 2 true
  Assert 0xFEFF bom
  let (headerSize, pos) ← rd data pos 2 true
  Assert 0x40 headerSize
  let (_cgrpVersion, pos) ← rd data pos 4 true
  let (total, pos) ← rd data pos 4 true
  Assert Length total
  rd data pos 4 true

/-- The six locals the chunk directory is parsed into. -/
structure Directory where
  infoOffset : Nat
  infoLength : Nat
  fileOffset : Nat
  fileLength : Nat
  infxOffset : Nat
  infxLength : Nat
  deriving DecidableEq, Repr

/-- All six locals start at zero (lines 83-90). -/
def Directory.zero : Directory := ⟨0, 0, 0, 0, 0, 0⟩

/-- The chunk directory loop of lines 92-123, `count` triples from `pos` on. -/
def readChunks (data : List Nat) : Nat → Nat → Directory → Except ParseStop (Directory × Nat)
  | 0, pos, d => .ok (d, pos)
  | count + 1, pos, d => do
    let (chunkId, pos) ← rd data pos 4 true
    if chunkId = 0x7800 then
      let (o, pos) ← rd data pos 4 true
      let (l, pos) ← rd data pos 4 true
      readChunks data count pos { d with infoOffset := o, infoLength := l }
    else if chunkId = 0x7801 then
      let (o, pos) ← rd data pos 4 true
      let (l, pos) ← rd data pos 4 true
      readChunks data count pos { d with fileOffset := o, fileLength := l }
    else if chunkId = 0x7802 then
      let (o, pos) ← rd data pos 4 true
      let (l, pos) ← rd data pos 4 true
      readChunks data count pos { d with infxOffset := o, infxLength := l }
    else
      .error (.rejected (.error (pos - 4) "A valid chunk type" chunkId))

/-- The slot loop of lines 134-139: every slot is a tag checked against 0x7900
and a 4-byte offset, pushed on `fileOffsets` as a pointer into the INFO chunk. -/
def readSlots (data : List Nat) (infoOffset : Nat) :
    Nat → Nat → List Nat → Except ParseStop (List Nat × Nat)
  | 0, pos, fileOffsets => .ok (fileOffsets, pos)
  | count + 1, pos, fileOffsets => do
    let (tag, pos) ← rd data pos 4 true
    Assert 0x7900 tag
    let (o, pos) ← rd data pos 4 true
    readSlots data infoOffset count pos (fileOffsets ++ [infoOffset + 8 + o])

/-- An entry of the file table; `Offset` is `none` for the null pointer. -/
structure CgrpFile where
  Id : Nat
  Offset : Option Nat
  Length : Nat
  deriving DecidableEq, Repr

/-- One turn of the loop of lines 143-151: the id, the offset flag, the raw
file offset (read only when the flag is the sentinel 0x1F00) and the length. -/
def readFile (data : List Nat) (fileOffset pos : Nat) : Except ParseStop (CgrpFile × Nat) := do
  let (id, pos) ← rd data pos 4 true
  let (flag, pos) ← rd data pos 4 true
  if flag = 0x1F00 then
    let (raw, pos) ← rd data pos 4 true
    let (len, pos) ← rd data pos 4 true
    pure (⟨id, some (fileOffset + 8 + raw), len⟩, pos)
  else
    let (len, pos) ← rd data pos 4 true
    pure (⟨id, none, len⟩, pos)

/-- The file table loop of lines 143-151. -/
def readFiles (data : List Nat) (fileOffset : Nat) :
    Nat → Nat → List CgrpFile → Except ParseStop (List CgrpFile × Nat)
  | 0, pos, files => .ok (files, pos)
  | count + 1, pos, files => do
    let (file, pos) ← readFile data fileOffset pos
    readFiles data fileOffset count pos (files ++ [file])

/-- The INFO chunk, lines 125-151: its magic and length, the slots and the
file table. -/
def readInfo (data : List Nat) (d : Directory) : Except ParseStop (List CgrpFile) := do
  let (magic, pos) ← rd data d.infoOffset 4 false
  Assert 0x494E464F magic
  let (len, pos) ← rd data pos 4 true
  Assert d.infoLength len
  let (fileCount, pos) ← rd data pos 4 true
  let (_fileOffsets, pos) ← readSlots data d.infoOffset fileCount pos []
  let (files, _) ← readFiles data d.fileOffset fileCount pos []
  pure files

/-- Lines 71-151: everything `Extract` decodes before it touches the disk. -/
def parse (data : List Nat) (Length : Nat) : Except ParseStop (Directory × List CgrpFile) := do
  let (chunkCount, pos) ← readHeader data Length
  let (d, _) ← readChunks data chunkCount pos Directory.zero
  let files ← readInfo data d
  pure (d, files)

/-! ## Materialising the sub-resources (Cgrp.cpp lines 153-273) -/

/-- The case `0x43574152` ('CWAR') of lines 167-196; `pos` is the position
after the type tag. -/
def extractCwar (data : List Nat) (pos : Nat) (s : State) : Flow State :=
  let pos := pos + 8
  match ReadFixLen data pos 4 true with
  | none => .halt ⟨.outOfBounds, s⟩
  | some (cwarLength, pos) =>
    let pos := pos - 16
    let s := s.mkdir (to_string s.Cwars.length)
    let s := s.chdir (to_string s.Cwars.length)
    match slice data pos cwarLength with
    | none => .halt ⟨.outOfBounds, s⟩
    | some bytes =>
      let s := s.write (to_string s.Cwars.length ++ ".cwar".toList) bytes
      let s := { s with Cwars := s.Cwars ++ [Cwar.mk (to_string s.Cwars.length ++ ".cwar".toList) bytes] }
      .next (s.chdir "..".toList)

/-- The case `0x43424E4B` ('CBNK') of lines 198-227. -/
def extractCbnk (data : List Nat) (P : Bool) (pos : Nat) (s : State) : Flow State :=
  let pos := pos + 8
  match ReadFixLen data pos 4 true with
  | none => .halt ⟨.outOfBounds, s⟩
  | some (cbnkLength, pos) =>
    let pos := pos - 16
    let s := s.mkdir (to_string s.Cbnks.length)
    let s := s.chdir (to_string s.Cbnks.length)
    match slice data pos cbnkLength with
    | none => .halt ⟨.outOfBounds, s⟩
    | some bytes =>
      let s := s.write (to_string s.Cbnks.length ++ ".cbnk".toList) bytes
      let s := { s with Cbnks := s.Cbnks ++ [Cbnk.mk (to_string s.Cbnks.length ++ ".cbnk".toList) bytes P] }
      .next (s.chdir "..".toList)

/-- The case `0x43534551` ('CSEQ') of lines 230-257: no directory is made. -/
def extractCseq (data : List Nat) (pos : Nat) (s : State) : Flow State :=
  let pos := pos + 8
  match ReadFixLen data pos 4 true with
  | none => .halt ⟨.outOfBounds, s⟩
  | some (cseqLength, pos) =>
    let pos := pos - 16
    match slice data pos cseqLength with
    | none => .halt ⟨.outOfBounds, s⟩
    | some bytes =>
      let s := s.write (to_string s.Cseqs.length ++ ".cseq".toList) bytes
      .next { s with Cseqs := s.Cseqs ++ [Cseq.mk (to_string s.Cseqs.length ++ ".cseq".toList) bytes] }

/-- The body of the loop of lines 153-273 for one entry of the file table. -/
def extractFile (data : List Nat) (P : Bool) (file : CgrpFile) (s : State) : Flow State :=
  match file.Offset with
  | none => .next s
  | some p =>
    match ReadFixLen data p 4 false with
    | none => .halt ⟨.outOfBounds, s⟩
    | some (fileId, pos) =>
      if fileId = 0x43574152 then extractCwar data pos s
      else if fileId = 0x43424E4B then extractCbnk data P pos s
      else if fileId = 0x43534551 then extractCseq data pos s
      else if fileId = 0x43575344 then .next (s.emit (.warning (pos - 4) "Skipping CWSD"))
      else .halt ⟨.returned false, s.emit (.error (pos - 4) "A valid file type" fileId)⟩

/-- The loop of lines 153-273 over the file table. -/
def extractFiles (data : List Nat) (P : Bool) : List CgrpFile → State → Flow State
  | [], s => .next s
  | file :: files, s =>
    match extractFile data P file s with
    | .halt r => .halt r
    | .next s => extractFiles data P files s

/-! ## The conversion pass (Cgrp.cpp lines 275-321) -/

/-- The directory a handle was written in: `FileName.substr(0, FileName.length() - 5)`.
The length is a `size_t`: for a name of fewer than five characters the difference
wraps around to a count past the end of the name, and `substr` gives all of it. -/
def dirName (fileName : Str) : Str :=
  if 5 ≤ fileName.length then fileName.take (fileName.length - 5) else fileName

/-- The loop of lines 275-293 from index `i` on, `cwars` being `Cwars[i..]`. -/
def convertCwars (cv : Converters) : Nat → List Cwar → State → Flow State
  | _, [], s => .next s
  | i, cwar :: cwars, s =>
    let s := s.chdir (dirName cwar.FileName)
    let s := s.emit (.cwarExtract i)
    if cv.cwarExtract cwar then convertCwars cv (i + 1) cwars (s.chdir "..".toList)
    else .halt ⟨.returned false, s⟩

/-- The loop of lines 295-313 from index `i` on, `cbnks` being `Cbnks[i..]`. -/
def convertCbnks (cv : Converters) : Nat → List Cbnk → State → Flow State
  | _, [], s => .next s
  | i, cbnk :: cbnks, s =>
    let s := s.chdir (dirName cbnk.FileName)
    let s := s.emit (.cbnkConvert i)
    if cv.cbnkConvert cbnk s.Cwars then convertCbnks cv (i + 1) cbnks (s.chdir "..".toList)
    else .halt ⟨.returned false, s⟩

/-- The loop of lines 315-321 from index `i` on, `cseqs` being `Cseqs[i..]`. -/
def convertCseqs (cv : Converters) : Nat → List Cseq → State → Flow State
  | _, [], s => .next s
  | i, cseq :: cseqs, s =>
    let s := s.emit (.cseqConvert i)
    if cv.cseqConvert cseq then convertCseqs cv (i + 1) cseqs s
    else .halt ⟨.returned false, s⟩

/-- Lines 275-330: the three conversion loops and the INFX warning. -/
def convertAll (cv : Converters) (d : Directory) (s : State) : Run :=
  match convertCwars cv 0 s.Cwars s with
  | .halt r => r
  | .next s =>
    match convertCbnks cv 0 s.Cbnks s with
    | .halt r => r
    | .next s =>
      match convertCseqs cv 0 s.Cseqs s with
      | .halt r => r
      | .next s =>
        if d.infxOffset ≠ 0 then
          ⟨.returned true, s.emit (.warning d.infxOffset "Skipping INFX chunk")⟩
        else ⟨.returned true, s⟩

/-! ## `Cgrp::Extract` -/

/-- The immutable part of a `Cgrp` object. -/
structure Cgrp where
  Data : List Nat
  Length : Nat
  P : Bool
  deriving DecidableEq, Repr

/-- The constructor of lines 21-33 over the bytes of the file. -/
def Cgrp.open (file : List Nat) (p : Bool) : Cgrp := ⟨file, file.length, p⟩

/-- Lines 153-330, from the decoded directory and file table on. -/
def extractFrom (cv : Converters) (data : List Nat) (P : Bool) (d : Directory)
    (files : List CgrpFile) (s : State) : Run :=
  match extractFiles data P files s with
  | .halt r => r
  | .next s => convertAll cv d s

/-- The function `Cgrp::Extract` of lines 69-331. -/
def Cgrp.Extract (cv : Converters) (self : Cgrp) (s : State) : Run :=
  match parse self.Data self.Length with
  | .error (.rejected e) => ⟨.returned false, s.emit e⟩
  | .error .outOfBounds => ⟨.outOfBounds, s⟩
  | .ok (d, files) => extractFrom cv self.Data self.P d files s

/-- Constructing the engine over a file and extracting it, from a fresh state. -/
def extract (cv : Converters) (file : List Nat) (p : Bool) : Run :=
  (Cgrp.open file p).Extract cv State.fresh

/-! ## Reading the log -/

/-- The files written, in order: directory, name and content. -/
def writes : List Event → List (List Str × Str × List Nat)
  | [] => []
  | .write cwd name bytes :: es => (cwd, name, bytes) :: writes es
  | _ :: es => writes es

/-- The directories created, in order. -/
def mkdirs : List Event → List (List Str × Str)
  | [] => []
  | .mkdir cwd name :: es => (cwd, name) :: mkdirs es
  | _ :: es => mkdirs es

/-- Whether an event is a converter call. -/
def Event.isConverterCall : Event → Bool
  | .cwarExtract _ => true
  | .cbnkConvert _ => true
  | .cseqConvert _ => true
  | _ => false

/-- The converter calls of a log, in order. -/
def calls (log : List Event) : List Event :=
  log.filter Event.isConverterCall

/-- The phase of the conversion pass a call belongs to: wave archives, then
banks, then sequences. -/
def Event.phase : Event → Nat
  | .cbnkConvert _ => 1
  | .cseqConvert _ => 2
  | _ => 0

/-- The log at the end of a step, whether the run goes on or is over. -/
def Flow.log : Flow State → List Event
  | .next s => s.log
  | .halt r => r.state.log

/-- The state a step ends in. -/
def Flow.endState : Flow State → State
  | .next s => s
  | .halt r => r.state

/-! ## Fields of the buffer and what the checks look at -/

/-- The value `ReadFixLen` decodes at `pos`, whatever the length of the buffer. -/
def valueAt (data : List Nat) (pos n : Nat) (littleEndian : Bool) : Nat :=
  if littleEndian then leValue ((data.drop pos).take n) else beValue ((data.drop pos).take n)

/-- The field of `n` bytes at `pos`, when it lies inside the buffer. -/
def field (data : List Nat) (pos n : Nat) (littleEndian : Bool) : Option Nat :=
  (ReadFixLen data pos n littleEndian).map Prod.fst

/-- The bytes `[p, p + L)` of the buffer, `L` being the little-endian u32 at
`p + 12`: the byte range a payload at `p` declares for itself. -/
def payloadBytes (data : List Nat) (p : Nat) : List Nat :=
  (data.drop p).take (valueAt data (p + 12) 4 true)

/-- One of the four header checks fails on a field that is there. -/
def HeaderCheckFails (file : List Nat) : Prop :=
  (∃ v, field file 0 4 false = some v ∧ v ≠ 0x43475250) ∨
  (∃ v, field file 4 2 true = some v ∧ v ≠ 0xFEFF) ∨
  (∃ v, field file 6 2 true = some v ∧ v ≠ 0x40) ∨
  (∃ v, field file 12 4 true = some v ∧ v ≠ file.length)

/-- The first three header checks pass. -/
def HeaderPrefixOk (file : List Nat) : Prop :=
  field file 0 4 false = some 0x43475250 ∧ field file 4 2 true = some 0xFEFF ∧
    field file 6 2 true = some 0x40

/-- A parsing step stopped on a failed `Common::Assert`. -/
def AssertRejects {α : Type} (r : Except ParseStop α) : Prop :=
  match r with
  | .error (.rejected (.assertFailed _ _)) => True
  | _ => False

/-- A parsing step that, when it rejects the container, reports a failed
comparison or an error, nothing else. -/
def Clean {α : Type} (r : Except ParseStop α) : Prop :=
  ∀ e, r = .error (.rejected e) → calls [e] = [] ∧ writes [e] = [] ∧ mkdirs [e] = []

/-- The chunk tag is one of INFO 0x7800, FILE 0x7801, INFX 0x7802. -/
def RecognisedTag (tag : Nat) : Prop :=
  tag = 0x7800 ∨ tag = 0x7801 ∨ tag = 0x7802

/-- The directory after a triple with a recognised tag; `none` for any other tag. -/
def Directory.assign (d : Directory) (tag o l : Nat) : Option Directory :=
  if tag = 0x7800 then some { d with infoOffset := o, infoLength := l }
  else if tag = 0x7801 then some { d with fileOffset := o, fileLength := l }
  else if tag = 0x7802 then some { d with infxOffset := o, infxLength := l }
  else none

/-- The entry `f` of the file table was decoded at the position `q` of the buffer. -/
def EntryAt (data : List Nat) (fo q : Nat) (f : CgrpFile) : Prop :=
  ∃ q1, readFile data fo q = .ok (f, q1)

/-- The type tag is one of the three whose payload is copied to a file:
'CWAR', 'CBNK' or 'CSEQ'. -/
def CopiedTag (tag : Nat) : Prop :=
  tag = 0x43574152 ∨ tag = 0x43424E4B ∨ tag = 0x43534551

/-- The type tag is one that `Extract` knows: 'CWAR', 'CBNK', 'CSEQ' or 'CWSD'. -/
def KnownFileTag (tag : Nat) : Prop :=
  tag = 0x43574152 ∨ tag = 0x43424E4B ∨ tag = 0x43534551 ∨ tag = 0x43575344

/-- The state after a wave archive with the bytes given was materialised. -/
def State.addCwar (s : State) (bytes : List Nat) : State :=
  { s with
    Cwars := s.Cwars ++ [Cwar.mk (to_string s.Cwars.length ++ ".cwar".toList) bytes]
    cwd := chdirPath (chdirPath s.cwd (to_string s.Cwars.length)) "..".toList
    log := s.log ++ [Event.mkdir s.cwd (to_string s.Cwars.length),
      Event.chdir (to_string s.Cwars.length),
      Event.write (chdirPath s.cwd (to_string s.Cwars.length))
        (to_string s.Cwars.length ++ ".cwar".toList) bytes,
      Event.chdir "..".toList] }

/-- The state after a bank with the bytes given was materialised. -/
def State.addCbnk (s : State) (P : Bool) (bytes : List Nat) : State :=
  { s with
    Cbnks := s.Cbnks ++ [Cbnk.mk (to_string s.Cbnks.length ++ ".cbnk".toList) bytes P]
    cwd := chdirPath (chdirPath s.cwd (to_string s.Cbnks.length)) "..".toList
    log := s.log ++ [Event.mkdir s.cwd (to_string s.Cbnks.length),
      Event.chdir (to_string s.Cbnks.length),
      Event.write (chdirPath s.cwd (to_string s.Cbnks.length))
        (to_string s.Cbnks.length ++ ".cbnk".toList) bytes,
      Event.chdir "..".toList] }

/-- The state after a sequence with the bytes given was materialised. -/
def State.addCseq (s : State) (bytes : List Nat) : State :=
  { s with
    Cseqs := s.Cseqs ++ [Cseq.mk (to_string s.Cseqs.length ++ ".cseq".toList) bytes]
    log := s.log ++ [Event.write s.cwd (to_string s.Cseqs.length ++ ".cseq".toList) bytes] }

/-- The kinds of sub-resource that are materialised. -/
inductive Kind where
  | WaveArchive
  | Bank
  | Sequence
  deriving DecidableEq, Repr

/-- The state after an entry of a kind with the bytes given was materialised. -/
def State.add (s : State) (P : Bool) (k : Kind) (bytes : List Nat) : State :=
  match k with
  | .WaveArchive => s.addCwar bytes
  | .Bank => s.addCbnk P bytes
  | .Sequence => s.addCseq bytes

/-- The number of handles of a kind. -/
def State.count (s : State) (k : Kind) : Nat :=
  match k with
  | .WaveArchive => s.Cwars.length
  | .Bank => s.Cbnks.length
  | .Sequence => s.Cseqs.length

/-- The kind of an entry of the file table: that of the type tag at its payload
pointer; none for an entry without a payload and for any other tag. -/
def kindOf (data : List Nat) (f : CgrpFile) : Option Kind :=
  match f.Offset with
  | none => none
  | some p =>
    if valueAt data p 4 false = 0x43574152 then some .WaveArchive
    else if valueAt data p 4 false = 0x43424E4B then some .Bank
    else if valueAt data p 4 false = 0x43534551 then some .Sequence
    else none

/-- The number of entries of a kind in a stretch of the file table. -/
def countKind (data : List Nat) (k : Kind) (files : List CgrpFile) : Nat :=
  files.countP fun f => kindOf data f = some k

/-- Where the sub-resource of index `j` of a kind goes, seen from the directory
`cwd`: the wave archive `j` is `j/j.cwar`, the bank `j` is `j/j.cbnk` and the
sequence `j` is `j.cseq`. -/
def densePath (cwd : List Str) (k : Kind) (j : Nat) : List Str × Str :=
  match k with
  | .WaveArchive => (to_string j :: cwd, to_string j ++ ".cwar".toList)
  | .Bank => (to_string j :: cwd, to_string j ++ ".cbnk".toList)
  | .Sequence => (cwd, to_string j ++ ".cseq".toList)

/-- The files a file table stands for, in table order: every entry of a kind is
written under the number of entries of its kind before it, `seen` being the
entries before `files`. -/
def denseWrites (data : List Nat) (cwd : List Str) (seen : List CgrpFile) :
    List CgrpFile → List (List Str × Str × List Nat)
  | [] => []
  | f :: files =>
    match kindOf data f, f.Offset with
    | some k, some p =>
      ((densePath cwd k (countKind data k seen)).1, (densePath cwd k (countKind data k seen)).2,
        payloadBytes data p) :: denseWrites data cwd (seen ++ [f]) files
    | _, _ => denseWrites data cwd (seen ++ [f]) files

/-- The names of the handles are the dense ones: handle `j` of a kind is over
the file named by `j`. -/
def State.NamesDense (s : State) : Prop :=
  s.Cwars.map (fun h => h.FileName) =
      (List.range s.Cwars.length).map (fun j => to_string j ++ ".cwar".toList) ∧
  s.Cbnks.map (fun h => h.FileName) =
      (List.range s.Cbnks.length).map (fun j => to_string j ++ ".cbnk".toList) ∧
  s.Cseqs.map (fun h => h.FileName) =
      (List.range s.Cseqs.length).map (fun j => to_string j ++ ".cseq".toList)

/-! ## The order of conversion -/

/-- The calls made out of a list of calls with their results: all of them up to
and including the first that reports failure. -/
def cutAfterFailure : List (Event × Bool) → List Event
  | [] => []
  | (e, ok) :: rest => e :: (if ok then cutAfterFailure rest else [])

/-- The calls on the wave archives `Cwars[i..]`, with their results. -/
def planCwars (cv : Converters) : Nat → List Cwar → List (Event × Bool)
  | _, [] => []
  | i, c :: cs => (.cwarExtract i, cv.cwarExtract c) :: planCwars cv (i + 1) cs

/-- The calls on the banks `Cbnks[i..]`, with their results. -/
def planCbnks (cv : Converters) (cwars : List Cwar) : Nat → List Cbnk → List (Event × Bool)
  | _, [] => []
  | i, c :: cs => (.cbnkConvert i, cv.cbnkConvert c cwars) :: planCbnks cv cwars (i + 1) cs

/-- The calls on the sequences `Cseqs[i..]`, with their results. -/
def planCseqs (cv : Converters) : Nat → List Cseq → List (Event × Bool)
  | _, [] => []
  | i, c :: cs => (.cseqConvert i, cv.cseqConvert c) :: planCseqs cv (i + 1) cs

/-- Every converter call the handles of a state stand for, in the fixed order:
wave archives, then banks, then sequences. -/
def plan (cv : Converters) (s : State) : List (Event × Bool) :=
  planCwars cv 0 s.Cwars ++ planCbnks cv s.Cwars 0 s.Cbnks ++ planCseqs cv 0 s.Cseqs

/-- The order of conversion for `a` wave archives, `b` banks and `c` sequences. -/
def callOrder (a b c : Nat) : List Event :=
  (List.range a).map Event.cwarExtract ++ (List.range b).map Event.cbnkConvert ++
    (List.range c).map Event.cseqConvert

/-- The second state has the handles of the first and its log goes on from the
log of the first without a file written or a directory made. -/
def Quiet (s s1 : State) : Prop :=
  s1.Cwars = s.Cwars ∧ s1.Cbnks = s.Cbnks ∧ s1.Cseqs = s.Cseqs ∧
    ∃ es, s1.log = s.log ++ es ∧ writes es = [] ∧ mkdirs es = []

/-- What a conversion loop did: `r` is how it ended from the state `s`, `p`
the calls it stood for. -/
def LoopRan (s : State) (p : List (Event × Bool)) (r : Flow State) : Prop :=
  match r with
  | .next s1 => (p.all fun x => x.2) = true ∧ Quiet s s1 ∧
      calls s1.log = calls s.log ++ cutAfterFailure p
  | .halt r => (p.all fun x => x.2) = false ∧ r.outcome = .returned false ∧ Quiet s r.state ∧
      calls r.state.log = calls s.log ++ cutAfterFailure p

/-! ## The log as a write-only record -/

/-- The state with the events `w` put before its log. -/
def State.prepend (w : List Event) (s : State) : State :=
  { s with log := w ++ s.log }

/-- The run with the events `w` put before its log. -/
def Run.prepend (w : List Event) (r : Run) : Run :=
  ⟨r.outcome, r.state.prepend w⟩

/-- The step with the events `w` put before its log. -/
def Flow.prepend (w : List Event) : Flow State → Flow State
  | .next s => .next (s.prepend w)
  | .halt r => .halt (r.prepend w)

/-! ## Building containers -/

/-- Little-endian bytes of a 16-bit value. -/
def le16 (v : Nat) : List Nat := [v % 256, v / 256 % 256]

/-- Little-endian bytes of a 32-bit value. -/
def le32 (v : Nat) : List Nat := [v % 256, v / 256 % 256, v / 65536 % 256, v / 16777216 % 256]

/-- The four bytes of a tag, most significant first. -/
def be32 (v : Nat) : List Nat := [v / 16777216 % 256, v / 65536 % 256, v / 256 % 256, v % 256]

/-- The twenty bytes of a header: magic, byte-order mark, header size, version
1, the total length and the chunk count given. -/
def headerBytes (total count : Nat) : List Nat :=
  be32 0x43475250 ++ le16 0xFEFF ++ le16 0x40 ++ le32 1 ++ le32 total ++ le32 count

/-- The twelve bytes of a directory triple: tag, offset, length. -/
def encodeTriple (t : Nat × Nat × Nat) : List Nat :=
  le32 t.1 ++ le32 t.2.1 ++ le32 t.2.2

/-- The bytes of a chunk directory. -/
def encodeDir : List (Nat × Nat × Nat) → List Nat
  | [] => []
  | t :: ts => encodeTriple t ++ encodeDir ts

/-- The file-table entries of a container, one per element: an entry without a
payload (flag 0, twelve bytes) for `none`, an entry with the sentinel flag and
the raw offset of its payload (sixteen bytes) for `some payload`; `raw` is the
raw offset of the next payload. -/
def entryBytes : Nat → List (Option (List Nat)) → List Nat
  | _, [] => []
  | raw, none :: es => le32 0 ++ le32 0 ++ le32 0 ++ entryBytes raw es
  | raw, some payload :: es =>
    le32 0 ++ le32 0x1F00 ++ le32 raw ++ le32 payload.length ++
      entryBytes (raw + payload.length) es

/-- The slots of a container with `n` entries: the tag 0x7900 and an offset. -/
def slotBytes : Nat → List Nat
  | 0 => []
  | n + 1 => le32 0x7900 ++ le32 0 ++ slotBytes n

/-- The payloads of a table, one after the other. -/
def payloadArea : List (Option (List Nat)) → List Nat
  | [] => []
  | none :: es => payloadArea es
  | some payload :: es => payload ++ payloadArea es

/-- A container in the layout `Extract` reads, around a table of entries: the
header, a directory of the INFO and the FILE chunk, the INFO chunk with its
slots and entries, and the FILE chunk with the payloads. -/
def containerOf (entries : List (Option (List Nat))) : List Nat :=
  let table := entryBytes 0 entries
  let infoLength := 12 + 8 * entries.length + table.length
  let body := payloadArea entries
  be32 0x43475250 ++ le16 0xFEFF ++ le16 0x40 ++ le32 1 ++
    le32 (44 + infoLength + 8 + body.length) ++ le32 2 ++
    (le32 0x7800 ++ le32 44 ++ le32 infoLength) ++
    (le32 0x7801 ++ le32 (44 + infoLength) ++ le32 (8 + body.length)) ++
    (be32 0x494E464F ++ le32 infoLength ++ le32 entries.length) ++
    slotBytes entries.length ++ table ++
    (be32 0x46494C45 ++ le32 (8 + body.length)) ++ body

/-- A sub-resource payload: the type tag, eight bytes, the length field and
the rest. -/
def payloadOf (tag : Nat) (mid : List Nat) (len : Nat) (rest : List Nat) : List Nat :=
  be32 tag ++ mid ++ le32 len ++ rest

/-- A payload of sixteen bytes with the type tag given: the tag, eight zero
bytes and the length field 16. -/
def tinyPayload (tag : Nat) : List Nat :=
  payloadOf tag [0, 0, 0, 0, 0, 0, 0, 0] 16 []

/-- The smallest container `Extract` takes: the header, a directory of the INFO
and the FILE chunk, an INFO chunk with one slot and one entry whose flag is the
sentinel and whose raw offset is 0, and a FILE chunk whose body is `payload`.
Format version 1; every length field is the length it names. -/
def minimalContainer (payload : List Nat) : List Nat :=
  be32 0x43475250 ++ le16 0xFEFF ++ le16 0x40 ++ le32 1 ++ le32 (88 + payload.length) ++ le32 2
  ++ (le32 0x7800 ++ le32 44 ++ le32 36)
  ++ (le32 0x7801 ++ le32 80 ++ le32 (8 + payload.length))
  ++ (be32 0x494E464F ++ le32 36 ++ le32 1)
  ++ (le32 0x7900 ++ le32 12)
  ++ (le32 0 ++ le32 0x1F00 ++ le32 0 ++ le32 payload.length)
  ++ (be32 0x46494C45 ++ le32 (8 + payload.length))
  ++ payload

/-! ## Concrete inputs -/

/-- Converters that always succeed. -/
def allSucceed : Converters := ⟨fun _ => true, fun _ _ => true, fun _ => true⟩

/-- Converters of which the bank converter fails. -/
def bankFails : Converters := ⟨fun _ => true, fun _ _ => false, fun _ => true⟩

/-- A header of sixteen bytes that declares a total length of 100. -/
def truncatedHeader : List Nat :=
  [0x43, 0x47, 0x52, 0x50, 0xFF, 0xFE, 0x40, 0, 1, 0, 0, 0, 100, 0, 0, 0]

/-- What follows the directory in a container of one sequence: the INFO chunk
with one slot and one entry, the FILE chunk header and a 'CSEQ' payload of
sixteen bytes. -/
def oneSequenceBody : List Nat :=
  (be32 0x494E464F ++ le32 36 ++ le32 1) ++ (le32 0x7900 ++ le32 0) ++
    (le32 0 ++ le32 0x1F00 ++ le32 0 ++ le32 16) ++ (be32 0x46494C45 ++ le32 24) ++
    tinyPayload 0x43534551

/-- A table with two wave archives, one bank and three sequences, interleaved. -/
def mixedTable : List (Option (List Nat)) :=
  [some (tinyPayload 0x43534551), some (tinyPayload 0x43574152), some (tinyPayload 0x43534551),
    some (tinyPayload 0x43424E4B), some (tinyPayload 0x43574152), some (tinyPayload 0x43534551)]

/-- The directory of the container around `mixedTable`. -/
def mixedDirectory : Directory := ⟨44, 156, 200, 104, 0, 0⟩

/-- The file table of the container around `mixedTable`. -/
def mixedFiles : List CgrpFile :=
  [⟨0, some 208, 16⟩, ⟨0, some 224, 16⟩, ⟨0, some 240, 16⟩, ⟨0, some 256, 16⟩,
    ⟨0, some 272, 16⟩, ⟨0, some 288, 16⟩]

/-- A table with a sequence, an entry without payload and another sequence. -/
def gappedTable : List (Option (List Nat)) :=
  [some (tinyPayload 0x43534551), none, some (tinyPayload 0x43534551)]

/-- A table with a sequence, a 'CWSD' payload and another sequence. -/
def cwsdTable : List (Option (List Nat)) :=
  [some (tinyPayload 0x43534551), some (tinyPayload 0x43575344), some (tinyPayload 0x43534551)]

/-- A directory that names the INFO chunk twice: the second triple wins. -/
def twiceInfoDir : List (Nat × Nat × Nat) :=
  [(0x7800, 0, 0), (0x7800, 56, 36), (0x7801, 92, 24)]

/-- A directory of three distinct tags whose INFO triple points into the
directory itself: the INFO chunk it names starts at offset 28, on the length
field of the first triple. -/
def selfPointingDir : List (Nat × Nat × Nat) :=
  [(0x7802, 1, 0x4F464E49), (0x7801, 0, 0), (0x7800, 28, 0x7801)]

/-- A directory whose second triple has the tag 0x7803. -/
def strayTagDir : List (Nat × Nat × Nat) :=
  [(0x7800, 56, 36), (0x7803, 0, 0), (0x7801, 92, 24)]

/-! ## The directory, the file table and the log, in closed form -/

/-- Whether an event is the warning about the INFX chunk. -/
def Event.isInfxWarning : Event → Bool
  | .warning _ message => message == "Skipping INFX chunk"
  | _ => false

/-- The warnings about the INFX chunk in a log, in order. -/
def infxWarnings (log : List Event) : List Event :=
  log.filter Event.isInfxWarning

/-- The offset and the length the `count` triples from `pos` on leave for a tag:
those of the last triple that carries it, `v` when there is none. -/
def lastTriple (data : List Nat) (tag : Nat) : Nat → Nat → Nat × Nat → Nat × Nat
  | 0, _, v => v
  | count + 1, pos, v =>
    lastTriple data tag count (pos + 12)
      (if valueAt data pos 4 true = tag then
        (valueAt data (pos + 4) 4 true, valueAt data (pos + 8) 4 true)
      else v)

/-- Whether an event is one the walk over the file table can leave: a directory
made or entered, a file written, the warning about a 'CWSD' payload or the
report of an unrecognised type tag. -/
def Event.fromWalk : Event → Bool
  | .mkdir _ _ => true
  | .chdir _ => true
  | .write _ _ _ => true
  | .warning _ message => message == "Skipping CWSD"
  | .error _ message _ => message == "A valid file type"
  | _ => false

/-- Whether an event is one a conversion loop can leave: a directory entered or
a converter call. -/
def Event.fromLoops : Event → Bool
  | .chdir _ => true
  | .cwarExtract _ => true
  | .cbnkConvert _ => true
  | .cseqConvert _ => true
  | _ => false

/-- The log of the second state goes on from the log of the first with events
that all satisfy `p`. -/
def Extends (p : Event → Bool) (log log1 : List Event) : Prop :=
  ∃ es, log1 = log ++ es ∧ ∀ e ∈ es, p e = true

/-- The tail of the log the end of `Extract` leaves: the INFX warning when the
INFX offset is not 0. -/
def infxTail (d : Directory) : List Event :=
  if d.infxOffset ≠ 0 then [.warning d.infxOffset "Skipping INFX chunk"] else []

/-- The six directory values in which, for every tag, the last of the `count`
triples from `pos` on that carries the tag has the say; 0 for a tag that no
triple carries. -/
def Directory.ofLast (data : List Nat) (count pos : Nat) : Directory :=
  ⟨(lastTriple data 0x7800 count pos (0, 0)).1, (lastTriple data 0x7800 count pos (0, 0)).2,
    (lastTriple data 0x7801 count pos (0, 0)).1, (lastTriple data 0x7801 count pos (0, 0)).2,
    (lastTriple data 0x7802 count pos (0, 0)).1, (lastTriple data 0x7802 count pos (0, 0)).2⟩

/-- Lines 125-330 of `Extract`, from the six directory values on, in a fresh
state: the INFO chunk, the walk over the file table and the conversion pass. -/
def afterDirectory (cv : Converters) (data : List Nat) (P : Bool) (d : Directory) : Run :=
  match readInfo data d with
  | .error (.rejected e) => ⟨.returned false, State.fresh.emit e⟩
  | .error .outOfBounds => ⟨.outOfBounds, State.fresh⟩
  | .ok files => extractFrom cv data P d files State.fresh

/-- The number of bytes the entry of the file table at `q` takes: sixteen when
its flag is the sentinel 0x1F00, the raw offset being there, twelve otherwise. -/
def entrySize (data : List Nat) (q : Nat) : Nat :=
  if valueAt data (q + 4) 4 true = 0x1F00 then 16 else 12

/-- The entry of the file table at `q`: the id at `q`, the flag at `q + 4`,
then the raw offset at `q + 8` and the length at `q + 12` when the flag is the
sentinel 0x1F00, the length at `q + 8` otherwise. -/
def decodeEntry (data : List Nat) (fo q : Nat) : CgrpFile :=
  if valueAt data (q + 4) 4 true = 0x1F00 then
    ⟨valueAt data q 4 true, some (fo + 8 + valueAt data (q + 8) 4 true),
      valueAt data (q + 12) 4 true⟩
  else ⟨valueAt data q 4 true, none, valueAt data (q + 8) 4 true⟩

/-- The position of the entry `k` of a file table that starts at `pos`: every
entry before it has taken its `entrySize`. -/
def entryPos (data : List Nat) : Nat → Nat → Nat
  | pos, 0 => pos
  | pos, k + 1 => entryPos data (pos + entrySize data pos) k

/-! ## Buffers that hold the same bytes in the fields that are used -/

/-- Two buffers hold the same bytes in the range `[pos, pos + n)`. -/
def SameAt (d1 d2 : List Nat) (pos n : Nat) : Prop :=
  (d1.drop pos).take n = (d2.drop pos).take n

/-- The directory values that have a say in what `Extract` does: all but the
FILE length and the INFX length, which are assigned and never looked at. -/
def Directory.used (d : Directory) : Nat × Nat × Nat × Nat :=
  (d.infoOffset, d.infoLength, d.fileOffset, d.infxOffset)

/-- Two parsing steps end alike: both stop, for the same reason, or both have a
result, the two results being related by `R`. -/
def Alike {α : Type} (R : α → α → Prop) (x y : Except ParseStop α) : Prop :=
  match x, y with
  | .ok a, .ok b => R a b
  | .error e1, .error e2 => e1 = e2
  | _, _ => False

/-- The fields of the header that `Extract` uses hold the same bytes in the two
buffers: the magic, the byte-order mark, the header size, the total length and
the chunk count; the version at the bytes 8..11 is not among them. -/
def SameHeader (d1 d2 : List Nat) : Prop :=
  SameAt d1 d2 0 4 ∧ SameAt d1 d2 4 2 ∧ SameAt d1 d2 6 2 ∧ SameAt d1 d2 12 4 ∧ SameAt d1 d2 16 4

/-- The fields of the `count` directory triples from `pos` on that `Extract`
uses hold the same bytes in the two buffers: every tag, every offset, and the
length of a triple tagged INFO 0x7800; the lengths of the FILE and INFX triples
are not among them. -/
def SameDirectory (d1 d2 : List Nat) (count pos : Nat) : Prop :=
  ∀ k < count, SameAt d1 d2 (pos + 12 * k) 4 ∧ SameAt d1 d2 (pos + 12 * k + 4) 4 ∧
    (valueAt d1 (pos + 12 * k) 4 true = 0x7800 → SameAt d1 d2 (pos + 12 * k + 8) 4)

/-- The fields of the INFO chunk at `io` that `Extract` uses hold the same bytes
in the two buffers: the magic, the length, the entry count and the tag of every
slot; the offset after the tag of a slot is not among them. -/
def SameInfo (d1 d2 : List Nat) (io : Nat) : Prop :=
  SameAt d1 d2 io 4 ∧ SameAt d1 d2 (io + 4) 4 ∧ SameAt d1 d2 (io + 8) 4 ∧
    ∀ j < valueAt d1 (io + 8) 4 true, SameAt d1 d2 (io + 12 + 8 * j) 4

/-- The fields of the `count` entries of the file table at `pos` that `Extract`
uses hold the same bytes in the two buffers: the flag of every entry and the raw
offset of an entry whose flag is the sentinel; the id and the length of an entry
are not among them. -/
def SameEntries (d1 d2 : List Nat) (count pos : Nat) : Prop :=
  ∀ k < count, SameAt d1 d2 (entryPos d1 pos k + 4) 4 ∧
    (valueAt d1 (entryPos d1 pos k + 4) 4 true = 0x1F00 →
      SameAt d1 d2 (entryPos d1 pos k + 8) 4)

/-- What `Extract` uses of the payload at `p` holds the same bytes in the two
buffers: the type tag and, for a payload that is copied ('CWAR', 'CBNK',
'CSEQ'), the length field at `p + 12` and the bytes of the payload range. -/
def SamePayload (d1 d2 : List Nat) (p : Nat) : Prop :=
  SameAt d1 d2 p 4 ∧ (CopiedTag (valueAt d1 p 4 false) →
    SameAt d1 d2 (p + 12) 4 ∧ SameAt d1 d2 p (valueAt d1 (p + 12) 4 true))

/-! ## The RIFF writer (sf2cute-0.1/src/sf2cute/riff.cpp) -/

/-- The largest value of a `uint32_t`. -/
def UINT32_MAX : Nat := 4294967295

/-- A chunk held through `RIFFChunkInterface`: a `RIFFChunk` with its name and
its data, or a `RIFFListChunk` with its list type and its subchunks.  A name is
the bytes of a `std::string`. -/
inductive RIFFChunkInterface where
  | chunk (name : List Nat) (data : List Nat)
  | list (name : List Nat) (subchunks : List RIFFChunkInterface)

/-- A `RIFF` object: its form type and its chunks. -/
structure RIFF where
  name : List Nat
  chunks : List RIFFChunkInterface

mutual
/-- The functions `RIFFChunk::size` (riff.cpp lines 66-72) and
`RIFFListChunk::size` (lines 178-184), the sizes being natural numbers. -/
def RIFFChunkInterface.size : RIFFChunkInterface → Nat
  | .chunk _ data => 8 + (if data.length % 2 ≠ 0 then data.length + 1 else data.length)
  | .list _ subchunks => 12 + sizeSum subchunks
/-- The loop `chunk_size += subchunk->size()` over a vector of chunks. -/
def sizeSum : List RIFFChunkInterface → Nat
  | [] => 0
  | c :: cs => c.size + sizeSum cs
end

/-- The function `RIFF::size` of lines 276-282. -/
def RIFF.size (r : RIFF) : Nat := 12 + sizeSum r.chunks

/-- Modelled from the spec: `InsertInt8` of byteio.hpp, which is not among the
sources: it appends one byte to the stream. -/
def InsertInt8 (out : List Nat) (v : Nat) : List Nat := out ++ [v % 256]

/-- Modelled from the spec: `InsertInt32L` of byteio.hpp, which is not among the
sources: it appends the four bytes of a 32-bit value to the stream, the least
significant first. -/
def InsertInt32L (out : List Nat) (v : Nat) : List Nat := out ++ le32 v

/-- The function `RIFFChunk::WriteHeader` of lines 102-133 on a stream that
takes every byte: the stream after it, or, as an error, the stream as it is
when `std::length_error` is thrown. -/
def RIFFChunk.WriteHeader (out name : List Nat) (size : Nat) : Except (List Nat) (List Nat) :=
  if size > UINT32_MAX then .error out
  else .ok (InsertInt32L (out ++ name) (size % 2 ^ 32))

/-- The function `RIFFListChunk::WriteHeader` of lines 198-231. -/
def RIFFListChunk.WriteHeader (out name : List Nat) (size : Nat) :
    Except (List Nat) (List Nat) :=
  if size > UINT32_MAX then .error out
  else .ok (InsertInt32L (out ++ [0x4C, 0x49, 0x53, 0x54]) (size % 2 ^ 32) ++ name)

/-- The function `RIFF::WriteHeader` of lines 312-341. -/
def RIFF.WriteHeader (out name : List Nat) (size : Nat) : Except (List Nat) (List Nat) :=
  if size > UINT32_MAX then .error out
  else .ok (InsertInt32L (out ++ [0x52, 0x49, 0x46, 0x46]) (size % 2 ^ 32) ++ name)

mutual
/-- The functions `RIFFChunk::Write` (lines 75-99) and `RIFFListChunk::Write`
(lines 187-195) on a stream that takes every byte. -/
def RIFFChunkInterface.Write : RIFFChunkInterface → List Nat → Except (List Nat) (List Nat)
  | .chunk name data, out =>
    match RIFFChunk.WriteHeader out name data.length with
    | .error out => .error out
    | .ok out =>
      let out := out ++ data
      if data.length % 2 ≠ 0 then .ok (InsertInt8 out 0) else .ok out
  | .list name subchunks, out =>
    match RIFFListChunk.WriteHeader out name
        ((RIFFChunkInterface.list name subchunks).size - 8) with
    | .error out => .error out
    | .ok out => writeEach subchunks out
/-- The loop `subchunk->Write(out)` over a vector of chunks. -/
def writeEach : List RIFFChunkInterface → List Nat → Except (List Nat) (List Nat)
  | [], out => .ok out
  | c :: cs, out =>
    match c.Write out with
    | .error out => .error out
    | .ok out => writeEach cs out
end

/-- The function `RIFF::Write` of lines 285-309. -/
def RIFF.Write (r : RIFF) (out : List Nat) : Except (List Nat) (List Nat) :=
  match RIFF.WriteHeader out r.name (r.size - 8) with
  | .error out => .error out
  | .ok out => writeEach r.chunks out

/-- The size a chunk hands to its `WriteHeader`: the length of the data of a
`RIFFChunk`, `size() - 8` for a `RIFFListChunk`. -/
def RIFFChunkInterface.payloadSize (c : RIFFChunkInterface) : Nat :=
  match c with
  | .chunk _ data => data.length
  | .list _ _ => c.size - 8

mutual
/-- Whether a chunk is one the constructors make and `Write` takes: every name
in it has four bytes, as `set_name` sees to, and every payload size in it is at
most `UINT32_MAX`. -/
def RIFFChunkInterface.fits : RIFFChunkInterface → Bool
  | .chunk name data => decide (name.length = 4) && decide (data.length ≤ UINT32_MAX)
  | .list name subchunks =>
    decide (name.length = 4) &&
      decide ((RIFFChunkInterface.list name subchunks).size - 8 ≤ UINT32_MAX) &&
      fitEach subchunks
/-- Whether every chunk of a vector fits. -/
def fitEach : List RIFFChunkInterface → Bool
  | [] => true
  | c :: cs => c.fits && fitEach cs
end

/-- Whether a `RIFF` object fits: a form type of four bytes, a payload size of
at most `UINT32_MAX`, and chunks that fit. -/
def RIFF.fits (r : RIFF) : Bool :=
  decide (r.name.length = 4) && decide (r.size - 8 ≤ UINT32_MAX) && fitEach r.chunks

mutual
/-- The bytes a chunk stands for: the name, the payload size and the data with
its pad byte, or 'LIST', the payload size, the list type and the subchunks. -/
def RIFFChunkInterface.serialised : RIFFChunkInterface → List Nat
  | .chunk name data =>
    name ++ le32 data.length ++ data ++ (if data.length % 2 ≠ 0 then [0] else [])
  | .list name subchunks =>
    [0x4C, 0x49, 0x53, 0x54] ++ le32 ((RIFFChunkInterface.list name subchunks).size - 8) ++
      name ++ serialisedEach subchunks
/-- The bytes a vector of chunks stands for. -/
def serialisedEach : List RIFFChunkInterface → List Nat
  | [] => []
  | c :: cs => c.serialised ++ serialisedEach cs
end

/-- The bytes a `RIFF` object stands for. -/
def RIFF.serialised (r : RIFF) : List Nat :=
  [0x52, 0x49, 0x46, 0x46] ++ le32 (r.size - 8) ++ r.name ++ serialisedEach r.chunks

/-! ## Further concrete inputs -/

/-- A directory with an INFX triple whose offset is 0. -/
def infxAtZeroDir : List (Nat × Nat × Nat) :=
  [(0x7800, 56, 36), (0x7801, 92, 24), (0x7802, 0, 0)]

/-- A directory with an INFX triple whose offset is 116. -/
def infxDir : List (Nat × Nat × Nat) :=
  [(0x7800, 56, 36), (0x7801, 92, 24), (0x7802, 116, 0)]

/-- The directory of a container of one sequence that declares 37 bytes for an
INFO chunk whose own header says 36. -/
def longInfoDir : List (Nat × Nat × Nat) :=
  [(0x7800, 44, 37), (0x7801, 80, 24)]

/-- The directory of a container of one sequence that declares 999 bytes for a
FILE chunk whose own header says 24. -/
def longFileDir : List (Nat × Nat × Nat) :=
  [(0x7800, 44, 36), (0x7801, 80, 999)]

/-- A container of two entries that tells the fields of its INFO chunk apart:
the slots hold the offsets 5 and 6, the first entry has the id 7, the sentinel
flag, the raw offset 0 and the length 16, the second the id 9, the flag 0 and
the length 3; the payload is a sequence of sixteen bytes. -/
def layoutProbe : List Nat :=
  headerBytes 124 2 ++ encodeDir [(0x7800, 44, 56), (0x7801, 100, 24)] ++
    (be32 0x494E464F ++ le32 56 ++ le32 2) ++ (le32 0x7900 ++ le32 5 ++ le32 0x7900 ++ le32 6) ++
    (le32 7 ++ le32 0x1F00 ++ le32 0 ++ le32 16) ++ (le32 9 ++ le32 0 ++ le32 3) ++
    (be32 0x46494C45 ++ le32 24) ++ tinyPayload 0x43534551

/-- Converters of which the wave archive converter fails. -/
def archiveFails : Converters := ⟨fun _ => false, fun _ _ => true, fun _ => true⟩

/-- A list chunk with a chunk of three bytes of data in it. -/
def smallList : RIFFChunkInterface :=
  .list [0x49, 0x4E, 0x46, 0x4F] [.chunk [0x69, 0x66, 0x69, 0x6C] [1, 0, 2]]

/-- A `RIFF` object with a list chunk and a chunk of one byte of data. -/
def smallRiff : RIFF :=
  ⟨[0x73, 0x66, 0x62, 0x6B], [smallList, .chunk [0x64, 0x61, 0x74, 0x61] [7]]⟩

/-- A buffer of sixteen bytes that passes the four header checks: it declares
the total length 16 and ends before the chunk count. -/
def shortHeader : List Nat :=
  [0x43, 0x47, 0x52, 0x50, 0xFF, 0xFE, 0x40, 0, 1, 0, 0, 0, 16, 0, 0, 0]

/-- The minimal container around a sequence payload of sixteen bytes whose
length field says 1000. -/
def overlongPayload : List Nat :=
  minimalContainer (payloadOf 0x43534551 [0, 0, 0, 0, 0, 0, 0, 0] 1000 [])

/-- A container of one sequence without a FILE chunk: the directory holds the
INFO triple alone, and the raw offset 60 of the entry points, from the base 0,
at the payload at offset 68. -/
def filelessContainer : List Nat :=
  headerBytes 84 1 ++ encodeDir [(0x7800, 32, 36)] ++
    (be32 0x494E464F ++ le32 36 ++ le32 1) ++ (le32 0x7900 ++ le32 0) ++
    (le32 0 ++ le32 0x1F00 ++ le32 60 ++ le32 16) ++ tinyPayload 0x43534551

/-- The container `layoutProbe` with other values in the fields that are read
and not used: the version 2, the FILE length 999 in the directory, the slot
offsets 50 and 60, the ids 70 and 90 and the entry lengths 160 and 30. -/
def layoutProbeOther : List Nat :=
  be32 0x43475250 ++ le16 0xFEFF ++ le16 0x40 ++ le32 2 ++ le32 124 ++ le32 2 ++
    encodeDir [(0x7800, 44, 56), (0x7801, 100, 999)] ++
    (be32 0x494E464F ++ le32 56 ++ le32 2) ++
    (le32 0x7900 ++ le32 50 ++ le32 0x7900 ++ le32 60) ++
    (le32 70 ++ le32 0x1F00 ++ le32 0 ++ le32 160) ++ (le32 90 ++ le32 0 ++ le32 30) ++
    (be32 0x46494C45 ++ le32 24) ++ tinyPayload 0x43534551

/-- The directory `selfPointingDir` with the length 0 in its INFX triple. -/
def selfPointingDirBlank : List (Nat × Nat × Nat) :=
  [(0x7802, 1, 0), (0x7801, 0, 0), (0x7800, 28, 0x7801)]

/-- A container of 32 bytes that passes the header checks and whose directory
holds one INFO triple with the offset 1000, past the end of the buffer. -/
def pastEndInfo : List Nat :=
  headerBytes 32 1 ++ encodeDir [(0x7800, 1000, 0)]

/-- A container of 36 bytes that passes the header checks and whose INFO triple
points at offset 32, where the buffer ends after the four bytes 'INFO'. -/
def magicOnlyInfo : List Nat :=
  headerBytes 36 1 ++ encodeDir [(0x7800, 32, 8)] ++ be32 0x494E464F

/-- A container of 36 bytes that passes the header checks and whose INFO triple
points at offset 32, where the buffer ends after four zero bytes. -/
def cornerInfo : List Nat :=
  headerBytes 36 1 ++ encodeDir [(0x7800, 32, 0)] ++ [0, 0, 0, 0]

/-! # Theorems -/

/-! ## The cursor, in closed form -/

theorem ReadFixLen_eq (data : List Nat) (pos n : Nat) (le : Bool) :
    ReadFixLen data pos n le =
      if pos + n ≤ data.length then some (valueAt data pos n le, pos + n) else none := by
  unfold ReadFixLen slice valueAt
  split_ifs <;> rfl

theorem rd_eq (data : List Nat) (pos n : Nat) (le : Bool) :
    rd data pos n le =
      if pos + n ≤ data.length then .ok (valueAt data pos n le, pos + n)
      else .error .outOfBounds := by
  unfold rd
  rw [ReadFixLen_eq]
  split_ifs <;> rfl

theorem field_eq (data : List Nat) (pos n : Nat) (le : Bool) :
    field data pos n le =
      if pos + n ≤ data.length then some (valueAt data pos n le) else none := by
  unfold field
  rw [ReadFixLen_eq]
  split_ifs <;> rfl

theorem field_eq_some {data : List Nat} {pos n : Nat} {le : Bool} {v : Nat}
    (h : field data pos n le = some v) :
    pos + n ≤ data.length ∧ valueAt data pos n le = v := by
  rw [field_eq] at h
  split_ifs at h with hb
  exact ⟨hb, by simpa using h⟩

/-! ## C1: the header checks -/

theorem readHeader_rejects (file : List Nat) (h : HeaderCheckFails file) :
    AssertRejects (readHeader file file.length) := by
  unfold readHeader
  simp only [rd_eq, Assert, bind, Except.bind]
  rcases h with ⟨v, hv, hne⟩ | ⟨v, hv, hne⟩ | ⟨v, hv, hne⟩ | ⟨v, hv, hne⟩ <;>
    obtain ⟨hb, hval⟩ := field_eq_some hv <;> subst hval
  · simp only [hb, if_true, if_neg (Ne.symm hne), AssertRejects]
  · have h1 : 0 + 4 ≤ file.length := by omega
    simp only [h1, hb, if_true, if_neg (Ne.symm hne)]
    by_cases c1 : 1128747600 = valueAt file 0 4 false
    · simp only [c1, if_true, hb, if_neg (Ne.symm hne), AssertRejects]
    · simp only [c1, if_false, AssertRejects]
  · have h1 : 0 + 4 ≤ file.length := by omega
    have h2 : 0 + 4 + 2 ≤ file.length := by omega
    have h3 : 0 + 4 + 2 + 2 ≤ file.length := by omega
    simp only [h1, h2, h3, if_true, if_neg (Ne.symm hne)]
    by_cases c1 : 1128747600 = valueAt file 0 4 false
    · by_cases c2 : 65279 = valueAt file (0 + 4) 2 true
      · simp only [c1, c2, if_true, if_neg (Ne.symm hne), AssertRejects]
      · simp only [c1, c2, if_true, if_false, AssertRejects]
    · simp only [c1, if_false, AssertRejects]
  · have h1 : 0 + 4 ≤ file.length := by omega
    have h2 : 0 + 4 + 2 ≤ file.length := by omega
    have h3 : 0 + 4 + 2 + 2 ≤ file.length := by omega
    have h4 : 0 + 4 + 2 + 2 + 4 ≤ file.length := by omega
    have h5 : 0 + 4 + 2 + 2 + 4 + 4 ≤ file.length := by omega
    simp only [h1, h2, h3, h4, h5, if_true]
    by_cases c1 : 1128747600 = valueAt file 0 4 false
    · by_cases c2 : 65279 = valueAt file (0 + 4) 2 true
      · by_cases c3 : 64 = valueAt file (0 + 4 + 2) 2 true
        · simp only [c1, c2, c3, if_true, if_neg (Ne.symm hne), AssertRejects]
        · simp only [c1, c2, c3, if_true, if_false, AssertRejects]
      · simp only [c1, c2, if_true, if_false, AssertRejects]
    · simp only [c1, if_false, AssertRejects]

theorem AssertRejects.exists {α : Type} {r : Except ParseStop α} (h : AssertRejects r) :
    ∃ e a, r = .error (.rejected (.assertFailed e a)) := by
  unfold AssertRejects at h
  split at h
  · exact ⟨_, _, rfl⟩
  · exact h.elim

theorem extract_of_readHeader_rejected (cv : Converters) (file : List Nat) (p : Bool)
    (e : Event) (h : readHeader file file.length = .error (.rejected e)) :
    extract cv file p = ⟨.returned false, State.fresh.emit e⟩ := by
  simp only [extract, Cgrp.Extract, Cgrp.open, parse, h, bind, Except.bind]

theorem readHeader_length_check (file : List Nat) (h : HeaderPrefixOk file) (v : Nat)
    (hv : field file 12 4 true = some v) (hne : v ≠ file.length) :
    readHeader file file.length = .error (.rejected (.assertFailed file.length v)) := by
  obtain ⟨h1, h2, h3⟩ := h
  obtain ⟨b1, v1⟩ := field_eq_some h1
  obtain ⟨b2, v2⟩ := field_eq_some h2
  obtain ⟨b3, v3⟩ := field_eq_some h3
  obtain ⟨b4, v4⟩ := field_eq_some hv
  have b5 : 0 + 4 + 2 + 2 + 4 ≤ file.length := by omega
  unfold readHeader
  simp only [rd_eq, Assert, bind, Except.bind, b1, b2, b3, b4, b5, v1, v2, v3, v4, if_true,
    if_neg (Ne.symm hne)]

/-- C1: when one of the four header checks fails (the magic 'CGRP' read
big-endian at 0, the u16 0xFEFF at 4, the u16 0x40 at 6, the u32 at 12 against
the real length of the buffer), `Extract` returns false and has written no file,
made no directory and created no handle; and a buffer that passes the first three
checks and declares a length that is not its own stops on the length check: that
failed comparison is the only thing the run reports. -/
theorem C1_header_check_failure (cv : Converters) (file : List Nat) (p : Bool)
    (h : HeaderCheckFails file) :
    (extract cv file p).outcome = .returned false ∧
    writes (extract cv file p).state.log = [] ∧
    mkdirs (extract cv file p).state.log = [] ∧
    (extract cv file p).state.Cwars = [] ∧
    (extract cv file p).state.Cbnks = [] ∧
    (extract cv file p).state.Cseqs = [] ∧
    (HeaderPrefixOk file → ∀ v, field file 12 4 true = some v → v ≠ file.length →
      extract cv file p = ⟨.returned false, State.fresh.emit (.assertFailed file.length v)⟩) := by
  obtain ⟨e, a, hr⟩ := (readHeader_rejects file h).exists
  rw [extract_of_readHeader_rejected cv file p _ hr]
  refine ⟨rfl, rfl, rfl, rfl, rfl, rfl, ?_⟩
  intro hp v hv hne
  have h2 := readHeader_length_check file hp v hv hne
  rw [hr] at h2
  rw [(ParseStop.rejected.inj (Except.error.inj h2))]

/-- C1 at a truncated buffer: the first three checks pass, the declared length
is 100 and the buffer has 16 bytes. -/
theorem C1_header_check_failure_witness :
    extract ⟨fun _ => true, fun _ _ => true, fun _ => true⟩ truncatedHeader false
      = ⟨.returned false, State.fresh.emit (.assertFailed 16 100)⟩ :=
  (C1_header_check_failure ⟨fun _ => true, fun _ _ => true, fun _ => true⟩ truncatedHeader false
    (Or.inr (Or.inr (Or.inr ⟨100, by decide, by decide⟩)))).2.2.2.2.2.2
    ⟨by decide, by decide, by decide⟩ 100 (by decide) (by decide)

/-! ## Parsing, in closed form -/

theorem rd_ok {data : List Nat} {pos n : Nat} (le : Bool) (h : pos + n ≤ data.length) :
    rd data pos n le = .ok (valueAt data pos n le, pos + n) := by
  rw [rd_eq, if_pos h]

theorem readHeader_ok (data : List Nat) (Length : Nat) (hlen : 20 ≤ data.length)
    (h0 : valueAt data 0 4 false = 0x43475250) (h4 : valueAt data 4 2 true = 0xFEFF)
    (h6 : valueAt data 6 2 true = 0x40) (h12 : valueAt data 12 4 true = Length) :
    readHeader data Length = .ok (valueAt data 16 4 true, 20) := by
  unfold readHeader
  rw [rd_ok false (by omega : 0 + 4 ≤ data.length)]
  simp only [bind, Except.bind, Assert, h0, if_true]
  rw [rd_ok true (by omega : 0 + 4 + 2 ≤ data.length)]
  simp only [h4, if_true]
  rw [rd_ok true (by omega : 0 + 4 + 2 + 2 ≤ data.length)]
  simp only [h6, if_true]
  rw [rd_ok true (by omega : 0 + 4 + 2 + 2 + 4 ≤ data.length)]
  simp only []
  rw [rd_ok true (by omega : 0 + 4 + 2 + 2 + 4 + 4 ≤ data.length)]
  simp only [h12, if_true]
  rw [rd_ok true (by omega : 0 + 4 + 2 + 2 + 4 + 4 + 4 ≤ data.length)]

theorem readChunks_succ (data : List Nat) (count pos : Nat) (d : Directory)
    (hb : pos + 12 ≤ data.length) :
    readChunks data (count + 1) pos d =
      match d.assign (valueAt data pos 4 true) (valueAt data (pos + 4) 4 true)
          (valueAt data (pos + 8) 4 true) with
      | some d1 => readChunks data count (pos + 12) d1
      | none => .error (.rejected (.error pos "A valid chunk type" (valueAt data pos 4 true))) := by
  rw [readChunks]
  rw [rd_ok true (by omega : pos + 4 ≤ data.length)]
  simp only [bind, Except.bind]
  rw [rd_ok true (by omega : pos + 4 + 4 ≤ data.length)]
  simp only []
  rw [rd_ok true (by omega : pos + 4 + 4 + 4 ≤ data.length)]
  simp only [Directory.assign, Nat.add_assoc, Nat.reduceAdd, Nat.add_sub_cancel]
  split_ifs <;> rfl

theorem readChunks_unknown (data : List Nat) (count pos : Nat) (d : Directory)
    (hb : pos + 4 ≤ data.length) (h : d.assign (valueAt data pos 4 true) 0 0 = none) :
    readChunks data (count + 1) pos d =
      .error (.rejected (.error pos "A valid chunk type" (valueAt data pos 4 true))) := by
  rw [readChunks]
  rw [rd_ok true hb]
  simp only [bind, Except.bind]
  simp only [Directory.assign] at h
  split_ifs at h with h1 h2 h3
  simp only [h1, h2, h3, if_false, Nat.add_sub_cancel]

theorem readSlots_succ (data : List Nat) (io count pos : Nat) (fo : List Nat)
    (hb : pos + 8 ≤ data.length) (ht : valueAt data pos 4 true = 0x7900) :
    readSlots data io (count + 1) pos fo =
      readSlots data io count (pos + 8) (fo ++ [io + 8 + valueAt data (pos + 4) 4 true]) := by
  rw [readSlots]
  rw [rd_ok true (by omega : pos + 4 ≤ data.length)]
  simp only [bind, Except.bind, Assert, ht, if_true]
  rw [rd_ok true (by omega : pos + 4 + 4 ≤ data.length)]

theorem readFile_present (data : List Nat) (fo pos : Nat) (hb : pos + 16 ≤ data.length)
    (hf : valueAt data (pos + 4) 4 true = 0x1F00) :
    readFile data fo pos =
      .ok (⟨valueAt data pos 4 true, some (fo + 8 + valueAt data (pos + 8) 4 true),
        valueAt data (pos + 12) 4 true⟩, pos + 16) := by
  unfold readFile
  rw [rd_ok true (by omega : pos + 4 ≤ data.length)]
  simp only [bind, Except.bind]
  rw [rd_ok true (by omega : pos + 4 + 4 ≤ data.length)]
  simp only [hf, if_true]
  rw [rd_ok true (by omega : pos + 4 + 4 + 4 ≤ data.length)]
  simp only []
  rw [rd_ok true (by omega : pos + 4 + 4 + 4 + 4 ≤ data.length)]
  simp only [Nat.add_assoc, Nat.reduceAdd, pure, Except.pure]

theorem readFile_absent (data : List Nat) (fo pos : Nat) (hb : pos + 12 ≤ data.length)
    (hf : valueAt data (pos + 4) 4 true ≠ 0x1F00) :
    readFile data fo pos =
      .ok (⟨valueAt data pos 4 true, none, valueAt data (pos + 8) 4 true⟩, pos + 12) := by
  unfold readFile
  rw [rd_ok true (by omega : pos + 4 ≤ data.length)]
  simp only [bind, Except.bind]
  rw [rd_ok true (by omega : pos + 4 + 4 ≤ data.length)]
  simp only [hf, if_false]
  rw [rd_ok true (by omega : pos + 4 + 4 + 4 ≤ data.length)]
  simp only [Nat.add_assoc, Nat.reduceAdd, pure, Except.pure]

theorem readFiles_succ (data : List Nat) (fo count pos : Nat) (files : List CgrpFile)
    (file : CgrpFile) (pos1 : Nat) (h : readFile data fo pos = .ok (file, pos1)) :
    readFiles data fo (count + 1) pos files = readFiles data fo count pos1 (files ++ [file]) := by
  rw [readFiles, h]
  rfl

theorem readInfo_ok (data : List Nat) (d : Directory) (hb : d.infoOffset + 12 ≤ data.length)
    (hm : valueAt data d.infoOffset 4 false = 0x494E464F)
    (hl : valueAt data (d.infoOffset + 4) 4 true = d.infoLength) :
    readInfo data d =
      (readSlots data d.infoOffset (valueAt data (d.infoOffset + 8) 4 true)
          (d.infoOffset + 12) []).bind fun r =>
        (readFiles data d.fileOffset (valueAt data (d.infoOffset + 8) 4 true) r.2 []).bind
          fun q => .ok q.1 := by
  unfold readInfo
  rw [rd_ok false (by omega : d.infoOffset + 4 ≤ data.length)]
  simp only [bind, Except.bind, Assert, hm, if_true]
  rw [rd_ok true (by omega : d.infoOffset + 4 + 4 ≤ data.length)]
  simp only [hl, if_true]
  rw [rd_ok true (by omega : d.infoOffset + 4 + 4 + 4 ≤ data.length)]
  simp only [Nat.add_assoc, Nat.reduceAdd, pure, Except.pure]

/-! ## Materialising, in closed form -/

theorem slice_eq (data : List Nat) (pos n : Nat) :
    slice data pos n = if pos + n ≤ data.length then some ((data.drop pos).take n) else none := rfl

theorem extractCwar_ok (data : List Nat) (p : Nat) (s : State) (hb : p + 16 ≤ data.length)
    (hl : p + valueAt data (p + 12) 4 true ≤ data.length) :
    extractCwar data (p + 4) s = .next (s.addCwar (payloadBytes data p)) := by
  unfold extractCwar
  simp only [ReadFixLen_eq, slice_eq, Nat.add_assoc, Nat.reduceAdd, hb, if_true, Nat.add_sub_cancel,
    State.mkdir, State.chdir, State.write, hl]
  simp only [State.addCwar, payloadBytes, List.append_assoc, List.cons_append, List.nil_append]

theorem extractCbnk_ok (data : List Nat) (P : Bool) (p : Nat) (s : State)
    (hb : p + 16 ≤ data.length) (hl : p + valueAt data (p + 12) 4 true ≤ data.length) :
    extractCbnk data P (p + 4) s = .next (s.addCbnk P (payloadBytes data p)) := by
  unfold extractCbnk
  simp only [ReadFixLen_eq, slice_eq, Nat.add_assoc, Nat.reduceAdd, hb, if_true, Nat.add_sub_cancel,
    State.mkdir, State.chdir, State.write, hl]
  simp only [State.addCbnk, payloadBytes, List.append_assoc, List.cons_append, List.nil_append]

theorem extractCseq_ok (data : List Nat) (p : Nat) (s : State) (hb : p + 16 ≤ data.length)
    (hl : p + valueAt data (p + 12) 4 true ≤ data.length) :
    extractCseq data (p + 4) s = .next (s.addCseq (payloadBytes data p)) := by
  unfold extractCseq
  simp only [ReadFixLen_eq, slice_eq, Nat.add_assoc, Nat.reduceAdd, hb, if_true, Nat.add_sub_cancel,
    State.write, hl]
  simp only [State.addCseq, payloadBytes]

theorem extractFile_some (data : List Nat) (P : Bool) (file : CgrpFile) (s : State) (p : Nat)
    (hp : file.Offset = some p) (hb : p + 4 ≤ data.length) :
    extractFile data P file s =
      if valueAt data p 4 false = 0x43574152 then extractCwar data (p + 4) s
      else if valueAt data p 4 false = 0x43424E4B then extractCbnk data P (p + 4) s
      else if valueAt data p 4 false = 0x43534551 then extractCseq data (p + 4) s
      else if valueAt data p 4 false = 0x43575344 then
        .next (s.emit (.warning p "Skipping CWSD"))
      else .halt ⟨.returned false,
        s.emit (.error p "A valid file type" (valueAt data p 4 false))⟩ := by
  unfold extractFile
  simp only [hp, ReadFixLen_eq, hb, if_true, Nat.add_sub_cancel]

/-! ## C2: the minimal container -/

theorem mc_len (payload : List Nat) : (minimalContainer payload).length = 88 + payload.length := by
  simp only [minimalContainer, le32, be32, le16, List.length_append, List.length_cons, List.length_nil]

theorem valueAt_skip (a b : List Nat) (pos n : Nat) (le : Bool) (h : a.length ≤ pos) :
    valueAt (a ++ b) pos n le = valueAt b (pos - a.length) n le := by
  unfold valueAt
  rw [List.drop_append_eq_append_drop, List.drop_of_length_le h, List.nil_append]

theorem length_le32 (v : Nat) : (le32 v).length = 4 := rfl

theorem length_be32 (v : Nat) : (be32 v).length = 4 := rfl

theorem length_le16 (v : Nat) : (le16 v).length = 2 := rfl

theorem valueAt_le32 (v : Nat) (rest : List Nat) :
    valueAt (le32 v ++ rest) 0 4 true = v % 2 ^ 32 := by
  simp only [valueAt, le32, leValue, beValue, List.drop_zero, List.cons_append, List.take_succ_cons, List.take_zero,
    List.reverse_cons, List.reverse_nil, List.nil_append, List.foldl_cons, List.foldl_nil, if_true]
  omega

theorem valueAt_be32 (v : Nat) (rest : List Nat) :
    valueAt (be32 v ++ rest) 0 4 false = v % 2 ^ 32 := by
  simp only [valueAt, be32, beValue, List.drop_zero, List.cons_append, List.take_succ_cons, List.take_zero,
    List.foldl_cons, List.foldl_nil]
  simp only [Bool.false_eq_true, if_false]
  omega

theorem valueAt_le16 (v : Nat) (rest : List Nat) :
    valueAt (le16 v ++ rest) 0 2 true = v % 2 ^ 16 := by
  simp only [valueAt, le16, leValue, beValue, List.drop_zero, List.cons_append, List.take_succ_cons, List.take_zero,
    List.reverse_cons, List.reverse_nil, List.nil_append, List.foldl_cons, List.foldl_nil, if_true]
  omega

theorem mc_field (payload : List Nat) (h : 88 + payload.length < 2 ^ 32) :
    (valueAt (minimalContainer payload) 0 4 false = 0x43475250 ∧
     valueAt (minimalContainer payload) 4 2 true = 0xFEFF ∧
     valueAt (minimalContainer payload) 6 2 true = 0x40 ∧
     valueAt (minimalContainer payload) 12 4 true = 88 + payload.length ∧
     valueAt (minimalContainer payload) 16 4 true = 2) ∧
    (valueAt (minimalContainer payload) 20 4 true = 0x7800 ∧
     valueAt (minimalContainer payload) 24 4 true = 44 ∧
     valueAt (minimalContainer payload) 28 4 true = 36 ∧
     valueAt (minimalContainer payload) 32 4 true = 0x7801 ∧
     valueAt (minimalContainer payload) 36 4 true = 80 ∧
     valueAt (minimalContainer payload) 40 4 true = 8 + payload.length) ∧
    (valueAt (minimalContainer payload) 44 4 false = 0x494E464F ∧
     valueAt (minimalContainer payload) 48 4 true = 36 ∧
     valueAt (minimalContainer payload) 52 4 true = 1 ∧
     valueAt (minimalContainer payload) 56 4 true = 0x7900 ∧
     valueAt (minimalContainer payload) 60 4 true = 12) ∧
    (valueAt (minimalContainer payload) 64 4 true = 0 ∧
     valueAt (minimalContainer payload) 68 4 true = 0x1F00 ∧
     valueAt (minimalContainer payload) 72 4 true = 0 ∧
     valueAt (minimalContainer payload) 76 4 true = payload.length) := by
  have h1 : (88 + payload.length) % 4294967296 = 88 + payload.length := Nat.mod_eq_of_lt h
  have h2 : (8 + payload.length) % 4294967296 = 8 + payload.length := Nat.mod_eq_of_lt (by omega)
  have h3 : (payload.length) % 4294967296 = payload.length := Nat.mod_eq_of_lt (by omega)
  simp only [minimalContainer, List.append_assoc, valueAt_skip, length_le32, length_be32,
    length_le16, valueAt_le32, valueAt_be32, valueAt_le16, Nat.reduceSub, Nat.reduceLeDiff,
    Nat.reducePow, Nat.reduceMod, h1, h2, h3, and_self]

theorem parse_ok (data : List Nat) (Length count pos pos1 : Nat) (d : Directory)
    (files : List CgrpFile) (hH : readHeader data Length = .ok (count, pos))
    (hC : readChunks data count pos Directory.zero = .ok (d, pos1))
    (hI : readInfo data d = .ok files) :
    parse data Length = .ok (d, files) := by
  simp only [parse, hH, hC, hI, bind, Except.bind, pure, Except.pure]

theorem mc_parse (payload : List Nat) (h : 88 + payload.length < 2 ^ 32) :
    parse (minimalContainer payload) (minimalContainer payload).length =
      .ok (⟨44, 36, 80, 8 + payload.length, 0, 0⟩, [⟨0, some 88, payload.length⟩]) := by
  obtain ⟨⟨f0, f4, f6, f12, f16⟩, ⟨f20, f24, f28, f32, f36, f40⟩, ⟨f44, f48, f52, f56, f60⟩,
    f64, f68, f72, f76⟩ := mc_field payload h
  have hlen := mc_len payload
  generalize minimalContainer payload = data at *
  have hn : 88 + payload.length = data.length := hlen.symm
  have hH : readHeader data data.length = .ok (2, 20) := by
    rw [readHeader_ok data data.length (by omega) f0 f4 f6 (by rw [f12, hlen]), f16]
  have hC : readChunks data 2 20 Directory.zero =
      .ok (⟨44, 36, 80, 8 + payload.length, 0, 0⟩, 44) := by
    rw [readChunks_succ data 1 20 _ (by omega)]
    simp only [Nat.reduceAdd, f20, f24, f28]
    simp only [Directory.assign, Directory.zero, if_true]
    rw [readChunks_succ data 0 32 _ (by omega)]
    simp only [Nat.reduceAdd, f32, f36, f40]
    simp only [Directory.assign, Nat.reduceEqDiff, if_false, if_true]
    rfl
  have hS : readSlots data 44 1 56 [] = .ok ([64], 64) := by
    rw [readSlots_succ data 44 0 56 [] (by omega) f56]
    simp only [Nat.reduceAdd, f60]
    rfl
  have hF : readFiles data 80 1 64 [] = .ok ([⟨0, some 88, payload.length⟩], 80) := by
    rw [readFiles_succ data 80 0 64 [] _ _ (readFile_present data 80 64 (by omega) f68)]
    simp only [Nat.reduceAdd, f64, f72, f76]
    rfl
  have hI : readInfo data ⟨44, 36, 80, 8 + payload.length, 0, 0⟩ =
      .ok [⟨0, some 88, payload.length⟩] := by
    rw [readInfo_ok data _ (by simp only []; omega) f44 f48]
    simp only [Nat.reduceAdd, f52]
    rw [hS]
    simp only [Except.bind]
    rw [hF]
  exact parse_ok data data.length 2 20 44 _ _ hH hC hI

theorem length_payloadOf (tag : Nat) (mid : List Nat) (len : Nat) (rest : List Nat) :
    (payloadOf tag mid len rest).length = 8 + mid.length + rest.length := by
  simp only [payloadOf, List.length_append, length_be32, length_le32]
  omega

theorem mc_payload (tag : Nat) (mid : List Nat) (len : Nat) (rest : List Nat)
    (hmid : mid.length = 8) (ht : tag < 2 ^ 32) (hl : len < 2 ^ 32) :
    valueAt (minimalContainer (payloadOf tag mid len rest)) 88 4 false = tag ∧
    valueAt (minimalContainer (payloadOf tag mid len rest)) (88 + 12) 4 true = len ∧
    (minimalContainer (payloadOf tag mid len rest)).drop 88 = payloadOf tag mid len rest := by
  have h1 : tag % 4294967296 = tag := Nat.mod_eq_of_lt ht
  have h2 : len % 4294967296 = len := Nat.mod_eq_of_lt hl
  refine ⟨?_, ?_, ?_⟩
  · simp only [minimalContainer, payloadOf, List.append_assoc, valueAt_skip, length_le32,
      length_be32, length_le16, valueAt_be32, Nat.reduceSub, Nat.reduceLeDiff, Nat.reducePow, h1]
  · simp only [minimalContainer, payloadOf, List.append_assoc, valueAt_skip, length_le32,
      length_be32, length_le16, valueAt_le32, Nat.reduceSub, Nat.reduceLeDiff, Nat.reducePow,
      Nat.reduceAdd, hmid, le_refl, h2]
  · simp only [minimalContainer, List.append_assoc]
    rfl

theorem extract_of_parse (cv : Converters) (data : List Nat) (p : Bool) (d : Directory)
    (files : List CgrpFile) (h : parse data data.length = .ok (d, files)) :
    extract cv data p = extractFrom cv data p d files State.fresh := by
  simp only [extract, Cgrp.Extract, Cgrp.open, h]

theorem extractFrom_of_next (cv : Converters) (data : List Nat) (P : Bool) (d : Directory)
    (files : List CgrpFile) (s s1 : State) (h : extractFiles data P files s = .next s1) :
    extractFrom cv data P d files s = convertAll cv d s1 := by
  simp only [extractFrom, h]

theorem extractFrom_of_halt (cv : Converters) (data : List Nat) (P : Bool) (d : Directory)
    (files : List CgrpFile) (s : State) (r : Run) (h : extractFiles data P files s = .halt r) :
    extractFrom cv data P d files s = r := by
  simp only [extractFrom, h]

theorem extractFiles_cons_next (data : List Nat) (P : Bool) (file : CgrpFile)
    (files : List CgrpFile) (s s1 : State) (h : extractFile data P file s = .next s1) :
    extractFiles data P (file :: files) s = extractFiles data P files s1 := by
  simp only [extractFiles, h]

theorem extractFiles_cons_halt (data : List Nat) (P : Bool) (file : CgrpFile)
    (files : List CgrpFile) (s : State) (r : Run) (h : extractFile data P file s = .halt r) :
    extractFiles data P (file :: files) s = .halt r := by
  simp only [extractFiles, h]

/-- C2: the minimal container around one 'CSEQ' payload of N bytes (the tag,
eight bytes, the length field N, N - 16 further bytes), the sequence converter
succeeding on it: `Extract` returns true, writes exactly one file, `0.cseq` in
the starting directory, whose content is the N payload bytes, opens one sequence
handle over it, calls its converter, and makes no directory, wave archive or
bank. -/
theorem C2_minimal_container (cv : Converters) (p : Bool) (mid rest : List Nat) (N : Nat)
    (hmid : mid.length = 8) (hN : (payloadOf 0x43534551 mid N rest).length = N)
    (hsize : 88 + N < 2 ^ 32)
    (hcv : cv.cseqConvert ⟨"0.cseq".toList, payloadOf 0x43534551 mid N rest⟩ = true) :
    extract cv (minimalContainer (payloadOf 0x43534551 mid N rest)) p =
      ⟨.returned true,
        { Cwars := [], Cbnks := [],
          Cseqs := [⟨"0.cseq".toList, payloadOf 0x43534551 mid N rest⟩],
          cwd := [],
          log := [.write [] "0.cseq".toList (payloadOf 0x43534551 mid N rest),
            .cseqConvert 0] }⟩ := by
  obtain ⟨g1, g2, g3⟩ := mc_payload 0x43534551 mid N rest hmid (by norm_num) (by omega)
  have hparse := mc_parse (payloadOf 0x43534551 mid N rest) (by rw [hN]; exact hsize)
  have hlen := mc_len (payloadOf 0x43534551 mid N rest)
  rw [hN] at hparse hlen
  have hbytes : payloadBytes (minimalContainer (payloadOf 0x43534551 mid N rest)) 88 =
      payloadOf 0x43534551 mid N rest := by
    unfold payloadBytes
    rw [g2, g3]
    exact List.take_of_length_le (le_of_eq hN)
  have hN16 : 16 ≤ N := by rw [← hN, length_payloadOf]; omega
  generalize minimalContainer (payloadOf 0x43534551 mid N rest) = data at *
  have hfile : extractFile data p ⟨0, some 88, N⟩ State.fresh =
      .next (State.fresh.addCseq (payloadOf 0x43534551 mid N rest)) := by
    rw [extractFile_some data p _ _ 88 rfl (by omega), g1]
    simp only [Nat.reduceEqDiff, if_false, if_true]
    rw [extractCseq_ok data 88 _ (by omega) (by rw [g2]; omega), hbytes]
  rw [extract_of_parse cv data p _ _ hparse,
    extractFrom_of_next cv data p _ _ _ _ (extractFiles_cons_next data p _ [] _ _ hfile)]
  have e1 : convertCwars cv 0 (State.fresh.addCseq (payloadOf 0x43534551 mid N rest)).Cwars
      (State.fresh.addCseq (payloadOf 0x43534551 mid N rest)) =
      .next (State.fresh.addCseq (payloadOf 0x43534551 mid N rest)) := rfl
  have e2 : convertCbnks cv 0 (State.fresh.addCseq (payloadOf 0x43534551 mid N rest)).Cbnks
      (State.fresh.addCseq (payloadOf 0x43534551 mid N rest)) =
      .next (State.fresh.addCseq (payloadOf 0x43534551 mid N rest)) := rfl
  have e3 : convertCseqs cv 0 (State.fresh.addCseq (payloadOf 0x43534551 mid N rest)).Cseqs
      (State.fresh.addCseq (payloadOf 0x43534551 mid N rest)) =
      .next ((State.fresh.addCseq (payloadOf 0x43534551 mid N rest)).emit (.cseqConvert 0)) := by
    show convertCseqs cv 0 [⟨"0.cseq".toList, payloadOf 0x43534551 mid N rest⟩] _ = _
    rw [convertCseqs, hcv]
    rfl
  unfold convertAll
  rw [e1]
  simp only []
  rw [e2]
  simp only []
  rw [e3]
  rfl

/-- C2 at the payload of sixteen bytes: the tag 'CSEQ', eight zero bytes and the
length field 16. -/
theorem C2_minimal_container_witness :
    extract allSucceed (minimalContainer (payloadOf 0x43534551 [0, 0, 0, 0, 0, 0, 0, 0] 16 []))
        false =
      ⟨.returned true,
        { Cwars := [], Cbnks := [],
          Cseqs := [⟨"0.cseq".toList, payloadOf 0x43534551 [0, 0, 0, 0, 0, 0, 0, 0] 16 []⟩],
          cwd := [],
          log := [.write [] "0.cseq".toList (payloadOf 0x43534551 [0, 0, 0, 0, 0, 0, 0, 0] 16 []),
            .cseqConvert 0] }⟩ :=
  C2_minimal_container allSucceed false [0, 0, 0, 0, 0, 0, 0, 0] [] 16 rfl rfl (by norm_num) rfl

/-! ## The log only grows -/

theorem writes_append (a b : List Event) : writes (a ++ b) = writes a ++ writes b := by
  induction a with
  | nil => rfl
  | cons e es ih => cases e <;> simp [writes, ih]

theorem extractFiles_append (data : List Nat) (P : Bool) (a b : List CgrpFile) (s : State) :
    extractFiles data P (a ++ b) s =
      match extractFiles data P a s with
      | .halt r => .halt r
      | .next s1 => extractFiles data P b s1 := by
  induction a generalizing s with
  | nil => rfl
  | cons f fs ih =>
    simp only [List.cons_append, extractFiles]
    cases extractFile data P f s with
    | halt r => rfl
    | next s1 => exact ih s1

theorem extractCwar_log (data : List Nat) (pos : Nat) (s : State) :
    ∃ es, (extractCwar data pos s).log = s.log ++ es := by
  unfold extractCwar
  simp only []
  split
  · exact ⟨[], by simp [Flow.log]⟩
  · split
    · exact ⟨_, by simp only [Flow.log, State.chdir, State.mkdir, List.append_assoc]; rfl⟩
    · exact ⟨_, by simp only [Flow.log, State.chdir, State.mkdir, State.write, List.append_assoc]; rfl⟩

theorem extractCbnk_log (data : List Nat) (P : Bool) (pos : Nat) (s : State) :
    ∃ es, (extractCbnk data P pos s).log = s.log ++ es := by
  unfold extractCbnk
  simp only []
  split
  · exact ⟨[], by simp [Flow.log]⟩
  · split
    · exact ⟨_, by simp only [Flow.log, State.chdir, State.mkdir, List.append_assoc]; rfl⟩
    · exact ⟨_, by simp only [Flow.log, State.chdir, State.mkdir, State.write, List.append_assoc]; rfl⟩

theorem extractCseq_log (data : List Nat) (pos : Nat) (s : State) :
    ∃ es, (extractCseq data pos s).log = s.log ++ es := by
  unfold extractCseq
  simp only []
  split
  · exact ⟨[], by simp [Flow.log]⟩
  · split
    · exact ⟨[], by simp [Flow.log]⟩
    · exact ⟨_, by simp only [Flow.log, State.write]; rfl⟩

theorem extractFile_log (data : List Nat) (P : Bool) (f : CgrpFile) (s : State) :
    ∃ es, (extractFile data P f s).log = s.log ++ es := by
  unfold extractFile
  split
  · exact ⟨[], by simp [Flow.log]⟩
  · split
    · exact ⟨[], by simp [Flow.log]⟩
    · split_ifs
      · exact extractCwar_log _ _ _
      · exact extractCbnk_log _ _ _ _
      · exact extractCseq_log _ _ _
      · exact ⟨_, by simp only [Flow.log, State.emit]; rfl⟩
      · exact ⟨_, by simp only [Flow.log, State.emit]; rfl⟩

theorem extractFiles_log (data : List Nat) (P : Bool) (fs : List CgrpFile) (s : State) :
    ∃ es, (extractFiles data P fs s).log = s.log ++ es := by
  induction fs generalizing s with
  | nil => exact ⟨[], by simp [Flow.log, extractFiles]⟩
  | cons f fs ih =>
    obtain ⟨e1, h1⟩ := extractFile_log data P f s
    simp only [extractFiles]
    cases h : extractFile data P f s with
    | halt r => rw [h] at h1; exact ⟨e1, h1⟩
    | next s1 =>
      rw [h] at h1
      obtain ⟨e2, h2⟩ := ih s1
      simp only [Flow.log] at h1
      exact ⟨e1 ++ e2, by rw [h2, h1, List.append_assoc]⟩

theorem convertCwars_log (cv : Converters) (i : Nat) (cwars : List Cwar) (s : State) :
    ∃ es, (convertCwars cv i cwars s).log = s.log ++ es := by
  induction cwars generalizing i s with
  | nil => exact ⟨[], by simp [Flow.log, convertCwars]⟩
  | cons c cs ih =>
    simp only [convertCwars]
    split_ifs
    · obtain ⟨e2, h2⟩ := ih (i + 1) (((s.chdir (dirName c.FileName)).emit (.cwarExtract i)).chdir "..".toList)
      exact ⟨_, by rw [h2]; simp only [State.chdir, State.emit, List.append_assoc]; rfl⟩
    · exact ⟨_, by simp only [Flow.log, State.chdir, State.emit, List.append_assoc]; rfl⟩

theorem convertCbnks_log (cv : Converters) (i : Nat) (cbnks : List Cbnk) (s : State) :
    ∃ es, (convertCbnks cv i cbnks s).log = s.log ++ es := by
  induction cbnks generalizing i s with
  | nil => exact ⟨[], by simp [Flow.log, convertCbnks]⟩
  | cons c cs ih =>
    simp only [convertCbnks]
    split_ifs
    · obtain ⟨e2, h2⟩ := ih (i + 1) (((s.chdir (dirName c.FileName)).emit (.cbnkConvert i)).chdir "..".toList)
      exact ⟨_, by rw [h2]; simp only [State.chdir, State.emit, List.append_assoc]; rfl⟩
    · exact ⟨_, by simp only [Flow.log, State.chdir, State.emit, List.append_assoc]; rfl⟩

theorem convertCseqs_log (cv : Converters) (i : Nat) (cseqs : List Cseq) (s : State) :
    ∃ es, (convertCseqs cv i cseqs s).log = s.log ++ es := by
  induction cseqs generalizing i s with
  | nil => exact ⟨[], by simp [Flow.log, convertCseqs]⟩
  | cons c cs ih =>
    simp only [convertCseqs]
    split_ifs
    · obtain ⟨e2, h2⟩ := ih (i + 1) (s.emit (.cseqConvert i))
      exact ⟨_, by rw [h2]; simp only [State.emit, List.append_assoc]; rfl⟩
    · exact ⟨_, by simp only [Flow.log, State.emit]; rfl⟩

theorem convertAll_log (cv : Converters) (d : Directory) (s : State) :
    ∃ es, (convertAll cv d s).state.log = s.log ++ es := by
  unfold convertAll
  obtain ⟨e1, h1⟩ := convertCwars_log cv 0 s.Cwars s
  cases hw : convertCwars cv 0 s.Cwars s with
  | halt r => rw [hw] at h1; exact ⟨e1, h1⟩
  | next s1 =>
    rw [hw] at h1
    simp only [Flow.log] at h1
    obtain ⟨e2, h2⟩ := convertCbnks_log cv 0 s1.Cbnks s1
    simp only []
    cases hb : convertCbnks cv 0 s1.Cbnks s1 with
    | halt r => rw [hb] at h2; exact ⟨e1 ++ e2, by simp only [Flow.log] at h2; rw [h2, h1, List.append_assoc]⟩
    | next s2 =>
      rw [hb] at h2
      simp only [Flow.log] at h2
      obtain ⟨e3, h3⟩ := convertCseqs_log cv 0 s2.Cseqs s2
      simp only []
      cases hs : convertCseqs cv 0 s2.Cseqs s2 with
      | halt r =>
        rw [hs] at h3
        exact ⟨e1 ++ e2 ++ e3, by simp only [Flow.log] at h3; rw [h3, h2, h1]; simp only [List.append_assoc]⟩
      | next s3 =>
        rw [hs] at h3
        simp only [Flow.log] at h3
        simp only []
        split_ifs
        · exact ⟨e1 ++ e2 ++ e3 ++ [.warning d.infxOffset "Skipping INFX chunk"], by
            simp only [State.emit, h3, h2, h1, List.append_assoc]⟩
        · exact ⟨e1 ++ e2 ++ e3, by rw [h3, h2, h1]; simp only [List.append_assoc]⟩

theorem extractFrom_log (cv : Converters) (data : List Nat) (P : Bool) (d : Directory)
    (files : List CgrpFile) (s : State) :
    ∃ es, (extractFrom cv data P d files s).state.log = s.log ++ es := by
  unfold extractFrom
  obtain ⟨e1, h1⟩ := extractFiles_log data P files s
  cases h : extractFiles data P files s with
  | halt r => rw [h] at h1; exact ⟨e1, h1⟩
  | next s1 =>
    rw [h] at h1
    simp only [Flow.log] at h1
    obtain ⟨e2, h2⟩ := convertAll_log cv d s1
    exact ⟨e1 ++ e2, by simp only []; rw [h2, h1, List.append_assoc]⟩

/-! ## C3: the bytes written for an entry -/

theorem readFile_inv (data : List Nat) (fo q q1 : Nat) (f : CgrpFile) (p : Nat)
    (h : readFile data fo q = .ok (f, q1)) (hp : f.Offset = some p) :
    q + 16 ≤ data.length ∧ valueAt data (q + 4) 4 true = 0x1F00 ∧
      p = fo + 8 + valueAt data (q + 8) 4 true := by
  unfold readFile at h
  simp only [rd_eq, bind, Except.bind, pure, Except.pure] at h
  by_cases b1 : q + 4 ≤ data.length
  · simp only [b1, if_true] at h
    by_cases b2 : q + 4 + 4 ≤ data.length
    · simp only [b2, if_true] at h
      by_cases hf : valueAt data (q + 4) 4 true = 7936
      · simp only [hf, if_true] at h
        by_cases b3 : q + 4 + 4 + 4 ≤ data.length
        · simp only [b3, if_true] at h
          by_cases b4 : q + 4 + 4 + 4 + 4 ≤ data.length
          · simp only [b4, if_true, Except.ok.injEq, Prod.mk.injEq] at h
            obtain ⟨h5, _⟩ := h
            subst h5
            simp only [Option.some.injEq] at hp
            exact ⟨by omega, hf, by rw [← hp]⟩
          · simp only [b4, if_false, reduceCtorEq] at h
        · simp only [b3, if_false, reduceCtorEq] at h
      · simp only [hf, if_false] at h
        by_cases b3 : q + 4 + 4 + 4 ≤ data.length
        · simp only [b3, if_true, Except.ok.injEq, Prod.mk.injEq] at h
          obtain ⟨h5, _⟩ := h
          subst h5
          simp only [reduceCtorEq] at hp
        · simp only [b3, if_false, reduceCtorEq] at h
    · simp only [b2, if_false, reduceCtorEq] at h
  · simp only [b1, if_false, reduceCtorEq] at h

theorem readFiles_entries (data : List Nat) (fo count pos : Nat) (acc files : List CgrpFile)
    (pos1 : Nat) (h : readFiles data fo count pos acc = .ok (files, pos1)) :
    ∃ new, files = acc ++ new ∧ new.length = count ∧ ∀ f ∈ new, ∃ q, EntryAt data fo q f := by
  induction count generalizing pos acc with
  | zero =>
    simp only [readFiles, Except.ok.injEq, Prod.mk.injEq] at h
    exact ⟨[], by simp [h.1], rfl, by simp⟩
  | succ n ih =>
    rw [readFiles] at h
    cases hr : readFile data fo pos with
    | error e => simp [hr, bind, Except.bind] at h
    | ok r =>
      obtain ⟨f, q1⟩ := r
      simp only [hr, bind, Except.bind] at h
      obtain ⟨new, h1, h2, h3⟩ := ih q1 (acc ++ [f]) h
      refine ⟨f :: new, by simp [h1], by simp [h2], ?_⟩
      intro g hg
      rcases List.mem_cons.mp hg with rfl | hg
      · exact ⟨pos, q1, hr⟩
      · exact h3 g hg

theorem parse_entries (data : List Nat) (Length : Nat) (d : Directory) (files : List CgrpFile)
    (h : parse data Length = .ok (d, files)) :
    ∀ f ∈ files, ∃ q, EntryAt data d.fileOffset q f := by
  unfold parse at h
  simp only [bind, Except.bind, pure, Except.pure] at h
  split at h
  · simp at h
  · split at h
    · simp at h
    · split at h
      · simp at h
      · rename_i files1 hI
        simp only [Except.ok.injEq, Prod.mk.injEq] at h
        obtain ⟨hd, hf⟩ := h
        subst hd hf
        unfold readInfo at hI
        simp only [bind, Except.bind, pure, Except.pure] at hI
        repeat' split at hI
        all_goals try (simp at hI; done)
        rename_i hF
        simp only [Except.ok.injEq] at hI
        subst hI
        obtain ⟨new, h1, _, h3⟩ := readFiles_entries _ _ _ _ _ _ _ hF
        simp only [List.nil_append] at h1
        subst h1
        exact h3

theorem extractFrom_append_next (cv : Converters) (data : List Nat) (P : Bool) (d : Directory)
    (a b : List CgrpFile) (s s1 : State) (h : extractFiles data P a s = .next s1) :
    extractFrom cv data P d (a ++ b) s = extractFrom cv data P d b s1 := by
  unfold extractFrom
  rw [extractFiles_append, h]

theorem extractFrom_cons_next (cv : Converters) (data : List Nat) (P : Bool) (d : Directory)
    (f : CgrpFile) (b : List CgrpFile) (s s1 : State) (h : extractFile data P f s = .next s1) :
    extractFrom cv data P d (f :: b) s = extractFrom cv data P d b s1 := by
  unfold extractFrom
  rw [extractFiles_cons_next data P f b s s1 h]

theorem extractFile_copied (data : List Nat) (P : Bool) (f : CgrpFile) (s : State) (p : Nat)
    (hp : f.Offset = some p) (htag : CopiedTag (valueAt data p 4 false))
    (hb : p + 16 ≤ data.length) (hl : p + valueAt data (p + 12) 4 true ≤ data.length) :
    ∃ cwd name s1, extractFile data P f s = .next s1 ∧
      writes s1.log = writes s.log ++ [(cwd, name, payloadBytes data p)] := by
  rw [extractFile_some data P f s p hp (by omega)]
  rcases htag with h | h | h
  · rw [if_pos h, extractCwar_ok data p s hb hl]
    exact ⟨_, _, _, rfl, by simp only [State.addCwar, writes_append]; rfl⟩
  · rw [if_neg (by rw [h]; decide), if_pos h, extractCbnk_ok data P p s hb hl]
    exact ⟨_, _, _, rfl, by simp only [State.addCbnk, writes_append]; rfl⟩
  · rw [if_neg (by rw [h]; decide), if_neg (by rw [h]; decide), if_pos h,
      extractCseq_ok data p s hb hl]
    exact ⟨_, _, _, rfl, by simp only [State.addCseq, writes_append]; rfl⟩

/-- C3: on a container whose parsing reaches the walk of the file table, take
an entry with a payload pointer `p` whose type tag is 'CWAR', 'CBNK' or 'CSEQ',
with the length field at `p + 12` inside the buffer and `p + L` not past its end,
`L` being the little-endian u32 at `p + 12`, the walk having got through the
entries before it.  Then `p` is the FILE offset of the directory plus 8 plus the
raw file offset of an entry whose flag is the sentinel, and the file written for
the entry, the next one after those of the entries before it, holds exactly the
bytes `[p, p + L)` of the buffer: the copy starts at `p`. -/
theorem C3_raw_bytes_round_trip (cv : Converters) (data : List Nat) (P : Bool) (d : Directory)
    (pre post : List CgrpFile) (f : CgrpFile) (p : Nat) (s1 : State)
    (hparse : parse data data.length = .ok (d, pre ++ f :: post))
    (hp : f.Offset = some p) (htag : CopiedTag (valueAt data p 4 false))
    (hb : p + 16 ≤ data.length) (hl : p + valueAt data (p + 12) 4 true ≤ data.length)
    (hreach : extractFiles data P pre State.fresh = .next s1) :
    (∃ q, q + 16 ≤ data.length ∧ valueAt data (q + 4) 4 true = 0x1F00 ∧
      p = d.fileOffset + 8 + valueAt data (q + 8) 4 true) ∧
    ∃ cwd name later, writes (extract cv data P).state.log =
      writes s1.log ++
        (cwd, name, (data.drop p).take (valueAt data (p + 12) 4 true)) :: later := by
  constructor
  · obtain ⟨q, q1, hq⟩ := parse_entries data _ d _ hparse f (by simp)
    exact ⟨q, readFile_inv data _ q q1 f p hq hp⟩
  · obtain ⟨cwd, name, s2, h2, hw⟩ := extractFile_copied data P f s1 p hp htag hb hl
    rw [extract_of_parse cv data P d _ hparse,
      extractFrom_append_next cv data P d pre (f :: post) _ s1 hreach,
      extractFrom_cons_next cv data P d f post s1 s2 h2]
    obtain ⟨es, hes⟩ := extractFrom_log cv data P d post s2
    exact ⟨cwd, name, writes es, by rw [hes, writes_append, hw, List.append_assoc]; rfl⟩

/-- C3 at the minimal container around a 'CSEQ' payload of sixteen bytes: the
file written holds the bytes 88 to 103 of the buffer. -/
theorem C3_raw_bytes_round_trip_witness :
    (∃ q, q + 16 ≤ (minimalContainer (payloadOf 0x43534551 [0, 0, 0, 0, 0, 0, 0, 0] 16 [])).length ∧
      valueAt (minimalContainer (payloadOf 0x43534551 [0, 0, 0, 0, 0, 0, 0, 0] 16 [])) (q + 4) 4
        true = 0x1F00 ∧
      88 = 80 + 8 + valueAt (minimalContainer (payloadOf 0x43534551 [0, 0, 0, 0, 0, 0, 0, 0] 16 []))
        (q + 8) 4 true) ∧
    ∃ cwd name later,
      writes (extract allSucceed
        (minimalContainer (payloadOf 0x43534551 [0, 0, 0, 0, 0, 0, 0, 0] 16 [])) false).state.log =
      writes State.fresh.log ++
        (cwd, name, ((minimalContainer (payloadOf 0x43534551 [0, 0, 0, 0, 0, 0, 0, 0] 16 [])).drop
          88).take (valueAt (minimalContainer (payloadOf 0x43534551 [0, 0, 0, 0, 0, 0, 0, 0] 16 []))
            (88 + 12) 4 true)) :: later :=
  C3_raw_bytes_round_trip allSucceed
    (minimalContainer (payloadOf 0x43534551 [0, 0, 0, 0, 0, 0, 0, 0] 16 [])) false
    ⟨44, 36, 80, 24, 0, 0⟩ [] [] ⟨0, some 88, 16⟩ 88 State.fresh
    (by rfl) rfl (Or.inr (Or.inr (by rfl))) (by decide) (by decide) rfl

/-! ## Decimal names and the working directory -/

theorem digitChar_ne_dot (m : Nat) (h : m < 10) : Nat.digitChar m ≠ '.' := by
  interval_cases m <;> decide

theorem toDigitsCore_ne_dot (fuel n : Nat) (ds : List Char) (h : ∀ c ∈ ds, c ≠ '.') :
    ∀ c ∈ Nat.toDigitsCore 10 fuel n ds, c ≠ '.' := by
  induction fuel generalizing n ds with
  | zero => simpa [Nat.toDigitsCore] using h
  | succ k ih =>
    have hd : ∀ c ∈ Nat.digitChar (n % 10) :: ds, c ≠ '.' := by
      intro c hc
      rcases List.mem_cons.mp hc with rfl | hc
      · exact digitChar_ne_dot _ (Nat.mod_lt _ (by decide))
      · exact h c hc
    simp only [Nat.toDigitsCore]
    split_ifs
    · exact hd
    · exact ih _ _ hd

theorem to_string_ne_dotdot (n : Nat) : to_string n ≠ ['.', '.'] := by
  intro h
  have := toDigitsCore_ne_dot (n + 1) n [] (by simp) '.' (by
    have h2 : to_string n = Nat.toDigitsCore 10 (n + 1) n [] := rfl
    rw [← h2, h]; simp)
  exact this rfl

theorem chdirPath_push_pop (cwd : List Str) (n : Nat) :
    chdirPath (chdirPath cwd (to_string n)) "..".toList = cwd := by
  have h := to_string_ne_dotdot n
  have e : "..".toList = ['.', '.'] := rfl
  rw [e]
  simp only [chdirPath, h, if_false, if_true]

theorem chdirPath_push (cwd : List Str) (n : Nat) :
    chdirPath cwd (to_string n) = to_string n :: cwd := by
  simp only [chdirPath, to_string_ne_dotdot n, if_false]

/-! ## The walk, turn by turn -/

theorem extractCwar_eq (data : List Nat) (p : Nat) (s : State) :
    extractCwar data (p + 4) s =
      if p + 16 ≤ data.length then
        if p + valueAt data (p + 12) 4 true ≤ data.length then
          .next (s.addCwar (payloadBytes data p))
        else .halt ⟨.outOfBounds, (s.mkdir (to_string s.Cwars.length)).chdir
          (to_string s.Cwars.length)⟩
      else .halt ⟨.outOfBounds, s⟩ := by
  by_cases hb : p + 16 ≤ data.length
  · by_cases hl : p + valueAt data (p + 12) 4 true ≤ data.length
    · rw [if_pos hb, if_pos hl, extractCwar_ok data p s hb hl]
    · rw [if_pos hb, if_neg hl]
      unfold extractCwar
      simp only [ReadFixLen_eq, slice_eq, Nat.add_assoc, Nat.reduceAdd, hb, if_true,
        Nat.add_sub_cancel, State.mkdir, State.chdir, hl, if_false]
  · rw [if_neg hb]
    unfold extractCwar
    simp only [ReadFixLen_eq, Nat.add_assoc, Nat.reduceAdd, hb, if_false]

theorem extractCbnk_eq (data : List Nat) (P : Bool) (p : Nat) (s : State) :
    extractCbnk data P (p + 4) s =
      if p + 16 ≤ data.length then
        if p + valueAt data (p + 12) 4 true ≤ data.length then
          .next (s.addCbnk P (payloadBytes data p))
        else .halt ⟨.outOfBounds, (s.mkdir (to_string s.Cbnks.length)).chdir
          (to_string s.Cbnks.length)⟩
      else .halt ⟨.outOfBounds, s⟩ := by
  by_cases hb : p + 16 ≤ data.length
  · by_cases hl : p + valueAt data (p + 12) 4 true ≤ data.length
    · rw [if_pos hb, if_pos hl, extractCbnk_ok data P p s hb hl]
    · rw [if_pos hb, if_neg hl]
      unfold extractCbnk
      simp only [ReadFixLen_eq, slice_eq, Nat.add_assoc, Nat.reduceAdd, hb, if_true,
        Nat.add_sub_cancel, State.mkdir, State.chdir, hl, if_false]
  · rw [if_neg hb]
    unfold extractCbnk
    simp only [ReadFixLen_eq, Nat.add_assoc, Nat.reduceAdd, hb, if_false]

theorem extractCseq_eq (data : List Nat) (p : Nat) (s : State) :
    extractCseq data (p + 4) s =
      if p + 16 ≤ data.length then
        if p + valueAt data (p + 12) 4 true ≤ data.length then
          .next (s.addCseq (payloadBytes data p))
        else .halt ⟨.outOfBounds, s⟩
      else .halt ⟨.outOfBounds, s⟩ := by
  by_cases hb : p + 16 ≤ data.length
  · by_cases hl : p + valueAt data (p + 12) 4 true ≤ data.length
    · rw [if_pos hb, if_pos hl, extractCseq_ok data p s hb hl]
    · rw [if_pos hb, if_neg hl]
      unfold extractCseq
      simp only [ReadFixLen_eq, slice_eq, Nat.add_assoc, Nat.reduceAdd, hb, if_true,
        Nat.add_sub_cancel, hl, if_false]
  · rw [if_neg hb]
    unfold extractCseq
    simp only [ReadFixLen_eq, Nat.add_assoc, Nat.reduceAdd, hb, if_false]

theorem extractFile_none (data : List Nat) (P : Bool) (f : CgrpFile) (s : State)
    (h : f.Offset = none) : extractFile data P f s = .next s := by
  unfold extractFile
  simp only [h]

theorem extractFile_oob (data : List Nat) (P : Bool) (f : CgrpFile) (s : State) (p : Nat)
    (hp : f.Offset = some p) (hb : ¬ p + 4 ≤ data.length) :
    extractFile data P f s = .halt ⟨.outOfBounds, s⟩ := by
  unfold extractFile
  simp only [hp, ReadFixLen_eq, hb, if_false]

/-- What one turn of the walk does, when it does not stop the run. -/
theorem extractFile_next (data : List Nat) (P : Bool) (f : CgrpFile) (s s1 : State)
    (h : extractFile data P f s = .next s1) :
    (kindOf data f = none ∧ s1.Cwars = s.Cwars ∧ s1.Cbnks = s.Cbnks ∧ s1.Cseqs = s.Cseqs ∧
      s1.cwd = s.cwd ∧ ∃ es, s1.log = s.log ++ es ∧ writes es = [] ∧ mkdirs es = []) ∨
    ∃ k p, kindOf data f = some k ∧ f.Offset = some p ∧ s1 = s.add P k (payloadBytes data p) := by
  cases hp : f.Offset with
  | none =>
    rw [extractFile_none data P f s hp] at h
    cases h
    exact Or.inl ⟨by simp [kindOf, hp], rfl, rfl, rfl, rfl, [], by simp, rfl, rfl⟩
  | some p =>
    by_cases hb : p + 4 ≤ data.length
    · rw [extractFile_some data P f s p hp hb] at h
      by_cases t1 : valueAt data p 4 false = 0x43574152
      · rw [if_pos t1, extractCwar_eq] at h
        split_ifs at h
        cases h
        exact Or.inr ⟨.WaveArchive, p, by simp [kindOf, hp, t1], rfl, rfl⟩
      · rw [if_neg t1] at h
        by_cases t2 : valueAt data p 4 false = 0x43424E4B
        · rw [if_pos t2, extractCbnk_eq] at h
          split_ifs at h
          cases h
          exact Or.inr ⟨.Bank, p, by simp [kindOf, hp, t2], rfl, rfl⟩
        · rw [if_neg t2] at h
          by_cases t3 : valueAt data p 4 false = 0x43534551
          · rw [if_pos t3, extractCseq_eq] at h
            split_ifs at h
            cases h
            exact Or.inr ⟨.Sequence, p, by simp [kindOf, hp, t3], rfl, rfl⟩
          · rw [if_neg t3] at h
            split_ifs at h
            cases h
            exact Or.inl ⟨by simp [kindOf, hp, t1, t2, t3], rfl, rfl, rfl, rfl, _, rfl, rfl, rfl⟩
    · rw [extractFile_oob data P f s p hp hb] at h
      cases h

/-! ## The indices along the walk -/

theorem State.add_cwd (s : State) (P : Bool) (k : Kind) (bytes : List Nat) :
    (s.add P k bytes).cwd = s.cwd := by
  cases k
  · exact chdirPath_push_pop s.cwd _
  · exact chdirPath_push_pop s.cwd _
  · rfl

theorem State.add_writes (s : State) (P : Bool) (k : Kind) (bytes : List Nat) :
    writes (s.add P k bytes).log =
      writes s.log ++ [((densePath s.cwd k (s.count k)).1, (densePath s.cwd k (s.count k)).2,
        bytes)] := by
  cases k
  · simp only [State.add, State.addCwar, writes_append, densePath, State.count, chdirPath_push]
    rfl
  · simp only [State.add, State.addCbnk, writes_append, densePath, State.count, chdirPath_push]
    rfl
  · simp only [State.add, State.addCseq, writes_append, densePath, State.count]
    rfl

theorem State.add_count (s : State) (P : Bool) (k k1 : Kind) (bytes : List Nat) :
    (s.add P k bytes).count k1 = s.count k1 + if k1 = k then 1 else 0 := by
  cases k <;> cases k1 <;> simp [State.add, State.addCwar, State.addCbnk, State.addCseq, State.count]

theorem State.add_namesDense (s : State) (P : Bool) (k : Kind) (bytes : List Nat)
    (h : s.NamesDense) : (s.add P k bytes).NamesDense := by
  obtain ⟨h1, h2, h3⟩ := h
  cases k
  · refine ⟨?_, h2, h3⟩
    simp only [State.add, State.addCwar, List.map_append, List.length_append, List.length_singleton,
      List.range_succ, h1, List.map_cons, List.map_nil]
  · refine ⟨h1, ?_, h3⟩
    simp only [State.add, State.addCbnk, List.map_append, List.length_append, List.length_singleton,
      List.range_succ, h2, List.map_cons, List.map_nil]
  · refine ⟨h1, h2, ?_⟩
    simp only [State.add, State.addCseq, List.map_append, List.length_append, List.length_singleton,
      List.range_succ, h3, List.map_cons, List.map_nil]

theorem countKind_append (data : List Nat) (k : Kind) (a b : List CgrpFile) :
    countKind data k (a ++ b) = countKind data k a + countKind data k b := by
  simp only [countKind, List.countP_append]

theorem countKind_singleton (data : List Nat) (k : Kind) (f : CgrpFile) :
    countKind data k [f] = if kindOf data f = some k then 1 else 0 := by
  simp only [countKind, List.countP_cons, List.countP_nil, Nat.zero_add, decide_eq_true_eq]

theorem walk_dense (data : List Nat) (P : Bool) (files seen : List CgrpFile) (s s1 : State)
    (hc : ∀ k, s.count k = countKind data k seen) (hn : s.NamesDense)
    (h : extractFiles data P files s = .next s1) :
    writes s1.log = writes s.log ++ denseWrites data s.cwd seen files ∧ s1.cwd = s.cwd ∧
      (∀ k, s1.count k = countKind data k (seen ++ files)) ∧ s1.NamesDense := by
  induction files generalizing seen s with
  | nil =>
    simp only [extractFiles, Flow.next.injEq] at h
    subst h
    exact ⟨by simp [denseWrites], rfl, by simpa using hc, hn⟩
  | cons f fs ih =>
    cases hf : extractFile data P f s with
    | halt r => rw [extractFiles_cons_halt data P f fs s r hf] at h; cases h
    | next s2 =>
      rw [extractFiles_cons_next data P f fs s s2 hf] at h
      rcases extractFile_next data P f s s2 hf with
        ⟨hk, e1, e2, e3, e4, es, e5, e6, _⟩ | ⟨k, p, hk, hp, e⟩
      · have hc2 : ∀ k, s2.count k = countKind data k (seen ++ [f]) := by
          intro k
          rw [countKind_append, countKind_singleton, hk, ← hc k]
          cases k <;> simp [State.count, e1, e2, e3]
        have hn2 : s2.NamesDense := by
          simpa only [State.NamesDense, e1, e2, e3] using hn
        obtain ⟨r1, r2, r3, r4⟩ := ih (seen ++ [f]) s2 hc2 hn2 h
        refine ⟨?_, by rw [r2, e4], by simpa using r3, r4⟩
        rw [r1, e5, writes_append, e6, e4]
        simp only [denseWrites, hk, List.append_nil]
      · subst e
        have hc2 : ∀ k1, (s.add P k (payloadBytes data p)).count k1 =
            countKind data k1 (seen ++ [f]) := by
          intro k1
          rw [State.add_count, countKind_append, countKind_singleton, hk, hc k1]
          simp only [Option.some.injEq]
          by_cases hkk : k1 = k
          · simp [hkk]
          · simp [hkk, Ne.symm hkk]
        obtain ⟨r1, r2, r3, r4⟩ := ih (seen ++ [f]) _ hc2 (State.add_namesDense s P k _ hn) h
        rw [State.add_cwd] at r1 r2
        refine ⟨?_, r2, by simpa using r3, r4⟩
        rw [r1, State.add_writes, hc k]
        simp only [denseWrites, hk, hp, List.append_assoc, List.singleton_append]

/-! ## The conversion pass -/

theorem mkdirs_append (a b : List Event) : mkdirs (a ++ b) = mkdirs a ++ mkdirs b := by
  induction a with
  | nil => rfl
  | cons e es ih => cases e <;> simp [mkdirs, ih]

theorem calls_append (a b : List Event) : calls (a ++ b) = calls a ++ calls b := by
  simp only [calls, List.filter_append]

theorem Quiet.refl (s : State) : Quiet s s :=
  ⟨rfl, rfl, rfl, [], by simp, rfl, rfl⟩

theorem Quiet.trans {s s1 s2 : State} (h1 : Quiet s s1) (h2 : Quiet s1 s2) : Quiet s s2 := by
  obtain ⟨a1, a2, a3, e1, a4, a5, a6⟩ := h1
  obtain ⟨b1, b2, b3, e2, b4, b5, b6⟩ := h2
  refine ⟨b1.trans a1, b2.trans a2, b3.trans a3, e1 ++ e2, ?_, ?_, ?_⟩
  · rw [b4, a4, List.append_assoc]
  · rw [writes_append, a5, b5]; rfl
  · rw [mkdirs_append, a6, b6]; rfl

theorem Quiet.chdir (s : State) (name : Str) : Quiet s (s.chdir name) :=
  ⟨rfl, rfl, rfl, [.chdir name], rfl, rfl, rfl⟩

theorem Quiet.emit (s : State) (e : Event) (h1 : writes [e] = []) (h2 : mkdirs [e] = []) :
    Quiet s (s.emit e) :=
  ⟨rfl, rfl, rfl, [e], rfl, h1, h2⟩

theorem convertCwars_ran (cv : Converters) (i : Nat) (cwars : List Cwar) (s : State) :
    LoopRan s (planCwars cv i cwars) (convertCwars cv i cwars s) := by
  induction cwars generalizing i s with
  | nil => exact ⟨rfl, Quiet.refl s, by simp [planCwars, cutAfterFailure]⟩
  | cons c cs ih =>
    simp only [convertCwars, planCwars]
    have q1 : Quiet s ((s.chdir (dirName c.FileName)).emit (.cwarExtract i)) :=
      (Quiet.chdir s _).trans (Quiet.emit _ _ rfl rfl)
    have c1 : calls ((s.chdir (dirName c.FileName)).emit (.cwarExtract i)).log =
        calls s.log ++ [.cwarExtract i] := by
      simp only [State.emit, State.chdir, calls_append]
      simp [calls, Event.isConverterCall]
    by_cases hok : cv.cwarExtract c = true
    · rw [if_pos hok]
      have := ih (i + 1) (((s.chdir (dirName c.FileName)).emit (.cwarExtract i)).chdir "..".toList)
      have c2 : calls (((s.chdir (dirName c.FileName)).emit
          (.cwarExtract i)).chdir "..".toList).log = calls s.log ++ [.cwarExtract i] := by
        rw [← c1]
        simp only [State.chdir, calls_append]
        simp [calls, Event.isConverterCall]
      revert this
      cases convertCwars cv (i + 1) cs
          (((s.chdir (dirName c.FileName)).emit (.cwarExtract i)).chdir "..".toList) with
      | next s1 =>
        rintro ⟨a1, a2, a3⟩
        exact ⟨by simp [hok, a1], (q1.trans (Quiet.chdir _ _)).trans a2, by
          rw [a3, c2]; simp [cutAfterFailure, hok]⟩
      | halt r =>
        rintro ⟨a1, a0, a2, a3⟩
        exact ⟨by simp [hok, a1], a0, (q1.trans (Quiet.chdir _ _)).trans a2, by
          rw [a3, c2]; simp [cutAfterFailure, hok]⟩
    · rw [if_neg hok]
      have hf : cv.cwarExtract c = false := by simpa using hok
      exact ⟨by simp [hf], rfl, q1, by rw [c1]; simp [cutAfterFailure, hf]⟩

theorem convertCbnks_ran (cv : Converters) (i : Nat) (cbnks : List Cbnk) (s : State) :
    LoopRan s (planCbnks cv s.Cwars i cbnks) (convertCbnks cv i cbnks s) := by
  induction cbnks generalizing i s with
  | nil => exact ⟨rfl, Quiet.refl s, by simp [planCbnks, cutAfterFailure]⟩
  | cons c cs ih =>
    simp only [convertCbnks, planCbnks]
    have q1 : Quiet s ((s.chdir (dirName c.FileName)).emit (.cbnkConvert i)) :=
      (Quiet.chdir s _).trans (Quiet.emit _ _ rfl rfl)
    have c1 : calls ((s.chdir (dirName c.FileName)).emit (.cbnkConvert i)).log =
        calls s.log ++ [.cbnkConvert i] := by
      simp only [State.emit, State.chdir, calls_append]
      simp [calls, Event.isConverterCall]
    have hw : ((s.chdir (dirName c.FileName)).emit (.cbnkConvert i)).Cwars = s.Cwars := by
      simp only [State.emit, State.chdir]
    rw [hw]
    by_cases hok : cv.cbnkConvert c s.Cwars = true
    · rw [if_pos hok]
      have := ih (i + 1) (((s.chdir (dirName c.FileName)).emit (.cbnkConvert i)).chdir "..".toList)
      have hw2 : (((s.chdir (dirName c.FileName)).emit (.cbnkConvert i)).chdir
          "..".toList).Cwars = s.Cwars := by
        simp only [State.emit, State.chdir]
      rw [hw2] at this
      have c2 : calls (((s.chdir (dirName c.FileName)).emit
          (.cbnkConvert i)).chdir "..".toList).log = calls s.log ++ [.cbnkConvert i] := by
        rw [← c1]
        simp only [State.chdir, calls_append]
        simp [calls, Event.isConverterCall]
      revert this
      cases convertCbnks cv (i + 1) cs
          (((s.chdir (dirName c.FileName)).emit (.cbnkConvert i)).chdir "..".toList) with
      | next s1 =>
        rintro ⟨a1, a2, a3⟩
        exact ⟨by simp [hok, a1], (q1.trans (Quiet.chdir _ _)).trans a2, by
          rw [a3, c2]; simp [cutAfterFailure, hok]⟩
      | halt r =>
        rintro ⟨a1, a0, a2, a3⟩
        exact ⟨by simp [hok, a1], a0, (q1.trans (Quiet.chdir _ _)).trans a2, by
          rw [a3, c2]; simp [cutAfterFailure, hok]⟩
    · rw [if_neg hok]
      have hf : cv.cbnkConvert c s.Cwars = false := by simpa using hok
      exact ⟨by simp [hf], rfl, q1, by rw [c1]; simp [cutAfterFailure, hf]⟩

theorem convertCseqs_ran (cv : Converters) (i : Nat) (cseqs : List Cseq) (s : State) :
    LoopRan s (planCseqs cv i cseqs) (convertCseqs cv i cseqs s) := by
  induction cseqs generalizing i s with
  | nil => exact ⟨rfl, Quiet.refl s, by simp [planCseqs, cutAfterFailure]⟩
  | cons c cs ih =>
    simp only [convertCseqs, planCseqs]
    have q1 : Quiet s (s.emit (.cseqConvert i)) := Quiet.emit _ _ rfl rfl
    have c1 : calls (s.emit (.cseqConvert i)).log = calls s.log ++ [.cseqConvert i] := by
      simp only [State.emit, calls_append]
      simp [calls, Event.isConverterCall]
    by_cases hok : cv.cseqConvert c = true
    · rw [if_pos hok]
      have := ih (i + 1) (s.emit (.cseqConvert i))
      revert this
      cases convertCseqs cv (i + 1) cs (s.emit (.cseqConvert i)) with
      | next s1 =>
        rintro ⟨a1, a2, a3⟩
        exact ⟨by simp [hok, a1], q1.trans a2, by rw [a3, c1]; simp [cutAfterFailure, hok]⟩
      | halt r =>
        rintro ⟨a1, a0, a2, a3⟩
        exact ⟨by simp [hok, a1], a0, q1.trans a2, by
          rw [a3, c1]; simp [cutAfterFailure, hok]⟩
    · rw [if_neg hok]
      have hf : cv.cseqConvert c = false := by simpa using hok
      exact ⟨by simp [hf], rfl, q1, by rw [c1]; simp [cutAfterFailure, hf]⟩

theorem cutAfterFailure_append_of_all (a b : List (Event × Bool))
    (h : (a.all fun x => x.2) = true) :
    cutAfterFailure (a ++ b) = cutAfterFailure a ++ cutAfterFailure b := by
  induction a with
  | nil => rfl
  | cons x xs ih =>
    obtain ⟨e, ok⟩ := x
    simp only [List.all_cons, Bool.and_eq_true] at h
    obtain ⟨h1, h2⟩ := h
    subst h1
    simp [cutAfterFailure, ih h2]

theorem cutAfterFailure_append_of_not_all (a b : List (Event × Bool))
    (h : (a.all fun x => x.2) = false) :
    cutAfterFailure (a ++ b) = cutAfterFailure a := by
  induction a with
  | nil => simp at h
  | cons x xs ih =>
    obtain ⟨e, ok⟩ := x
    cases ok with
    | false => simp [cutAfterFailure]
    | true =>
      simp only [List.all_cons, Bool.true_and] at h
      simp [cutAfterFailure, ih h]

/-- The whole conversion pass: the calls it makes are those of the plan, cut
after the first failure, and it returns whether all of them succeeded. -/
theorem convertAll_ran (cv : Converters) (d : Directory) (s : State) :
    (convertAll cv d s).outcome = .returned ((plan cv s).all fun x => x.2) ∧
    Quiet s (convertAll cv d s).state ∧
    calls (convertAll cv d s).state.log = calls s.log ++ cutAfterFailure (plan cv s) := by
  unfold convertAll plan
  have h1 := convertCwars_ran cv 0 s.Cwars s
  revert h1
  cases convertCwars cv 0 s.Cwars s with
  | halt r =>
    rintro ⟨a1, a0, a2, a3⟩
    refine ⟨by simp [a0, List.all_append, a1], a2, ?_⟩
    rw [List.append_assoc, cutAfterFailure_append_of_not_all _ _ a1]
    exact a3
  | next s1 =>
    rintro ⟨a1, a2, a3⟩
    have h2 := convertCbnks_ran cv 0 s1.Cbnks s1
    have e2 : planCbnks cv s1.Cwars 0 s1.Cbnks = planCbnks cv s.Cwars 0 s.Cbnks := by
      rw [a2.1, a2.2.1]
    rw [e2] at h2
    simp only []
    revert h2
    cases convertCbnks cv 0 s1.Cbnks s1 with
    | halt r =>
      rintro ⟨b1, b0, b2, b3⟩
      refine ⟨by simp [b0, List.all_append, a1, b1], a2.trans b2, ?_⟩
      rw [List.append_assoc, cutAfterFailure_append_of_all _ _ a1,
        cutAfterFailure_append_of_not_all _ _ b1, b3, a3, List.append_assoc]
    | next s2 =>
      rintro ⟨b1, b2, b3⟩
      have h3 := convertCseqs_ran cv 0 s2.Cseqs s2
      have e3 : planCseqs cv 0 s2.Cseqs = planCseqs cv 0 s.Cseqs := by
        rw [b2.2.2.1, a2.2.2.1]
      rw [e3] at h3
      simp only []
      have e12 : cutAfterFailure (planCwars cv 0 s.Cwars ++ planCbnks cv s.Cwars 0 s.Cbnks ++
          planCseqs cv 0 s.Cseqs) = cutAfterFailure (planCwars cv 0 s.Cwars) ++
          (cutAfterFailure (planCbnks cv s.Cwars 0 s.Cbnks) ++
            cutAfterFailure (planCseqs cv 0 s.Cseqs)) := by
        rw [List.append_assoc, cutAfterFailure_append_of_all _ _ a1,
          cutAfterFailure_append_of_all _ _ b1]
      revert h3
      cases convertCseqs cv 0 s2.Cseqs s2 with
      | halt r =>
        rintro ⟨c1, c0, c2, c3⟩
        refine ⟨by simp [c0, List.all_append, a1, b1, c1], (a2.trans b2).trans c2, ?_⟩
        rw [e12, c3, b3, a3]
        simp only [List.append_assoc]
      | next s3 =>
        rintro ⟨c1, c2, c3⟩
        simp only []
        split_ifs
        · refine ⟨by simp [List.all_append, a1, b1, c1],
            ((a2.trans b2).trans c2).trans (Quiet.emit _ _ rfl rfl), ?_⟩
          rw [e12]
          simp only [State.emit, calls_append, c3, b3, a3, List.append_assoc]
          simp [calls, Event.isConverterCall]
        · refine ⟨by simp [List.all_append, a1, b1, c1], (a2.trans b2).trans c2, ?_⟩
          rw [e12, c3, b3, a3]
          simp only [List.append_assoc]

/-! ## C4: dense indices -/

theorem denseWrites_append (data : List Nat) (cwd : List Str) (seen a b : List CgrpFile) :
    denseWrites data cwd seen (a ++ b) =
      denseWrites data cwd seen a ++ denseWrites data cwd (seen ++ a) b := by
  induction a generalizing seen with
  | nil => simp [denseWrites]
  | cons f fs ih =>
    simp only [List.cons_append, denseWrites]
    split <;> simp [ih, List.append_assoc]

/-- C4: on a container whose walk of the file table completes, the files
written are, in table order, one per entry of a kind, each under the number of
entries of its own kind before it in the table: the wave archive number `j` as
`j/j.cwar`, the bank number `j` as `j/j.cbnk`, the sequence number `j` as `j.cseq`;
and the handles of `a` wave archives, `b` banks and `c` sequences are over the
names of the indices `0..a-1`, `0..b-1` and `0..c-1`, whatever the interleaving. -/
theorem C4_dense_indices (cv : Converters) (data : List Nat) (P : Bool) (d : Directory)
    (files : List CgrpFile) (s1 : State)
    (hparse : parse data data.length = .ok (d, files))
    (hwalk : extractFiles data P files State.fresh = .next s1) :
    writes (extract cv data P).state.log = denseWrites data [] [] files ∧
    (∀ pre f post k p, files = pre ++ f :: post → kindOf data f = some k → f.Offset = some p →
      ((densePath [] k (countKind data k pre)).1, (densePath [] k (countKind data k pre)).2,
        payloadBytes data p) ∈ writes (extract cv data P).state.log) ∧
    (extract cv data P).state.Cwars.map (fun h => h.FileName) =
      (List.range (countKind data .WaveArchive files)).map
        (fun j => to_string j ++ ".cwar".toList) ∧
    (extract cv data P).state.Cbnks.map (fun h => h.FileName) =
      (List.range (countKind data .Bank files)).map (fun j => to_string j ++ ".cbnk".toList) ∧
    (extract cv data P).state.Cseqs.map (fun h => h.FileName) =
      (List.range (countKind data .Sequence files)).map
        (fun j => to_string j ++ ".cseq".toList) := by
  rw [extract_of_parse cv data P d files hparse,
    extractFrom_of_next cv data P d files State.fresh s1 hwalk]
  obtain ⟨_, ⟨q1, q2, q3, es, q4, q5, _⟩, _⟩ := convertAll_ran cv d s1
  obtain ⟨w1, _, w3, n1, n2, n3⟩ :=
    walk_dense data P files [] State.fresh s1 (fun k => by cases k <;> rfl)
      ⟨rfl, rfl, rfl⟩ hwalk
  have hw : writes (convertAll cv d s1).state.log = denseWrites data [] [] files := by
    rw [q4, writes_append, q5, List.append_nil, w1]
    rfl
  have c1 := w3 .WaveArchive
  have c2 := w3 .Bank
  have c3 := w3 .Sequence
  simp only [State.count, List.nil_append] at c1 c2 c3
  refine ⟨hw, ?_, by rw [q1, n1, c1], by rw [q2, n2, c2], by rw [q3, n3, c3]⟩
  intro pre f post k p hfiles hk hp
  rw [hw, hfiles, denseWrites_append]
  apply List.mem_append_right
  simp only [denseWrites, hk, hp, List.nil_append]
  exact List.mem_cons_self _ _

set_option maxRecDepth 100000 in
/-- C4 at the container around two wave archives, one bank and three sequences
in the order sequence, archive, sequence, bank, archive, sequence: the handles are
over `0.cwar`, `1.cwar`; `0.cbnk`; `0.cseq`, `1.cseq`, `2.cseq`. -/
theorem C4_dense_indices_witness :
    (extract allSucceed (containerOf mixedTable) false).state.Cwars.map (fun h => h.FileName) =
        ["0.cwar".toList, "1.cwar".toList] ∧
    (extract allSucceed (containerOf mixedTable) false).state.Cbnks.map (fun h => h.FileName) =
        ["0.cbnk".toList] ∧
    (extract allSucceed (containerOf mixedTable) false).state.Cseqs.map (fun h => h.FileName) =
        ["0.cseq".toList, "1.cseq".toList, "2.cseq".toList] :=
  (C4_dense_indices allSucceed (containerOf mixedTable) false mixedDirectory mixedFiles
    (extractFiles (containerOf mixedTable) false mixedFiles State.fresh).endState
    (by rfl) (by rfl)).2.2

/-! ## C5: the order of the chunk directory -/

theorem rd_pos {data : List Nat} {pos n : Nat} {le : Bool} {v q : Nat}
    (h : rd data pos n le = .ok (v, q)) : q = pos + n := by
  rw [Caesar.rd_eq] at h
  split_ifs at h
  simp only [Except.ok.injEq, Prod.mk.injEq] at h
  exact h.2.symm

theorem readHeader_pos {data : List Nat} {L count pos : Nat}
    (h : readHeader data L = .ok (count, pos)) :
    pos = 20 ∧ count = valueAt data 16 4 true := by
  unfold readHeader at h
  cases h1 : rd data 0 4 false with
  | error e => simp [h1, bind, Except.bind] at h
  | ok r1 =>
    obtain ⟨v1, q1⟩ := r1
    have := rd_pos h1
    subst this
    simp only [h1, bind, Except.bind] at h
    cases hA1 : Assert 1128747600 v1 with
    | error e => simp [hA1] at h
    | ok u =>
      simp only [hA1] at h
      cases h2 : rd data (0 + 4) 2 true with
      | error e => simp [h2] at h
      | ok r2 =>
        obtain ⟨v2, q2⟩ := r2
        have := rd_pos h2
        subst this
        simp only [h2] at h
        cases hA2 : Assert 65279 v2 with
        | error e => simp [hA2] at h
        | ok u =>
          simp only [hA2] at h
          cases h3 : rd data (0 + 4 + 2) 2 true with
          | error e => simp [h3] at h
          | ok r3 =>
            obtain ⟨v3, q3⟩ := r3
            have := rd_pos h3
            subst this
            simp only [h3] at h
            cases hA3 : Assert 64 v3 with
            | error e => simp [hA3] at h
            | ok u =>
              simp only [hA3] at h
              cases h4 : rd data (0 + 4 + 2 + 2) 4 true with
              | error e => simp [h4] at h
              | ok r4 =>
                obtain ⟨v4, q4⟩ := r4
                have := rd_pos h4
                subst this
                simp only [h4] at h
                cases h5 : rd data (0 + 4 + 2 + 2 + 4) 4 true with
                | error e => simp [h5] at h
                | ok r5 =>
                  obtain ⟨v5, q5⟩ := r5
                  have := rd_pos h5
                  subst this
                  simp only [h5] at h
                  cases hA4 : Assert L v5 with
                  | error e => simp [hA4] at h
                  | ok u =>
                    simp only [hA4] at h
                    rw [rd_eq] at h
                    split_ifs at h
                    simp only [Except.ok.injEq, Prod.mk.injEq] at h
                    exact ⟨h.2.symm, h.1.symm⟩

/-! ## C5: the two runs -/

theorem parse_inv {data : List Nat} {L : Nat} {d : Directory} {files : List CgrpFile}
    (h : parse data L = .ok (d, files)) :
    ∃ count pos pos1, readHeader data L = .ok (count, pos) ∧
      readChunks data count pos Directory.zero = .ok (d, pos1) ∧ readInfo data d = .ok files := by
  unfold parse at h
  cases h1 : readHeader data L with
  | error e => simp [h1, bind, Except.bind] at h
  | ok r1 =>
    obtain ⟨count, pos⟩ := r1
    simp only [h1, bind, Except.bind] at h
    cases h2 : readChunks data count pos Directory.zero with
    | error e => simp [h2] at h
    | ok r2 =>
      obtain ⟨d1, pos1⟩ := r2
      simp only [h2] at h
      cases h3 : readInfo data d1 with
      | error e => simp [h3] at h
      | ok files1 =>
        simp only [h3, pure, Except.pure, Except.ok.injEq, Prod.mk.injEq] at h
        obtain ⟨rfl, rfl⟩ := h
        exact ⟨count, pos, pos1, rfl, h2, h3⟩

theorem extractFiles_filter (data : List Nat) (P : Bool) (files : List CgrpFile) (s : State) :
    extractFiles data P files s =
      extractFiles data P (files.filter fun f => f.Offset.isSome) s := by
  induction files generalizing s with
  | nil => rfl
  | cons f fs ih =>
    cases hp : f.Offset with
    | none =>
      rw [extractFiles_cons_next data P f fs s s (extractFile_none data P f s hp),
        List.filter_cons_of_neg (by simp [hp])]
      exact ih s
    | some p =>
      rw [List.filter_cons_of_pos (by simp [hp])]
      simp only [extractFiles]
      cases extractFile data P f s with
      | halt r => rfl
      | next s1 => exact ih s1

/-- C6: on a container whose header, directory and INFO chunk are accepted,
every entry of the file table was decoded at some position of the buffer and
has no payload pointer when its flag is not the sentinel 0x1F00; an entry
without a pointer leaves the state of the run as it is and lets the walk go on
with the entries after it; so the run is the run over the table without those
entries. -/
theorem C6_absent_entries_skipped (cv : Converters) (data : List Nat) (P : Bool)
    (d : Directory) (files : List CgrpFile)
    (hparse : parse data data.length = .ok (d, files)) :
    (∀ f ∈ files, ∃ q, EntryAt data d.fileOffset q f ∧
      (valueAt data (q + 4) 4 true ≠ 0x1F00 → f.Offset = none)) ∧
    (∀ f s, f.Offset = none → extractFile data P f s = .next s) ∧
    (∀ pre f post s, f.Offset = none →
      extractFiles data P (pre ++ f :: post) s = extractFiles data P (pre ++ post) s) ∧
    extract cv data P =
      extractFrom cv data P d (files.filter fun f => f.Offset.isSome) State.fresh := by
  refine ⟨?_, fun f s h => extractFile_none data P f s h, ?_, ?_⟩
  · intro f hf
    obtain ⟨q, q1, hq⟩ := parse_entries data _ d files hparse f hf
    refine ⟨q, ⟨q1, hq⟩, fun hne => ?_⟩
    cases hp : f.Offset with
    | none => rfl
    | some p => exact absurd (readFile_inv data _ q q1 f p hq hp).2.1 hne
  · intro pre f post s h
    rw [extractFiles_filter data P (pre ++ f :: post), extractFiles_filter data P (pre ++ post),
      List.filter_append, List.filter_append, List.filter_cons_of_neg (by simp [h])]
  · rw [extract_of_parse cv data P d files hparse]
    unfold extractFrom
    rw [extractFiles_filter]

set_option maxRecDepth 100000 in
/-- C6 at the container around a sequence, an entry whose flag is 0 and a
second sequence: the run is the run over the two sequences, and both are
extracted. -/
theorem C6_absent_entries_skipped_witness :
    extract allSucceed (containerOf gappedTable) false =
      extractFrom allSucceed (containerOf gappedTable) false ⟨44, 80, 124, 40, 0, 0⟩
        [⟨0, some 132, 16⟩, ⟨0, some 148, 16⟩] State.fresh ∧
    (extract allSucceed (containerOf gappedTable) false).outcome = .returned true ∧
    (extract allSucceed (containerOf gappedTable) false).state.Cseqs.map (fun h => h.FileName) =
      ["0.cseq".toList, "1.cseq".toList] :=
  ⟨(C6_absent_entries_skipped allSucceed (containerOf gappedTable) false ⟨44, 80, 124, 40, 0, 0⟩
    [⟨0, some 132, 16⟩, ⟨0, none, 0⟩, ⟨0, some 148, 16⟩] (by rfl)).2.2.2, by rfl, by rfl⟩

/-! ## C7: an unrecognised chunk tag -/

theorem Directory.assign_of_recognised (d : Directory) (tag o l : Nat) (h : RecognisedTag tag) :
    ∃ d1, d.assign tag o l = some d1 := by
  rcases h with h | h | h <;> simp [Directory.assign, h]

theorem Directory.assign_of_not_recognised (d : Directory) (tag o l : Nat)
    (h : ¬ RecognisedTag tag) : d.assign tag o l = none := by
  simp only [RecognisedTag, not_or] at h
  simp [Directory.assign, h.1, h.2.1, h.2.2]

theorem readChunks_first_unknown (data : List Nat) (k count pos : Nat) (d : Directory)
    (hk : k < count) (hb : pos + 12 * k + 4 ≤ data.length)
    (hrec : ∀ i < k, RecognisedTag (valueAt data (pos + 12 * i) 4 true))
    (hbad : ¬ RecognisedTag (valueAt data (pos + 12 * k) 4 true)) :
    readChunks data count pos d =
      .error (.rejected (.error (pos + 12 * k) "A valid chunk type"
        (valueAt data (pos + 12 * k) 4 true))) := by
  induction k generalizing count pos d with
  | zero =>
    obtain ⟨c, rfl⟩ : ∃ c, count = c + 1 := ⟨count - 1, by omega⟩
    simp only [Nat.mul_zero, Nat.add_zero] at hb hbad ⊢
    exact readChunks_unknown data c pos d hb (Directory.assign_of_not_recognised d _ 0 0 hbad)
  | succ n ih =>
    obtain ⟨c, rfl⟩ : ∃ c, count = c + 1 := ⟨count - 1, by omega⟩
    have h0 := hrec 0 (by omega)
    simp only [Nat.mul_zero, Nat.add_zero] at h0
    obtain ⟨d1, hd1⟩ := Directory.assign_of_recognised d _ (valueAt data (pos + 4) 4 true)
      (valueAt data (pos + 8) 4 true) h0
    rw [readChunks_succ data c pos d (by omega), hd1]
    have e : ∀ j, pos + 12 + 12 * j = pos + 12 * (j + 1) := fun j => by omega
    have := ih c (pos + 12) d1 (by omega) (by rw [e]; exact hb)
      (fun i hi => by rw [e]; exact hrec (i + 1) (by omega)) (by rw [e]; exact hbad)
    rw [e] at this
    exact this

/-- C7: on a container that passes the header checks, `count` being its chunk
count, whose triple `k < count` is the first with a tag outside INFO 0x7800,
FILE 0x7801 and INFX 0x7802, that tag field lying inside the buffer, `Extract`
returns false and all it has done is to report the tag at its offset
`20 + 12 * k`: no file is written. -/
theorem C7_unrecognised_chunk_tag (cv : Converters) (data : List Nat) (P : Bool)
    (count pos k : Nat) (hH : readHeader data data.length = .ok (count, pos)) (hk : k < count)
    (hb : 20 + 12 * k + 4 ≤ data.length)
    (hrec : ∀ i < k, RecognisedTag (valueAt data (20 + 12 * i) 4 true))
    (hbad : ¬ RecognisedTag (valueAt data (20 + 12 * k) 4 true)) :
    extract cv data P =
      ⟨.returned false, State.fresh.emit (.error (20 + 12 * k) "A valid chunk type"
        (valueAt data (20 + 12 * k) 4 true))⟩ ∧
    writes (extract cv data P).state.log = [] := by
  obtain ⟨rfl, _⟩ := readHeader_pos hH
  have hC := readChunks_first_unknown data k count 20 Directory.zero hk hb hrec hbad
  have hp : parse data data.length = .error (.rejected (.error (20 + 12 * k)
      "A valid chunk type" (valueAt data (20 + 12 * k) 4 true))) := by
    simp only [parse, hH, hC, bind, Except.bind]
  have he : extract cv data P = ⟨.returned false, State.fresh.emit (.error (20 + 12 * k)
      "A valid chunk type" (valueAt data (20 + 12 * k) 4 true))⟩ := by
    simp only [extract, Cgrp.Extract, Cgrp.open, hp]
  exact ⟨he, by rw [he]; rfl⟩

set_option maxRecDepth 100000 in
/-- C7 at a container of three triples whose second tag is 0x7803: the run
reports the offset 32 and stops. -/
theorem C7_unrecognised_chunk_tag_witness :
    extract allSucceed (headerBytes 116 3 ++ encodeDir strayTagDir ++ oneSequenceBody) false =
      ⟨.returned false, State.fresh.emit (.error 32 "A valid chunk type" 0x7803)⟩ :=
  (C7_unrecognised_chunk_tag allSucceed
    (headerBytes 116 3 ++ encodeDir strayTagDir ++ oneSequenceBody) false 3 20 1 (by rfl)
    (by decide) (by decide)
    (fun i hi => by
      obtain rfl : i = 0 := by omega
      exact Or.inl (by rfl))
    (by
      intro h
      rcases h with h | h | h <;> exact absurd h (by decide))).1

/-! ## C8: an unrecognised type tag -/

theorem calls_nil_of_forall (es : List Event) (h : ∀ e ∈ es, e.isConverterCall = false) :
    calls es = [] := by
  simp only [calls, List.filter_eq_nil_iff]
  intro e he
  simp [h e he]

theorem extractCwar_calls (data : List Nat) (pos : Nat) (s : State) :
    calls (extractCwar data pos s).log = calls s.log := by
  unfold extractCwar
  simp only []
  split
  · rfl
  · split
    · simp only [Flow.log, State.chdir, State.mkdir, calls_append]
      simp [calls, Event.isConverterCall]
    · simp only [Flow.log, State.chdir, State.mkdir, State.write, calls_append]
      simp [calls, Event.isConverterCall]

theorem extractCbnk_calls (data : List Nat) (P : Bool) (pos : Nat) (s : State) :
    calls (extractCbnk data P pos s).log = calls s.log := by
  unfold extractCbnk
  simp only []
  split
  · rfl
  · split
    · simp only [Flow.log, State.chdir, State.mkdir, calls_append]
      simp [calls, Event.isConverterCall]
    · simp only [Flow.log, State.chdir, State.mkdir, State.write, calls_append]
      simp [calls, Event.isConverterCall]

theorem extractCseq_calls (data : List Nat) (pos : Nat) (s : State) :
    calls (extractCseq data pos s).log = calls s.log := by
  unfold extractCseq
  simp only []
  split
  · rfl
  · split
    · rfl
    · simp only [Flow.log, State.write, calls_append]
      simp [calls, Event.isConverterCall]

theorem extractFile_calls (data : List Nat) (P : Bool) (f : CgrpFile) (s : State) :
    calls (extractFile data P f s).log = calls s.log := by
  unfold extractFile
  split
  · rfl
  · split
    · rfl
    · split_ifs
      · exact extractCwar_calls _ _ _
      · exact extractCbnk_calls _ _ _ _
      · exact extractCseq_calls _ _ _
      · simp only [Flow.log, State.emit, calls_append]
        simp [calls, Event.isConverterCall]
      · simp only [Flow.log, State.emit, calls_append]
        simp [calls, Event.isConverterCall]

theorem extractFiles_calls (data : List Nat) (P : Bool) (fs : List CgrpFile) (s : State) :
    calls (extractFiles data P fs s).log = calls s.log := by
  induction fs generalizing s with
  | nil => rfl
  | cons f fs ih =>
    have h1 := extractFile_calls data P f s
    simp only [extractFiles]
    cases h : extractFile data P f s with
    | halt r => rw [h] at h1; exact h1
    | next s1 =>
      rw [h] at h1
      simp only []
      rw [ih s1]
      exact h1

theorem extractFile_unknown (data : List Nat) (P : Bool) (f : CgrpFile) (s : State) (p : Nat)
    (hp : f.Offset = some p) (hb : p + 4 ≤ data.length)
    (hbad : ¬ KnownFileTag (valueAt data p 4 false)) :
    extractFile data P f s =
      .halt ⟨.returned false, s.emit (.error p "A valid file type" (valueAt data p 4 false))⟩ := by
  simp only [KnownFileTag, not_or] at hbad
  rw [extractFile_some data P f s p hp hb, if_neg hbad.1, if_neg hbad.2.1, if_neg hbad.2.2.1,
    if_neg hbad.2.2.2]

/-- C8: on a container whose header, directory and INFO chunk are accepted,
take the entry with a payload pointer `p`, the tag at `p` lying inside the
buffer and being none of 'CWAR', 'CBNK', 'CSEQ', 'CWSD', the walk having got
through the entries before it.  Then `Extract` returns false, the last thing it
does is to report that tag at the offset `p`, the files written are those of the
entries before it and no converter is called. -/
theorem C8_unrecognised_type_tag (cv : Converters) (data : List Nat) (P : Bool) (d : Directory)
    (pre post : List CgrpFile) (f : CgrpFile) (p : Nat) (s1 : State)
    (hparse : parse data data.length = .ok (d, pre ++ f :: post))
    (hp : f.Offset = some p) (hb : p + 4 ≤ data.length)
    (hbad : ¬ KnownFileTag (valueAt data p 4 false))
    (hreach : extractFiles data P pre State.fresh = .next s1) :
    extract cv data P =
      ⟨.returned false, s1.emit (.error p "A valid file type" (valueAt data p 4 false))⟩ ∧
    writes (extract cv data P).state.log = writes s1.log ∧
    calls (extract cv data P).state.log = [] := by
  have he : extract cv data P =
      ⟨.returned false, s1.emit (.error p "A valid file type" (valueAt data p 4 false))⟩ := by
    rw [extract_of_parse cv data P d _ hparse,
      extractFrom_append_next cv data P d pre (f :: post) _ s1 hreach,
      extractFrom_of_halt cv data P d (f :: post) s1 _
        (extractFiles_cons_halt data P f post s1 _ (extractFile_unknown data P f s1 p hp hb hbad))]
  have hc : calls s1.log = [] := by
    have := extractFiles_calls data P pre State.fresh
    rw [hreach] at this
    exact this
  refine ⟨he, ?_, ?_⟩
  · rw [he]
    simp only [State.emit, writes_append]
    exact List.append_nil _
  · rw [he]
    simp only [State.emit, calls_append, hc]
    rfl

set_option maxRecDepth 100000 in
/-- C8 at the minimal container whose 'CSEQ' tag is corrupted to 'CSER': the run
returns false after reporting the tag at offset 88, and `0.cseq` is not written. -/
theorem C8_unrecognised_type_tag_witness :
    extract allSucceed (minimalContainer (tinyPayload 0x43534552)) false =
      ⟨.returned false, State.fresh.emit (.error 88 "A valid file type" 0x43534552)⟩ ∧
    writes (extract allSucceed (minimalContainer (tinyPayload 0x43534552)) false).state.log =
      [] :=
  ⟨(C8_unrecognised_type_tag allSucceed (minimalContainer (tinyPayload 0x43534552)) false
      ⟨44, 36, 80, 24, 0, 0⟩ [] [] ⟨0, some 88, 16⟩ 88 State.fresh (by rfl) rfl (by decide)
      (by
        intro h
        rcases h with h | h | h | h <;> exact absurd h (by decide))
      rfl).1,
    by rfl⟩

/-! ## C9: the order of conversion -/

theorem Clean.bind {α β : Type} {x : Except ParseStop α} {f : α → Except ParseStop β}
    (hx : Clean x) (hf : ∀ a, Clean (f a)) : Clean (x >>= f) := by
  intro e he
  cases x with
  | error err =>
    have h2 : (Except.error err : Except ParseStop α) = .error (.rejected e) := by
      cases he
      rfl
    exact hx e h2
  | ok a => exact hf a e he

theorem Clean.ok {α : Type} (a : α) : Clean (Except.ok a : Except ParseStop α) := by
  intro e he
  cases he

theorem Clean.rd (data : List Nat) (pos n : Nat) (le : Bool) : Clean (rd data pos n le) := by
  intro e he
  rw [rd_eq] at he
  split_ifs at he
  cases he

theorem Clean.Assert (a b : Nat) : Clean (Assert a b) := by
  intro e he
  unfold Caesar.Assert at he
  split_ifs at he
  cases he
  exact ⟨rfl, rfl, rfl⟩

theorem Clean.readHeader (data : List Nat) (L : Nat) : Clean (readHeader data L) := by
  unfold Caesar.readHeader
  refine Clean.bind (Clean.rd _ _ _ _) fun a => ?_
  refine Clean.bind (Clean.Assert _ _) fun _ => ?_
  refine Clean.bind (Clean.rd _ _ _ _) fun a => ?_
  refine Clean.bind (Clean.Assert _ _) fun _ => ?_
  refine Clean.bind (Clean.rd _ _ _ _) fun a => ?_
  refine Clean.bind (Clean.Assert _ _) fun _ => ?_
  refine Clean.bind (Clean.rd _ _ _ _) fun a => ?_
  refine Clean.bind (Clean.rd _ _ _ _) fun a => ?_
  refine Clean.bind (Clean.Assert _ _) fun _ => ?_
  exact Clean.rd _ _ _ _

theorem Clean.readChunks (data : List Nat) (count pos : Nat) (d : Directory) :
    Clean (readChunks data count pos d) := by
  induction count generalizing pos d with
  | zero => exact Clean.ok _
  | succ n ih =>
    rw [Caesar.readChunks]
    refine Clean.bind (Clean.rd _ _ _ _) fun a => ?_
    obtain ⟨chunkId, pos1⟩ := a
    simp only []
    split_ifs
    · refine Clean.bind (Clean.rd _ _ _ _) fun a => ?_
      refine Clean.bind (Clean.rd _ _ _ _) fun b => ?_
      exact ih _ _
    · refine Clean.bind (Clean.rd _ _ _ _) fun a => ?_
      refine Clean.bind (Clean.rd _ _ _ _) fun b => ?_
      exact ih _ _
    · refine Clean.bind (Clean.rd _ _ _ _) fun a => ?_
      refine Clean.bind (Clean.rd _ _ _ _) fun b => ?_
      exact ih _ _
    · intro e he
      cases he
      exact ⟨rfl, rfl, rfl⟩

theorem Clean.readSlots (data : List Nat) (io count pos : Nat) (acc : List Nat) :
    Clean (readSlots data io count pos acc) := by
  induction count generalizing pos acc with
  | zero => exact Clean.ok _
  | succ n ih =>
    rw [Caesar.readSlots]
    refine Clean.bind (Clean.rd _ _ _ _) fun a => ?_
    refine Clean.bind (Clean.Assert _ _) fun _ => ?_
    refine Clean.bind (Clean.rd _ _ _ _) fun b => ?_
    exact ih _ _

theorem Clean.readFile (data : List Nat) (fo pos : Nat) : Clean (readFile data fo pos) := by
  unfold Caesar.readFile
  refine Clean.bind (Clean.rd _ _ _ _) fun a => ?_
  refine Clean.bind (Clean.rd _ _ _ _) fun b => ?_
  obtain ⟨flag, pos1⟩ := b
  simp only []
  split_ifs
  · refine Clean.bind (Clean.rd _ _ _ _) fun a => ?_
    refine Clean.bind (Clean.rd _ _ _ _) fun b => ?_
    exact Clean.ok _
  · refine Clean.bind (Clean.rd _ _ _ _) fun a => ?_
    exact Clean.ok _

theorem Clean.readFiles (data : List Nat) (fo count pos : Nat) (acc : List CgrpFile) :
    Clean (readFiles data fo count pos acc) := by
  induction count generalizing pos acc with
  | zero => exact Clean.ok _
  | succ n ih =>
    rw [Caesar.readFiles]
    refine Clean.bind (Clean.readFile _ _ _) fun a => ?_
    exact ih _ _

theorem Clean.readInfo (data : List Nat) (d : Directory) : Clean (readInfo data d) := by
  unfold Caesar.readInfo
  refine Clean.bind (Clean.rd _ _ _ _) fun a => ?_
  refine Clean.bind (Clean.Assert _ _) fun _ => ?_
  refine Clean.bind (Clean.rd _ _ _ _) fun a => ?_
  refine Clean.bind (Clean.Assert _ _) fun _ => ?_
  refine Clean.bind (Clean.rd _ _ _ _) fun a => ?_
  refine Clean.bind (Clean.readSlots _ _ _ _ _) fun a => ?_
  refine Clean.bind (Clean.readFiles _ _ _ _ _) fun a => ?_
  exact Clean.ok _

theorem Clean.parse (data : List Nat) (L : Nat) : Clean (parse data L) := by
  unfold Caesar.parse
  refine Clean.bind (Clean.readHeader _ _) fun a => ?_
  refine Clean.bind (Clean.readChunks _ _ _ _) fun a => ?_
  refine Clean.bind (Clean.readInfo _ _) fun a => ?_
  exact Clean.ok _

theorem cutAfterFailure_prefix (p : List (Event × Bool)) :
    cutAfterFailure p <+: p.map Prod.fst := by
  induction p with
  | nil => exact List.prefix_refl _
  | cons x xs ih =>
    obtain ⟨e, ok⟩ := x
    cases ok with
    | true =>
      simp only [cutAfterFailure, if_true, List.map_cons]
      exact (List.prefix_cons_inj e).mpr ih
    | false =>
      simp only [cutAfterFailure, Bool.false_eq_true, if_false, List.map_cons]
      exact (List.prefix_cons_inj e).mpr (List.nil_prefix)

theorem planCwars_events (cv : Converters) (i : Nat) (cs : List Cwar) :
    (planCwars cv i cs).map Prod.fst = (List.range' i cs.length).map Event.cwarExtract := by
  induction cs generalizing i with
  | nil => rfl
  | cons c cs ih => simp only [planCwars, List.map_cons, List.length_cons, List.range'_succ, ih]

theorem planCbnks_events (cv : Converters) (cwars : List Cwar) (i : Nat) (cs : List Cbnk) :
    (planCbnks cv cwars i cs).map Prod.fst = (List.range' i cs.length).map Event.cbnkConvert := by
  induction cs generalizing i with
  | nil => rfl
  | cons c cs ih => simp only [planCbnks, List.map_cons, List.length_cons, List.range'_succ, ih]

theorem planCseqs_events (cv : Converters) (i : Nat) (cs : List Cseq) :
    (planCseqs cv i cs).map Prod.fst = (List.range' i cs.length).map Event.cseqConvert := by
  induction cs generalizing i with
  | nil => rfl
  | cons c cs ih => simp only [planCseqs, List.map_cons, List.length_cons, List.range'_succ, ih]

theorem plan_events (cv : Converters) (s : State) :
    (plan cv s).map Prod.fst = callOrder s.Cwars.length s.Cbnks.length s.Cseqs.length := by
  simp only [plan, callOrder, List.map_append, planCwars_events, planCbnks_events,
    planCseqs_events, List.range_eq_range']

theorem callOrder_phases (a b c : Nat) :
    (callOrder a b c).Pairwise fun x y => x.phase ≤ y.phase := by
  simp only [callOrder, List.pairwise_append, List.pairwise_map, Event.phase, List.mem_append,
    List.mem_map]
  refine ⟨⟨List.pairwise_of_forall fun _ _ => le_refl _,
    List.pairwise_of_forall fun _ _ => le_refl _, ?_⟩,
    List.pairwise_of_forall fun _ _ => le_refl _, ?_⟩
  · rintro x ⟨i, _, rfl⟩ y ⟨j, _, rfl⟩
    exact Nat.zero_le _
  · rintro x (⟨i, _, rfl⟩ | ⟨i, _, rfl⟩) y ⟨j, _, rfl⟩
    · exact Nat.zero_le _
    · exact Nat.le_succ _

/-- C9: in every run of `Extract` the converter calls are a prefix of the
fixed order (the wave archives 0 to a-1, then the banks 0 to b-1, then the
sequences 0 to c-1, over the handles present when it returns), so that the
phases never go back and no bank is converted before a wave archive is
extracted; the log splits into a part with no converter call and a part with no
file written and no directory made, so that every conversion comes after every
materialisation; and when the walk of the file table completes, the handles are
those it left, the calls are exactly the fixed order cut after the first call
that reports failure, and `Extract` returns whether no call failed. -/
theorem C9_conversion_order (cv : Converters) (data : List Nat) (P : Bool) :
    calls (extract cv data P).state.log <+:
      callOrder (extract cv data P).state.Cwars.length (extract cv data P).state.Cbnks.length
        (extract cv data P).state.Cseqs.length ∧
    (calls (extract cv data P).state.log).Pairwise (fun x y => x.phase ≤ y.phase) ∧
    (∃ l1 l2, (extract cv data P).state.log = l1 ++ l2 ∧ calls l1 = [] ∧ writes l2 = [] ∧
      mkdirs l2 = []) ∧
    (∀ d files s1, parse data data.length = .ok (d, files) →
      extractFiles data P files State.fresh = .next s1 →
      (extract cv data P).state.Cwars = s1.Cwars ∧ (extract cv data P).state.Cbnks = s1.Cbnks ∧
      (extract cv data P).state.Cseqs = s1.Cseqs ∧
      calls (extract cv data P).state.log = cutAfterFailure (plan cv s1) ∧
      (extract cv data P).outcome = .returned ((plan cv s1).all fun x => x.2)) := by
  have key : ∀ d files s1, parse data data.length = .ok (d, files) →
      extractFiles data P files State.fresh = .next s1 →
      ((extract cv data P).state.Cwars = s1.Cwars ∧ (extract cv data P).state.Cbnks = s1.Cbnks ∧
      (extract cv data P).state.Cseqs = s1.Cseqs ∧
      calls (extract cv data P).state.log = cutAfterFailure (plan cv s1) ∧
      (extract cv data P).outcome = .returned ((plan cv s1).all fun x => x.2)) ∧
      ∃ l2, (extract cv data P).state.log = s1.log ++ l2 ∧ calls s1.log = [] ∧ writes l2 = [] ∧
        mkdirs l2 = [] := by
    intro d files s1 hparse hwalk
    rw [extract_of_parse cv data P d files hparse,
      extractFrom_of_next cv data P d files State.fresh s1 hwalk]
    obtain ⟨h1, ⟨q1, q2, q3, es, q4, q5, q6⟩, h3⟩ := convertAll_ran cv d s1
    have hc : calls s1.log = [] := by
      have := extractFiles_calls data P files State.fresh
      rw [hwalk] at this
      exact this
    rw [hc, List.nil_append] at h3
    exact ⟨⟨q1, q2, q3, h3, h1⟩, es, q4, hc, q5, q6⟩
  have quiet : calls (extract cv data P).state.log = [] →
      calls (extract cv data P).state.log <+:
        callOrder (extract cv data P).state.Cwars.length (extract cv data P).state.Cbnks.length
          (extract cv data P).state.Cseqs.length ∧
      (calls (extract cv data P).state.log).Pairwise (fun x y => x.phase ≤ y.phase) ∧
      (∃ l1 l2, (extract cv data P).state.log = l1 ++ l2 ∧ calls l1 = [] ∧ writes l2 = [] ∧
        mkdirs l2 = []) := by
    intro h
    rw [h]
    exact ⟨List.nil_prefix, List.Pairwise.nil, _, [], (List.append_nil _).symm, h, rfl, rfl⟩
  cases hparse : parse data data.length with
  | error e =>
    have hq : calls (extract cv data P).state.log = [] := by
      simp only [extract, Cgrp.Extract, Cgrp.open, hparse]
      cases e with
      | rejected ev => exact (Clean.parse data data.length ev hparse).1
      | outOfBounds => rfl
    obtain ⟨a1, a2, a3⟩ := quiet hq
    exact ⟨a1, a2, a3, fun d files s1 hp => by cases hp⟩
  | ok r =>
    obtain ⟨d, files⟩ := r
    cases hwalk : extractFiles data P files State.fresh with
    | halt r =>
      have hq : calls (extract cv data P).state.log = [] := by
        rw [extract_of_parse cv data P d files hparse,
          extractFrom_of_halt cv data P d files State.fresh r hwalk]
        have := extractFiles_calls data P files State.fresh
        rw [hwalk] at this
        exact this
      obtain ⟨a1, a2, a3⟩ := quiet hq
      refine ⟨a1, a2, a3, fun d1 files1 s1 hp hw => ?_⟩
      cases hp
      rw [hwalk] at hw
      cases hw
    | next s1 =>
      obtain ⟨⟨k1, k2, k3, k4, k5⟩, l2, k6, k7, k8, k9⟩ := key d files s1 hparse hwalk
      have hpre : calls (extract cv data P).state.log <+:
          callOrder (extract cv data P).state.Cwars.length
            (extract cv data P).state.Cbnks.length (extract cv data P).state.Cseqs.length := by
        rw [k4, k1, k2, k3, ← plan_events cv s1]
        exact cutAfterFailure_prefix _
      refine ⟨hpre, (callOrder_phases _ _ _).sublist hpre.sublist, ⟨s1.log, l2, k6, k7, k8, k9⟩,
        fun d1 files1 s2 hp hw => ?_⟩
      cases hp
      rw [hwalk] at hw
      cases hw
      exact ⟨k1, k2, k3, k4, k5⟩

set_option maxRecDepth 100000 in
/-- C9 at the container around two wave archives, one bank and three sequences
with a bank converter that fails: the calls are the two archive extractions and
the bank conversion, and `Extract` returns false. -/
theorem C9_conversion_order_witness :
    calls (extract bankFails (containerOf mixedTable) false).state.log =
      [.cwarExtract 0, .cwarExtract 1, .cbnkConvert 0] ∧
    (extract bankFails (containerOf mixedTable) false).outcome = .returned false :=
  ((C9_conversion_order bankFails (containerOf mixedTable) false).2.2.2 mixedDirectory mixedFiles
    (extractFiles (containerOf mixedTable) false mixedFiles State.fresh).endState
    (by rfl) (by rfl)).2.2.2

/-! ## C10: the CWSD payload -/

theorem extractCwar_prepend (data : List Nat) (pos : Nat) (w : List Event) (s : State) :
    extractCwar data pos (s.prepend w) = (extractCwar data pos s).prepend w := by
  unfold extractCwar
  simp only []
  cases ReadFixLen data (pos + 8) 4 true with
  | none => rfl
  | some r =>
    simp only []
    cases slice data (r.2 - 16) r.1 with
    | none =>
      simp only [Flow.prepend, Run.prepend, State.prepend, State.mkdir, State.chdir,
        List.append_assoc]
    | some bytes =>
      simp only [Flow.prepend, State.prepend, State.mkdir, State.chdir, State.write,
        List.append_assoc]

theorem extractCbnk_prepend (data : List Nat) (P : Bool) (pos : Nat) (w : List Event)
    (s : State) :
    extractCbnk data P pos (s.prepend w) = (extractCbnk data P pos s).prepend w := by
  unfold extractCbnk
  simp only []
  cases ReadFixLen data (pos + 8) 4 true with
  | none => rfl
  | some r =>
    simp only []
    cases slice data (r.2 - 16) r.1 with
    | none =>
      simp only [Flow.prepend, Run.prepend, State.prepend, State.mkdir, State.chdir,
        List.append_assoc]
    | some bytes =>
      simp only [Flow.prepend, State.prepend, State.mkdir, State.chdir, State.write,
        List.append_assoc]

theorem extractCseq_prepend (data : List Nat) (pos : Nat) (w : List Event) (s : State) :
    extractCseq data pos (s.prepend w) = (extractCseq data pos s).prepend w := by
  unfold extractCseq
  simp only []
  cases ReadFixLen data (pos + 8) 4 true with
  | none => rfl
  | some r =>
    simp only []
    cases slice data (r.2 - 16) r.1 with
    | none => rfl
    | some bytes =>
      simp only [Flow.prepend, State.prepend, State.write, List.append_assoc]

theorem extractFile_prepend (data : List Nat) (P : Bool) (f : CgrpFile) (w : List Event)
    (s : State) :
    extractFile data P f (s.prepend w) = (extractFile data P f s).prepend w := by
  unfold extractFile
  cases f.Offset with
  | none => rfl
  | some p =>
    simp only []
    cases ReadFixLen data p 4 false with
    | none => rfl
    | some r =>
      simp only []
      split_ifs
      · exact extractCwar_prepend _ _ _ _
      · exact extractCbnk_prepend _ _ _ _ _
      · exact extractCseq_prepend _ _ _ _
      · simp only [Flow.prepend, State.prepend, State.emit, List.append_assoc]
      · simp only [Flow.prepend, Run.prepend, State.prepend, State.emit, List.append_assoc]

theorem extractFiles_prepend (data : List Nat) (P : Bool) (fs : List CgrpFile) (w : List Event)
    (s : State) :
    extractFiles data P fs (s.prepend w) = (extractFiles data P fs s).prepend w := by
  induction fs generalizing s with
  | nil => rfl
  | cons f fs ih =>
    simp only [extractFiles, extractFile_prepend]
    cases extractFile data P f s with
    | halt r => rfl
    | next s1 => exact ih s1

theorem convertCwars_prepend (cv : Converters) (i : Nat) (cs : List Cwar) (w : List Event)
    (s : State) :
    convertCwars cv i cs (s.prepend w) = (convertCwars cv i cs s).prepend w := by
  induction cs generalizing i s with
  | nil => rfl
  | cons c cs ih =>
    simp only [convertCwars]
    split_ifs
    · rw [← ih]
      simp only [State.prepend, State.chdir, State.emit, List.append_assoc]
    · simp only [Flow.prepend, Run.prepend, State.prepend, State.chdir, State.emit,
        List.append_assoc]

theorem convertCbnks_prepend (cv : Converters) (i : Nat) (cs : List Cbnk) (w : List Event)
    (s : State) :
    convertCbnks cv i cs (s.prepend w) = (convertCbnks cv i cs s).prepend w := by
  induction cs generalizing i s with
  | nil => rfl
  | cons c cs ih =>
    simp only [convertCbnks]
    have hw : ((State.prepend w s).chdir (dirName c.FileName)).emit (.cbnkConvert i) =
        State.prepend w ((s.chdir (dirName c.FileName)).emit (.cbnkConvert i)) := by
      simp only [State.prepend, State.chdir, State.emit, List.append_assoc]
    rw [hw]
    have hc : (State.prepend w ((s.chdir (dirName c.FileName)).emit (.cbnkConvert i))).Cwars =
        ((s.chdir (dirName c.FileName)).emit (.cbnkConvert i)).Cwars := rfl
    rw [hc]
    split_ifs
    · rw [← ih]
      simp only [State.prepend, State.chdir, State.emit, List.append_assoc]
    · rfl

theorem convertCseqs_prepend (cv : Converters) (i : Nat) (cs : List Cseq) (w : List Event)
    (s : State) :
    convertCseqs cv i cs (s.prepend w) = (convertCseqs cv i cs s).prepend w := by
  induction cs generalizing i s with
  | nil => rfl
  | cons c cs ih =>
    simp only [convertCseqs]
    split_ifs
    · rw [← ih]
      simp only [State.prepend, State.emit, List.append_assoc]
    · simp only [Flow.prepend, Run.prepend, State.prepend, State.emit, List.append_assoc]

theorem convertAll_prepend (cv : Converters) (d : Directory) (w : List Event) (s : State) :
    convertAll cv d (s.prepend w) = (convertAll cv d s).prepend w := by
  unfold convertAll
  have e1 : (State.prepend w s).Cwars = s.Cwars := rfl
  rw [e1, convertCwars_prepend]
  cases convertCwars cv 0 s.Cwars s with
  | halt r => rfl
  | next s1 =>
    simp only [Flow.prepend]
    have e2 : (State.prepend w s1).Cbnks = s1.Cbnks := rfl
    rw [e2, convertCbnks_prepend]
    cases convertCbnks cv 0 s1.Cbnks s1 with
    | halt r => rfl
    | next s2 =>
      simp only [Flow.prepend]
      have e3 : (State.prepend w s2).Cseqs = s2.Cseqs := rfl
      rw [e3, convertCseqs_prepend]
      cases convertCseqs cv 0 s2.Cseqs s2 with
      | halt r => rfl
      | next s3 =>
        simp only [Flow.prepend]
        split_ifs
        · simp only [Run.prepend, State.prepend, State.emit, List.append_assoc]
        · rfl

theorem extractFrom_prepend (cv : Converters) (data : List Nat) (P : Bool) (d : Directory)
    (files : List CgrpFile) (w : List Event) (s : State) :
    extractFrom cv data P d files (s.prepend w) =
      (extractFrom cv data P d files s).prepend w := by
  unfold extractFrom
  rw [extractFiles_prepend]
  cases extractFiles data P files s with
  | halt r => rfl
  | next s1 => exact convertAll_prepend cv d w s1

theorem extractFile_cwsd (data : List Nat) (P : Bool) (f : CgrpFile) (s : State) (p : Nat)
    (hp : f.Offset = some p) (hb : p + 4 ≤ data.length)
    (htag : valueAt data p 4 false = 0x43575344) :
    extractFile data P f s = .next (s.emit (.warning p "Skipping CWSD")) := by
  rw [extractFile_some data P f s p hp hb, htag]
  simp only [Nat.reduceEqDiff, if_false, if_true]

/-- C10: on a container whose header, directory and INFO chunk are accepted,
take an entry with a payload pointer `p` whose type tag, inside the buffer, is
'CWSD', the walk having got through the entries before it.  Then the run warns
at `p` and is otherwise the run over the same table with that entry marked as
having no payload: the same events before and after the warning, hence the same
files and directories under the same names, the same handles with the same
indices, the same working directory and the same outcome. -/
theorem C10_cwsd_is_noop (cv : Converters) (data : List Nat) (P : Bool) (d : Directory)
    (pre post : List CgrpFile) (f : CgrpFile) (p : Nat) (s1 : State)
    (hparse : parse data data.length = .ok (d, pre ++ f :: post))
    (hp : f.Offset = some p) (hb : p + 4 ≤ data.length)
    (htag : valueAt data p 4 false = 0x43575344)
    (hreach : extractFiles data P pre State.fresh = .next s1) :
    ∃ l2,
      (extract cv data P).state.log = s1.log ++ .warning p "Skipping CWSD" :: l2 ∧
      (extractFrom cv data P d (pre ++ { f with Offset := none } :: post) State.fresh).state.log =
        s1.log ++ l2 ∧
      (extract cv data P).outcome =
        (extractFrom cv data P d (pre ++ { f with Offset := none } :: post) State.fresh).outcome ∧
      (extract cv data P).state.Cwars =
        (extractFrom cv data P d (pre ++ { f with Offset := none } :: post)
          State.fresh).state.Cwars ∧
      (extract cv data P).state.Cbnks =
        (extractFrom cv data P d (pre ++ { f with Offset := none } :: post)
          State.fresh).state.Cbnks ∧
      (extract cv data P).state.Cseqs =
        (extractFrom cv data P d (pre ++ { f with Offset := none } :: post)
          State.fresh).state.Cseqs ∧
      (extract cv data P).state.cwd =
        (extractFrom cv data P d (pre ++ { f with Offset := none } :: post)
          State.fresh).state.cwd := by
  have e1 : extract cv data P =
      extractFrom cv data P d post (s1.emit (.warning p "Skipping CWSD")) := by
    rw [extract_of_parse cv data P d _ hparse,
      extractFrom_append_next cv data P d pre (f :: post) _ s1 hreach,
      extractFrom_cons_next cv data P d f post s1 _ (extractFile_cwsd data P f s1 p hp hb htag)]
  have e2 : extractFrom cv data P d (pre ++ { f with Offset := none } :: post) State.fresh =
      extractFrom cv data P d post s1 := by
    rw [extractFrom_append_next cv data P d pre _ _ s1 hreach,
      extractFrom_cons_next cv data P d _ post s1 s1 (extractFile_none data P _ s1 rfl)]
  have a1 : s1.emit (.warning p "Skipping CWSD") =
      State.prepend (s1.log ++ [.warning p "Skipping CWSD"]) { s1 with log := [] } := by
    simp only [State.emit, State.prepend, List.append_nil]
  have a2 : s1 = State.prepend s1.log { s1 with log := [] } := by
    simp only [State.prepend, List.append_nil]
  have e3 : extractFrom cv data P d post s1 =
      (extractFrom cv data P d post { s1 with log := [] }).prepend s1.log := by
    rw [← extractFrom_prepend, ← a2]
  rw [e1, e2, a1, extractFrom_prepend, e3]
  refine ⟨(extractFrom cv data P d post { s1 with log := [] }).state.log, ?_, ?_, rfl, rfl, rfl,
    rfl, rfl⟩
  · simp only [Run.prepend, State.prepend, List.append_assoc, List.singleton_append]
  · simp only [Run.prepend, State.prepend]

set_option maxRecDepth 100000 in
/-- C10 at the container around a sequence, a 'CWSD' payload and a second
sequence: the log is that of the run over the table without the 'CWSD' entry
with the warning at offset 152 put in after the first sequence was written. -/
theorem C10_cwsd_is_noop_witness :
    ∃ l2,
      (extract allSucceed (containerOf cwsdTable) false).state.log =
        [.write [] "0.cseq".toList (tinyPayload 0x43534551)] ++
          .warning 152 "Skipping CWSD" :: l2 ∧
      (extractFrom allSucceed (containerOf cwsdTable) false ⟨44, 84, 128, 56, 0, 0⟩
        ([⟨0, some 136, 16⟩] ++ ⟨0, none, 16⟩ :: [⟨0, some 168, 16⟩]) State.fresh).state.log =
        [.write [] "0.cseq".toList (tinyPayload 0x43534551)] ++ l2 ∧
      (extract allSucceed (containerOf cwsdTable) false).outcome =
        (extractFrom allSucceed (containerOf cwsdTable) false ⟨44, 84, 128, 56, 0, 0⟩
          ([⟨0, some 136, 16⟩] ++ ⟨0, none, 16⟩ :: [⟨0, some 168, 16⟩]) State.fresh).outcome :=
  match C10_cwsd_is_noop allSucceed (containerOf cwsdTable) false ⟨44, 84, 128, 56, 0, 0⟩
    [⟨0, some 136, 16⟩] [⟨0, some 168, 16⟩] ⟨0, some 152, 16⟩ 152
    (extractFiles (containerOf cwsdTable) false [⟨0, some 136, 16⟩] State.fresh).endState
    (by rfl) rfl (by decide) (by rfl) (by rfl) with
  | ⟨l2, h1, h2, h3, _⟩ => ⟨l2, h1, h2, h3⟩

/-! ## C11: the INFX warning -/

theorem readChunks_inv {data : List Nat} {count pos : Nat} {d : Directory} {r : Directory × Nat}
    (h : readChunks data (count + 1) pos d = .ok r) :
    pos + 12 ≤ data.length ∧
      ∃ d1, d.assign (valueAt data pos 4 true) (valueAt data (pos + 4) 4 true)
          (valueAt data (pos + 8) 4 true) = some d1 ∧
        readChunks data count (pos + 12) d1 = .ok r := by
  by_cases hb : pos + 12 ≤ data.length
  · rw [readChunks_succ data count pos d hb] at h
    cases ha : d.assign (valueAt data pos 4 true) (valueAt data (pos + 4) 4 true)
        (valueAt data (pos + 8) 4 true) with
    | none => rw [ha] at h; cases h
    | some d1 => rw [ha] at h; exact ⟨hb, d1, rfl, h⟩
  · exfalso
    rw [readChunks, rd_eq] at h
    by_cases h4 : pos + 4 ≤ data.length
    · rw [if_pos h4] at h
      simp only [bind, Except.bind, rd_eq] at h
      by_cases h8 : pos + 4 + 4 ≤ data.length
      · have h12 : ¬ pos + 4 + 4 + 4 ≤ data.length := by omega
        simp only [if_pos h8, if_neg h12] at h
        split_ifs at h
      · simp only [if_neg h8] at h
        split_ifs at h
    · rw [if_neg h4] at h
      cases h

theorem readChunks_lastTriple {data : List Nat} {count pos : Nat} {d d1 : Directory} {q : Nat}
    (h : readChunks data count pos d = .ok (d1, q)) :
    q = pos + 12 * count ∧ (0 < count → q ≤ data.length) ∧
    (d1.infoOffset, d1.infoLength) = lastTriple data 0x7800 count pos (d.infoOffset, d.infoLength) ∧
    (d1.fileOffset, d1.fileLength) = lastTriple data 0x7801 count pos (d.fileOffset, d.fileLength) ∧
    (d1.infxOffset, d1.infxLength) =
      lastTriple data 0x7802 count pos (d.infxOffset, d.infxLength) := by
  induction count generalizing pos d with
  | zero =>
    simp only [readChunks, Except.ok.injEq, Prod.mk.injEq] at h
    obtain ⟨rfl, rfl⟩ := h
    simp [lastTriple]
  | succ n ih =>
    obtain ⟨hb, d2, ha, hr⟩ := readChunks_inv h
    obtain ⟨e1, e2, e3, e4, e5⟩ := ih hr
    refine ⟨by omega, ?_, ?_, ?_, ?_⟩
    · intro _
      rcases Nat.eq_zero_or_pos n with h0 | h0
      · subst h0; omega
      · exact e2 h0
    all_goals
      simp only [lastTriple]
      simp only [Directory.assign] at ha
      split_ifs at ha with t1 t2 t3 <;> simp only [Option.some.injEq] at ha <;> subst ha <;>
        simp_all

theorem Extends.same (p : Event → Bool) (log : List Event) : Extends p log log :=
  ⟨[], by simp, by simp⟩

theorem Extends.chain {p : Event → Bool} {a b c : List Event} (h1 : Extends p a b)
    (h2 : Extends p b c) : Extends p a c := by
  obtain ⟨e1, rfl, q1⟩ := h1
  obtain ⟨e2, rfl, q2⟩ := h2
  refine ⟨e1 ++ e2, by rw [List.append_assoc], ?_⟩
  intro e he
  rcases List.mem_append.mp he with h | h
  · exact q1 e h
  · exact q2 e h

theorem Extends.one {p : Event → Bool} (log : List Event) (e : Event) (h : p e = true) :
    Extends p log (log ++ [e]) :=
  ⟨[e], rfl, by simpa using h⟩

theorem extractCwar_events (data : List Nat) (pos : Nat) (s : State) :
    Extends Event.fromWalk s.log (extractCwar data pos s).log := by
  unfold extractCwar
  simp only []
  split
  · exact Extends.same _ _
  · split
    · exact (Extends.one _ _ rfl).chain (Extends.one _ _ rfl)
    · exact (((Extends.one _ _ rfl).chain (Extends.one _ _ rfl)).chain
        (Extends.one _ _ rfl)).chain (Extends.one _ _ rfl)

theorem extractCbnk_events (data : List Nat) (P : Bool) (pos : Nat) (s : State) :
    Extends Event.fromWalk s.log (extractCbnk data P pos s).log := by
  unfold extractCbnk
  simp only []
  split
  · exact Extends.same _ _
  · split
    · exact (Extends.one _ _ rfl).chain (Extends.one _ _ rfl)
    · exact (((Extends.one _ _ rfl).chain (Extends.one _ _ rfl)).chain
        (Extends.one _ _ rfl)).chain (Extends.one _ _ rfl)

theorem extractCseq_events (data : List Nat) (pos : Nat) (s : State) :
    Extends Event.fromWalk s.log (extractCseq data pos s).log := by
  unfold extractCseq
  simp only []
  split
  · exact Extends.same _ _
  · split
    · exact Extends.same _ _
    · exact Extends.one _ _ rfl

theorem extractFile_events (data : List Nat) (P : Bool) (f : CgrpFile) (s : State) :
    Extends Event.fromWalk s.log (extractFile data P f s).log := by
  unfold extractFile
  split
  · exact Extends.same _ _
  · split
    · exact Extends.same _ _
    · split_ifs
      · exact extractCwar_events _ _ _
      · exact extractCbnk_events _ _ _ _
      · exact extractCseq_events _ _ _
      · exact Extends.one _ _ rfl
      · exact Extends.one _ _ rfl

theorem extractFiles_events (data : List Nat) (P : Bool) (fs : List CgrpFile) (s : State) :
    Extends Event.fromWalk s.log (extractFiles data P fs s).log := by
  induction fs generalizing s with
  | nil => exact Extends.same _ _
  | cons f fs ih =>
    have h1 := extractFile_events data P f s
    simp only [extractFiles]
    cases h : extractFile data P f s with
    | halt r => rw [h] at h1; exact h1
    | next s1 =>
      rw [h] at h1
      exact h1.chain (ih s1)

theorem convertCwars_events (cv : Converters) (i : Nat) (cwars : List Cwar) (s : State) :
    Extends Event.fromLoops s.log (convertCwars cv i cwars s).log := by
  induction cwars generalizing i s with
  | nil => exact Extends.same _ _
  | cons c cs ih =>
    simp only [convertCwars]
    have h1 : Extends Event.fromLoops s.log
        ((s.chdir (dirName c.FileName)).emit (.cwarExtract i)).log :=
      (Extends.one _ (.chdir _) rfl).chain (Extends.one _ (.cwarExtract i) rfl)
    split_ifs
    · exact (h1.chain (Extends.one _ (.chdir _) rfl)).chain (ih _ _)
    · exact h1

theorem convertCbnks_events (cv : Converters) (i : Nat) (cbnks : List Cbnk) (s : State) :
    Extends Event.fromLoops s.log (convertCbnks cv i cbnks s).log := by
  induction cbnks generalizing i s with
  | nil => exact Extends.same _ _
  | cons c cs ih =>
    simp only [convertCbnks]
    have h1 : Extends Event.fromLoops s.log
        ((s.chdir (dirName c.FileName)).emit (.cbnkConvert i)).log :=
      (Extends.one _ (.chdir _) rfl).chain (Extends.one _ (.cbnkConvert i) rfl)
    split_ifs
    · exact (h1.chain (Extends.one _ (.chdir _) rfl)).chain (ih _ _)
    · exact h1

theorem convertCseqs_events (cv : Converters) (i : Nat) (cseqs : List Cseq) (s : State) :
    Extends Event.fromLoops s.log (convertCseqs cv i cseqs s).log := by
  induction cseqs generalizing i s with
  | nil => exact Extends.same _ _
  | cons c cs ih =>
    simp only [convertCseqs]
    split_ifs
    · exact (Extends.one _ _ rfl).chain (ih _ _)
    · exact Extends.one _ _ rfl

theorem convertAll_events (cv : Converters) (d : Directory) (s : State) :
    ∃ log1, Extends Event.fromLoops s.log log1 ∧
      (convertAll cv d s).state.log =
        log1 ++ (match (convertAll cv d s).outcome with
          | .returned true => infxTail d
          | _ => []) := by
  unfold convertAll
  have h1 := convertCwars_events cv 0 s.Cwars s
  have r1 := convertCwars_ran cv 0 s.Cwars s
  cases hw : convertCwars cv 0 s.Cwars s with
  | halt r =>
    rw [hw] at h1 r1
    obtain ⟨-, a0, -, -⟩ := r1
    exact ⟨_, h1, by simp [a0, Flow.log]⟩
  | next s1 =>
    rw [hw] at h1
    have h2 := convertCbnks_events cv 0 s1.Cbnks s1
    have r2 := convertCbnks_ran cv 0 s1.Cbnks s1
    simp only []
    cases hb : convertCbnks cv 0 s1.Cbnks s1 with
    | halt r =>
      rw [hb] at h2 r2
      obtain ⟨-, a0, -, -⟩ := r2
      exact ⟨_, h1.chain h2, by simp [a0, Flow.log]⟩
    | next s2 =>
      rw [hb] at h2
      have h3 := convertCseqs_events cv 0 s2.Cseqs s2
      have r3 := convertCseqs_ran cv 0 s2.Cseqs s2
      simp only []
      cases hs : convertCseqs cv 0 s2.Cseqs s2 with
      | halt r =>
        rw [hs] at h3 r3
        obtain ⟨-, a0, -, -⟩ := r3
        exact ⟨_, (h1.chain h2).chain h3, by simp [a0, Flow.log]⟩
      | next s3 =>
        rw [hs] at h3
        refine ⟨s3.log, (h1.chain h2).chain h3, ?_⟩
        simp only [infxTail]
        split_ifs <;> simp [State.emit]

theorem infxWarnings_append (a b : List Event) :
    infxWarnings (a ++ b) = infxWarnings a ++ infxWarnings b :=
  List.filter_append _ _

theorem infxWarnings_of_walk {log log1 : List Event} (h : Extends Event.fromWalk log log1) :
    infxWarnings log1 = infxWarnings log := by
  obtain ⟨es, rfl, q⟩ := h
  rw [infxWarnings_append]
  have : infxWarnings es = [] := by
    simp only [infxWarnings, List.filter_eq_nil_iff]
    intro e he
    have := q e he
    cases e <;> simp_all [Event.fromWalk, Event.isInfxWarning]
  rw [this, List.append_nil]

theorem infxWarnings_of_loops {log log1 : List Event} (h : Extends Event.fromLoops log log1) :
    infxWarnings log1 = infxWarnings log := by
  obtain ⟨es, rfl, q⟩ := h
  rw [infxWarnings_append]
  have : infxWarnings es = [] := by
    simp only [infxWarnings, List.filter_eq_nil_iff]
    intro e he
    have := q e he
    cases e <;> simp_all [Event.fromLoops, Event.isInfxWarning]
  rw [this, List.append_nil]

theorem lastTriple_of_none (data : List Nat) (tag count pos : Nat) (v : Nat × Nat)
    (h : ∀ k < count, valueAt data (pos + 12 * k) 4 true ≠ tag) :
    lastTriple data tag count pos v = v := by
  induction count generalizing pos v with
  | zero => rfl
  | succ n ih =>
    have h0 := h 0 (by omega)
    simp only [Nat.mul_zero, Nat.add_zero] at h0
    simp only [lastTriple, if_neg h0]
    refine ih (pos + 12) v fun k hk => ?_
    have := h (k + 1) (by omega)
    rwa [show pos + 12 * (k + 1) = pos + 12 + 12 * k by omega] at this

/-- C11, as amended: on a container on which every validation and every
conversion succeeds, `Extract` returns true whether or not the directory holds
an INFX triple, and it emits the INFX warning exactly when the INFX offset it
has parsed is not 0, once, at that offset and as the last thing it does.  That
offset is the one of the last triple tagged 0x7802; it is 0 when the directory
holds no such triple, so a warning always stands for an INFX triple. -/
theorem C11_infx_warning (cv : Converters) (data : List Nat) (P : Bool) (d : Directory)
    (files : List CgrpFile) (s1 : State)
    (hparse : parse data data.length = .ok (d, files))
    (hwalk : extractFiles data P files State.fresh = .next s1)
    (hconv : ((plan cv s1).all fun x => x.2) = true) :
    (extract cv data P).outcome = .returned true ∧
    infxWarnings (extract cv data P).state.log = infxTail d ∧
    (∃ log1, (extract cv data P).state.log = log1 ++ infxTail d) ∧
    (d.infxOffset, d.infxLength) = lastTriple data 0x7802 (valueAt data 16 4 true) 20 (0, 0) ∧
    (d.infxOffset ≠ 0 →
      ∃ k < valueAt data 16 4 true, valueAt data (20 + 12 * k) 4 true = 0x7802) := by
  obtain ⟨count, pos, pos1, e1, e2, e3⟩ := parse_inv hparse
  obtain ⟨rfl, rfl⟩ := readHeader_pos e1
  have hx : (d.infxOffset, d.infxLength) =
      lastTriple data 0x7802 (valueAt data 16 4 true) 20 (0, 0) :=
    (readChunks_lastTriple e2).2.2.2.2
  have hout : (extract cv data P).outcome = .returned true := by
    rw [extract_of_parse cv data P d files hparse,
      extractFrom_of_next cv data P d files State.fresh s1 hwalk, (convertAll_ran cv d s1).1, hconv]
  have hw := extractFiles_events data P files State.fresh
  rw [hwalk] at hw
  obtain ⟨log1, hl, hlog⟩ := convertAll_events cv d s1
  rw [← extractFrom_of_next cv data P d files State.fresh s1 hwalk,
    ← extract_of_parse cv data P d files hparse, hout] at hlog
  simp only [] at hlog
  refine ⟨hout, ?_, ⟨log1, hlog⟩, hx, ?_⟩
  · rw [hlog, infxWarnings_append, infxWarnings_of_loops hl]
    simp only [Flow.log] at hw
    rw [infxWarnings_of_walk hw]
    simp only [State.fresh, infxWarnings, List.filter_nil, List.nil_append, infxTail]
    split_ifs <;> simp [Event.isInfxWarning]
  · intro hne
    by_contra hcon
    push_neg at hcon
    rw [lastTriple_of_none data 0x7802 _ 20 (0, 0) hcon] at hx
    simp only [Prod.mk.injEq] at hx
    exact hne hx.1

set_option maxRecDepth 100000 in
/-- C11 as stated fails: this container of one sequence passes every validation
and its directory holds an INFX triple, at offset 44, whose offset field is 0;
`Extract` returns true and emits no INFX warning. -/
theorem C11_counterexample :
    valueAt (headerBytes 116 3 ++ encodeDir infxAtZeroDir ++ oneSequenceBody) 44 4 true = 0x7802 ∧
    (extract allSucceed (headerBytes 116 3 ++ encodeDir infxAtZeroDir ++ oneSequenceBody)
      false).outcome = .returned true ∧
    infxWarnings (extract allSucceed
      (headerBytes 116 3 ++ encodeDir infxAtZeroDir ++ oneSequenceBody) false).state.log = [] :=
  ⟨by rfl, by rfl, by rfl⟩

set_option maxRecDepth 100000 in
/-- C11, as amended, at a container of one sequence whose directory holds an
INFX triple with the offset 116: the warning is emitted at 116. -/
theorem C11_infx_warning_witness :
    (extract allSucceed (headerBytes 116 3 ++ encodeDir infxDir ++ oneSequenceBody)
      false).outcome = .returned true ∧
    infxWarnings (extract allSucceed (headerBytes 116 3 ++ encodeDir infxDir ++ oneSequenceBody)
      false).state.log = [.warning 116 "Skipping INFX chunk"] :=
  have h := C11_infx_warning allSucceed
    (headerBytes 116 3 ++ encodeDir infxDir ++ oneSequenceBody) false ⟨56, 36, 92, 24, 116, 0⟩
    [⟨0, some 100, 16⟩]
    (State.fresh.addCseq (tinyPayload 0x43534551)) (by rfl) (by rfl) (by rfl)
  ⟨h.1, h.2.1⟩

/-! ## C12: the INFO chunk is validated -/

theorem extract_of_parse_rejected (cv : Converters) (data : List Nat) (p : Bool) (e : Event)
    (h : parse data data.length = .error (.rejected e)) :
    extract cv data p = ⟨.returned false, State.fresh.emit e⟩ := by
  simp only [extract, Cgrp.Extract, Cgrp.open, h]

theorem parse_of_readInfo_error (data : List Nat) (L count pos pos1 : Nat) (d : Directory)
    (e : ParseStop) (hh : readHeader data L = .ok (count, pos))
    (hd : readChunks data count pos Directory.zero = .ok (d, pos1))
    (hi : readInfo data d = .error e) : parse data L = .error e := by
  simp only [parse, hh, hd, hi, bind, Except.bind]

theorem readInfo_bad_magic (data : List Nat) (d : Directory)
    (hb : d.infoOffset + 4 ≤ data.length) (hm : valueAt data d.infoOffset 4 false ≠ 0x494E464F) :
    readInfo data d =
      .error (.rejected (.assertFailed 0x494E464F (valueAt data d.infoOffset 4 false))) := by
  unfold readInfo
  rw [rd_ok false hb]
  simp only [bind, Except.bind, Assert, if_neg (Ne.symm hm)]

theorem readInfo_bad_length (data : List Nat) (d : Directory)
    (hb : d.infoOffset + 8 ≤ data.length) (hm : valueAt data d.infoOffset 4 false = 0x494E464F)
    (hl : valueAt data (d.infoOffset + 4) 4 true ≠ d.infoLength) :
    readInfo data d =
      .error (.rejected (.assertFailed d.infoLength (valueAt data (d.infoOffset + 4) 4 true))) := by
  unfold readInfo
  rw [rd_ok false (by omega : d.infoOffset + 4 ≤ data.length)]
  simp only [bind, Except.bind, Assert, hm, if_true]
  rw [rd_ok true (by omega : d.infoOffset + 4 + 4 ≤ data.length)]
  simp only [if_neg (Ne.symm hl)]

theorem extract_of_parse_outOfBounds (cv : Converters) (data : List Nat) (p : Bool)
    (h : parse data data.length = .error .outOfBounds) :
    extract cv data p = ⟨.outOfBounds, State.fresh⟩ := by
  simp only [extract, Cgrp.Extract, Cgrp.open, h]

theorem readInfo_outOfBounds (data : List Nat) (d : Directory)
    (h : data.length < d.infoOffset + 4) : readInfo data d = .error .outOfBounds := by
  unfold readInfo
  rw [rd_eq, if_neg (by omega)]
  rfl

theorem readInfo_cut_after_magic (data : List Nat) (d : Directory)
    (hb : d.infoOffset + 4 ≤ data.length) (hm : valueAt data d.infoOffset 4 false = 0x494E464F)
    (h8 : data.length < d.infoOffset + 8) : readInfo data d = .error .outOfBounds := by
  unfold readInfo
  rw [rd_ok false hb]
  simp only [bind, Except.bind, Assert, hm, if_true]
  rw [rd_eq, if_neg (by omega)]

/-- C12, as amended: on a container that passes the header checks and whose
chunk directory is parsed into the six values `d`.  When the four bytes at the
INFO offset lie inside the buffer and, read big-endian, are not 'INFO'
0x494E464F, or when the little-endian u32 at the INFO offset + 4 lies inside the
buffer and is not the INFO length of the directory, `Extract` returns false, and
all it has done is to report one failed comparison: no file is written, no
directory made, no handle opened and no converter called.  The comparison
reported is that of the magic when the magic is wrong, whether or not the length
field is in the buffer, and that of the length otherwise.  When the magic lies
past the end of the buffer, or the magic is 'INFO' and the length field lies
past the end, `Extract` does not return false: it reads outside the buffer. -/
theorem C12_info_chunk_validation (cv : Converters) (data : List Nat) (P : Bool)
    (count pos pos1 : Nat) (d : Directory)
    (hh : readHeader data data.length = .ok (count, pos))
    (hd : readChunks data count pos Directory.zero = .ok (d, pos1)) :
    ((d.infoOffset + 4 ≤ data.length ∧ valueAt data d.infoOffset 4 false ≠ 0x494E464F) ∨
        (d.infoOffset + 8 ≤ data.length ∧
          valueAt data (d.infoOffset + 4) 4 true ≠ d.infoLength) →
      (extract cv data P).outcome = .returned false ∧
      ((extract cv data P).state.log =
          [.assertFailed 0x494E464F (valueAt data d.infoOffset 4 false)] ∨
        (extract cv data P).state.log =
          [.assertFailed d.infoLength (valueAt data (d.infoOffset + 4) 4 true)]) ∧
      writes (extract cv data P).state.log = [] ∧ mkdirs (extract cv data P).state.log = [] ∧
      calls (extract cv data P).state.log = [] ∧
      (extract cv data P).state.Cwars = [] ∧ (extract cv data P).state.Cbnks = [] ∧
      (extract cv data P).state.Cseqs = []) ∧
    (d.infoOffset + 4 ≤ data.length → valueAt data d.infoOffset 4 false ≠ 0x494E464F →
      extract cv data P = ⟨.returned false, State.fresh.emit
        (.assertFailed 0x494E464F (valueAt data d.infoOffset 4 false))⟩) ∧
    (d.infoOffset + 8 ≤ data.length → valueAt data d.infoOffset 4 false = 0x494E464F →
      valueAt data (d.infoOffset + 4) 4 true ≠ d.infoLength →
      extract cv data P = ⟨.returned false, State.fresh.emit
        (.assertFailed d.infoLength (valueAt data (d.infoOffset + 4) 4 true))⟩) ∧
    (data.length < d.infoOffset + 4 ∨
        (valueAt data d.infoOffset 4 false = 0x494E464F ∧ data.length < d.infoOffset + 8) →
      extract cv data P = ⟨.outOfBounds, State.fresh⟩) := by
  have hmagic : d.infoOffset + 4 ≤ data.length →
      valueAt data d.infoOffset 4 false ≠ 0x494E464F →
      extract cv data P = ⟨.returned false, State.fresh.emit
        (.assertFailed 0x494E464F (valueAt data d.infoOffset 4 false))⟩ := fun hb hm =>
    extract_of_parse_rejected cv data P _ (parse_of_readInfo_error data _ count pos pos1 d _ hh hd
      (readInfo_bad_magic data d hb hm))
  have hlength : d.infoOffset + 8 ≤ data.length →
      valueAt data d.infoOffset 4 false = 0x494E464F →
      valueAt data (d.infoOffset + 4) 4 true ≠ d.infoLength →
      extract cv data P = ⟨.returned false, State.fresh.emit
        (.assertFailed d.infoLength (valueAt data (d.infoOffset + 4) 4 true))⟩ := fun hb hm hl =>
    extract_of_parse_rejected cv data P _ (parse_of_readInfo_error data _ count pos pos1 d _ hh hd
      (readInfo_bad_length data d hb hm hl))
  refine ⟨fun hbad => ?_, hmagic, hlength, fun hout => ?_⟩
  · by_cases hm : valueAt data d.infoOffset 4 false = 0x494E464F
    · rcases hbad with ⟨-, h⟩ | ⟨hb, hl⟩
      · exact absurd hm h
      · rw [hlength hb hm hl]
        exact ⟨rfl, Or.inr rfl, rfl, rfl, rfl, rfl, rfl, rfl⟩
    · have hb : d.infoOffset + 4 ≤ data.length := by
        rcases hbad with ⟨h, -⟩ | ⟨h, -⟩ <;> omega
      rw [hmagic hb hm]
      exact ⟨rfl, Or.inl rfl, rfl, rfl, rfl, rfl, rfl, rfl⟩
  · apply extract_of_parse_outOfBounds
    apply parse_of_readInfo_error data _ count pos pos1 d _ hh hd
    by_cases hb : d.infoOffset + 4 ≤ data.length
    · rcases hout with h | ⟨hm, h8⟩
      · omega
      · exact readInfo_cut_after_magic data d hb hm h8
    · exact readInfo_outOfBounds data d (by omega)

set_option maxRecDepth 100000 in
/-- C12 as stated fails: these two containers pass the header and the directory
steps and the bytes at their INFO offset are not 'INFO' followed by the INFO
length, there being none or only four of them, yet `Extract` does not return
false.  In the first the INFO offset 1000 is past the end of the 32 bytes; in
the second the buffer ends after the magic 'INFO' at offset 32.  The run reads
outside the buffer. -/
theorem C12_counterexample :
    (readHeader pastEndInfo pastEndInfo.length = .ok (1, 20) ∧
      readChunks pastEndInfo 1 20 Directory.zero = .ok (⟨1000, 0, 0, 0, 0, 0⟩, 32) ∧
      pastEndInfo.length = 32 ∧
      extract allSucceed pastEndInfo false = ⟨.outOfBounds, State.fresh⟩) ∧
    (readHeader magicOnlyInfo magicOnlyInfo.length = .ok (1, 20) ∧
      readChunks magicOnlyInfo 1 20 Directory.zero = .ok (⟨32, 8, 0, 0, 0, 0⟩, 32) ∧
      magicOnlyInfo.length = 36 ∧ valueAt magicOnlyInfo 32 4 false = 0x494E464F ∧
      extract allSucceed magicOnlyInfo false = ⟨.outOfBounds, State.fresh⟩) :=
  ⟨⟨by rfl, by rfl, by rfl, by rfl⟩, by rfl, by rfl, by rfl, by rfl, by rfl⟩

set_option maxRecDepth 100000 in
/-- C12, as amended, at a container of one sequence whose directory declares 37
bytes for an INFO chunk that says 36 of itself, and at a container whose INFO
offset holds four zero bytes, the buffer ending before the length field. -/
theorem C12_info_chunk_validation_witness :
    ((extract allSucceed (headerBytes 104 2 ++ encodeDir longInfoDir ++ oneSequenceBody)
        false).outcome = .returned false ∧
      writes (extract allSucceed (headerBytes 104 2 ++ encodeDir longInfoDir ++ oneSequenceBody)
        false).state.log = []) ∧
    cornerInfo.length < 32 + 8 ∧
    extract allSucceed cornerInfo false =
      ⟨.returned false, State.fresh.emit (.assertFailed 0x494E464F 0)⟩ :=
  have h := (C12_info_chunk_validation allSucceed
    (headerBytes 104 2 ++ encodeDir longInfoDir ++ oneSequenceBody) false 2 20 44
    ⟨44, 37, 80, 24, 0, 0⟩ (by rfl) (by rfl)).1 (Or.inr ⟨by decide, by decide⟩)
  ⟨⟨h.1, h.2.2.1⟩, by decide,
    (C12_info_chunk_validation allSucceed cornerInfo false 1 20 32 ⟨32, 0, 0, 0, 0, 0⟩
      (by rfl) (by rfl)).2.1 (by decide) (by decide)⟩

/-! ## C13: a tag that the directory repeats -/

theorem extract_afterDirectory (cv : Converters) (data : List Nat) (P : Bool)
    (count pos pos1 : Nat) (d : Directory)
    (hh : readHeader data data.length = .ok (count, pos))
    (hd : readChunks data count pos Directory.zero = .ok (d, pos1)) :
    extract cv data P = afterDirectory cv data P d := by
  simp only [extract, Cgrp.Extract, Cgrp.open, parse, hh, hd, bind, Except.bind, afterDirectory]
  cases readInfo data d with
  | error e => cases e <;> rfl
  | ok files => rfl

theorem readChunks_recognised (data : List Nat) (count pos : Nat) (d : Directory)
    (hb : pos + 12 * count ≤ data.length)
    (hrec : ∀ k < count, RecognisedTag (valueAt data (pos + 12 * k) 4 true)) :
    ∃ d1, readChunks data count pos d = .ok (d1, pos + 12 * count) := by
  induction count generalizing pos d with
  | zero => exact ⟨d, rfl⟩
  | succ n ih =>
    have h0 := hrec 0 (by omega)
    simp only [Nat.mul_zero, Nat.add_zero] at h0
    obtain ⟨d1, hd1⟩ := Directory.assign_of_recognised d _ (valueAt data (pos + 4) 4 true)
      (valueAt data (pos + 8) 4 true) h0
    rw [readChunks_succ data n pos d (by omega), hd1]
    obtain ⟨d2, hd2⟩ := ih (pos + 12) d1 (by omega) (fun k hk => by
      have := hrec (k + 1) (by omega)
      rwa [show pos + 12 * (k + 1) = pos + 12 + 12 * k by omega] at this)
    refine ⟨d2, ?_⟩
    simp only [hd2]
    congr 2
    omega

theorem readChunks_ofLast {data : List Nat} {count pos : Nat} {d : Directory} {q : Nat}
    (h : readChunks data count pos Directory.zero = .ok (d, q)) :
    d = Directory.ofLast data count pos := by
  obtain ⟨-, -, h1, h2, h3⟩ := readChunks_lastTriple h
  have h1 : (d.infoOffset, d.infoLength) = lastTriple data 0x7800 count pos (0, 0) := h1
  have h2 : (d.fileOffset, d.fileLength) = lastTriple data 0x7801 count pos (0, 0) := h2
  have h3 : (d.infxOffset, d.infxLength) = lastTriple data 0x7802 count pos (0, 0) := h3
  cases d
  simp only [Directory.ofLast, ← h1, ← h2, ← h3]

/-- C13, as amended: a recognised tag that the directory repeats is not
rejected.  On a container that passes the header checks and whose `count`
directory triples lie inside the buffer and carry recognised tags, repeated or
not, the directory is parsed to the end, into the values of the last triple of
every tag, and `Extract` goes on from these values: its result is that of the
INFO chunk, the walk and the conversion pass on them. -/
theorem C13_repeated_tag_last_wins (cv : Converters) (data : List Nat) (P : Bool)
    (count pos : Nat) (hh : readHeader data data.length = .ok (count, pos))
    (hb : 20 + 12 * count ≤ data.length)
    (hrec : ∀ k < count, RecognisedTag (valueAt data (20 + 12 * k) 4 true)) :
    readChunks data count 20 Directory.zero =
      .ok (Directory.ofLast data count 20, 20 + 12 * count) ∧
    extract cv data P = afterDirectory cv data P (Directory.ofLast data count 20) := by
  obtain ⟨d, hd⟩ := readChunks_recognised data count 20 Directory.zero hb hrec
  have e := readChunks_ofLast hd
  subst e
  obtain ⟨rfl, -⟩ := readHeader_pos hh
  exact ⟨hd, extract_afterDirectory cv data P _ 20 _ _ hh hd⟩

set_option maxRecDepth 100000 in
/-- C13 as stated fails: the directory of this container lists the tag INFO
0x7800 in its first and in its second triple, and `Extract` returns true. -/
theorem C13_counterexample :
    valueAt (headerBytes 116 3 ++ encodeDir twiceInfoDir ++ oneSequenceBody) 20 4 true = 0x7800 ∧
    valueAt (headerBytes 116 3 ++ encodeDir twiceInfoDir ++ oneSequenceBody) 32 4 true = 0x7800 ∧
    (extract allSucceed (headerBytes 116 3 ++ encodeDir twiceInfoDir ++ oneSequenceBody)
      false).outcome = .returned true ∧
    writes (extract allSucceed (headerBytes 116 3 ++ encodeDir twiceInfoDir ++ oneSequenceBody)
      false).state.log = [([], "0.cseq".toList, tinyPayload 0x43534551)] :=
  ⟨by rfl, by rfl, by rfl, by rfl⟩

set_option maxRecDepth 100000 in
/-- C13, as amended, at the container whose directory names the INFO chunk
twice: the second INFO triple has the say. -/
theorem C13_repeated_tag_last_wins_witness :
    Directory.ofLast (headerBytes 116 3 ++ encodeDir twiceInfoDir ++ oneSequenceBody) 3 20 =
      ⟨56, 36, 92, 24, 0, 0⟩ ∧
    extract allSucceed (headerBytes 116 3 ++ encodeDir twiceInfoDir ++ oneSequenceBody) false =
      afterDirectory allSucceed (headerBytes 116 3 ++ encodeDir twiceInfoDir ++ oneSequenceBody)
        false
        (Directory.ofLast (headerBytes 116 3 ++ encodeDir twiceInfoDir ++ oneSequenceBody) 3 20) :=
  ⟨by rfl, (C13_repeated_tag_last_wins allSucceed
    (headerBytes 116 3 ++ encodeDir twiceInfoDir ++ oneSequenceBody) false 3 20 (by rfl)
    (by decide) (by
      intro k hk
      interval_cases k
      · exact Or.inl (by rfl)
      · exact Or.inl (by rfl)
      · exact Or.inr (Or.inl (by rfl)))).2⟩

/-! ## C14: the length of a chunk against the directory -/

theorem afterDirectory_lengths (cv : Converters) (data : List Nat) (P : Bool) (d : Directory)
    (fl xl : Nat) :
    afterDirectory cv data P { d with fileLength := fl, infxLength := xl } =
      afterDirectory cv data P d := rfl

/-- C14, as amended: of the chunks the directory lists, the INFO chunk alone has
its length cross-checked.  On a container that passes the header checks and
whose directory is parsed into the six values `d`: when the INFO header lies
inside the buffer and starts with 'INFO', `Extract` returns false unless the
length field of that header is the INFO length of the directory; the FILE and
the INFX length of the directory are compared with nothing, the run being the
one it would be for any other two values in their place. -/
theorem C14_only_info_length_checked (cv : Converters) (data : List Nat) (P : Bool)
    (count pos pos1 : Nat) (d : Directory)
    (hh : readHeader data data.length = .ok (count, pos))
    (hd : readChunks data count pos Directory.zero = .ok (d, pos1)) :
    (d.infoOffset + 8 ≤ data.length → valueAt data d.infoOffset 4 false = 0x494E464F →
      valueAt data (d.infoOffset + 4) 4 true ≠ d.infoLength →
      extract cv data P = ⟨.returned false, State.fresh.emit
        (.assertFailed d.infoLength (valueAt data (d.infoOffset + 4) 4 true))⟩) ∧
    (∀ fl xl, extract cv data P =
      afterDirectory cv data P { d with fileLength := fl, infxLength := xl }) := by
  refine ⟨fun hb hm hl => ?_, fun fl xl => ?_⟩
  · exact extract_of_parse_rejected cv data P _ (parse_of_readInfo_error data _ count pos pos1 d _
      hh hd (readInfo_bad_length data d hb hm hl))
  · rw [afterDirectory_lengths]
    exact extract_afterDirectory cv data P count pos pos1 d hh hd

set_option maxRecDepth 100000 in
/-- C14 as stated fails: the directory of this container declares 999 bytes for
the FILE chunk, the header of the FILE chunk, at offset 80, says 24, and
`Extract` returns true, the one sequence written. -/
theorem C14_counterexample :
    valueAt (headerBytes 104 2 ++ encodeDir longFileDir ++ oneSequenceBody) 32 4 true = 0x7801 ∧
    valueAt (headerBytes 104 2 ++ encodeDir longFileDir ++ oneSequenceBody) 36 4 true = 80 ∧
    valueAt (headerBytes 104 2 ++ encodeDir longFileDir ++ oneSequenceBody) 40 4 true = 999 ∧
    valueAt (headerBytes 104 2 ++ encodeDir longFileDir ++ oneSequenceBody) 80 4 false =
      0x46494C45 ∧
    valueAt (headerBytes 104 2 ++ encodeDir longFileDir ++ oneSequenceBody) 84 4 true = 24 ∧
    (extract allSucceed (headerBytes 104 2 ++ encodeDir longFileDir ++ oneSequenceBody)
      false).outcome = .returned true ∧
    writes (extract allSucceed (headerBytes 104 2 ++ encodeDir longFileDir ++ oneSequenceBody)
      false).state.log = [([], "0.cseq".toList, tinyPayload 0x43534551)] :=
  ⟨by rfl, by rfl, by rfl, by rfl, by rfl, by rfl, by rfl⟩

set_option maxRecDepth 100000 in
/-- C14, as amended, at the container of one sequence whose directory declares
37 bytes for an INFO chunk that says 36 of itself. -/
theorem C14_only_info_length_checked_witness :
    extract allSucceed (headerBytes 104 2 ++ encodeDir longInfoDir ++ oneSequenceBody) false =
      ⟨.returned false, State.fresh.emit (.assertFailed 37 36)⟩ :=
  (C14_only_info_length_checked allSucceed
    (headerBytes 104 2 ++ encodeDir longInfoDir ++ oneSequenceBody) false 2 20 44
    ⟨44, 37, 80, 24, 0, 0⟩ (by rfl) (by rfl)).1 (by decide) (by rfl) (by decide)

/-! ## C15: the layout of the INFO chunk -/

theorem readFile_closed (data : List Nat) (fo q : Nat) :
    readFile data fo q =
      if q + entrySize data q ≤ data.length then
        .ok (decodeEntry data fo q, q + entrySize data q)
      else .error .outOfBounds := by
  unfold readFile entrySize decodeEntry
  simp only [rd_eq, bind, Except.bind, pure, Except.pure]
  by_cases b1 : q + 4 ≤ data.length
  · simp only [b1, if_true]
    by_cases b2 : q + 4 + 4 ≤ data.length
    · simp only [b2, if_true]
      by_cases hf : valueAt data (q + 4) 4 true = 7936
      · simp only [hf, if_true]
        by_cases b3 : q + 4 + 4 + 4 ≤ data.length
        · simp only [b3, if_true]
          by_cases b4 : q + 4 + 4 + 4 + 4 ≤ data.length
          · have b5 : q + 16 ≤ data.length := by omega
            simp only [b4, b5, if_true, Nat.add_assoc, Nat.reduceAdd]
          · have b5 : ¬ q + 16 ≤ data.length := by omega
            simp only [b4, b5, if_false]
        · have b5 : ¬ q + 16 ≤ data.length := by omega
          simp only [b3, b5, if_false]
      · simp only [hf, if_false]
        by_cases b3 : q + 4 + 4 + 4 ≤ data.length
        · have b5 : q + 12 ≤ data.length := by omega
          simp only [b3, b5, if_true, Nat.add_assoc, Nat.reduceAdd]
        · have b5 : ¬ q + 12 ≤ data.length := by omega
          simp only [b3, b5, if_false]
    · have b5 : ¬ q + (if valueAt data (q + 4) 4 true = 7936 then 16 else 12) ≤ data.length := by
        split_ifs <;> omega
      simp only [b2, b5, if_false]
  · have b5 : ¬ q + (if valueAt data (q + 4) 4 true = 7936 then 16 else 12) ≤ data.length := by
      split_ifs <;> omega
    simp only [b1, b5, if_false]

theorem readFiles_table {data : List Nat} {fo count pos : Nat} {acc files : List CgrpFile}
    {q : Nat} (h : readFiles data fo count pos acc = .ok (files, q)) :
    files = acc ++ (List.range count).map (fun k => decodeEntry data fo (entryPos data pos k)) ∧
      q = entryPos data pos count ∧ (0 < count → q ≤ data.length) := by
  induction count generalizing pos acc with
  | zero =>
    simp only [readFiles, Except.ok.injEq, Prod.mk.injEq] at h
    simp [h.1, h.2, entryPos]
  | succ n ih =>
    rw [readFiles, readFile_closed] at h
    by_cases hb : pos + entrySize data pos ≤ data.length
    · simp only [if_pos hb, bind, Except.bind] at h
      obtain ⟨e1, e2, e3⟩ := ih h
      refine ⟨?_, by rw [e2]; rfl, fun _ => ?_⟩
      · rw [e1, List.range_succ_eq_map, List.map_cons, List.map_map, List.append_assoc]
        rfl
      · rcases Nat.eq_zero_or_pos n with h0 | h0
        · subst h0
          rw [e2]
          exact hb
        · exact e3 h0
    · simp only [if_neg hb, bind, Except.bind] at h
      cases h

theorem readSlots_tags {data : List Nat} {io count pos : Nat} {acc r : List Nat} {q : Nat}
    (h : readSlots data io count pos acc = .ok (r, q)) :
    q = pos + 8 * count ∧ (0 < count → q ≤ data.length) ∧
      ∀ j < count, valueAt data (pos + 8 * j) 4 true = 0x7900 := by
  induction count generalizing pos acc with
  | zero =>
    simp only [readSlots, Except.ok.injEq, Prod.mk.injEq] at h
    exact ⟨by omega, by omega, by omega⟩
  | succ n ih =>
    rw [readSlots] at h
    simp only [rd_eq, bind, Except.bind, Assert] at h
    by_cases b1 : pos + 4 ≤ data.length
    · simp only [b1, if_true] at h
      by_cases ht : 0x7900 = valueAt data pos 4 true
      · simp only [ht, if_true] at h
        by_cases b2 : pos + 4 + 4 ≤ data.length
        · simp only [b2, if_true] at h
          obtain ⟨e1, e2, e3⟩ := ih h
          refine ⟨by omega, fun _ => ?_, fun j hj => ?_⟩
          · rcases Nat.eq_zero_or_pos n with h0 | h0
            · subst h0; omega
            · exact e2 h0
          · rcases Nat.eq_zero_or_pos j with h0 | h0
            · subst h0
              exact ht.symm
            · have := e3 (j - 1) (by omega)
              rwa [show pos + 4 + 4 + 8 * (j - 1) = pos + 8 * j by omega] at this
        · simp only [b2, if_false, reduceCtorEq] at h
      · simp only [ht, if_false, reduceCtorEq] at h
    · simp only [b1, if_false, reduceCtorEq] at h

theorem readInfo_inv {data : List Nat} {d : Directory} {files : List CgrpFile}
    (h : readInfo data d = .ok files) :
    d.infoOffset + 12 ≤ data.length ∧ valueAt data d.infoOffset 4 false = 0x494E464F ∧
      valueAt data (d.infoOffset + 4) 4 true = d.infoLength ∧
      ∃ r q1 q2, readSlots data d.infoOffset (valueAt data (d.infoOffset + 8) 4 true)
          (d.infoOffset + 12) [] = .ok (r, q1) ∧
        readFiles data d.fileOffset (valueAt data (d.infoOffset + 8) 4 true) q1 [] =
          .ok (files, q2) := by
  by_cases b1 : d.infoOffset + 4 ≤ data.length
  · by_cases hm : valueAt data d.infoOffset 4 false = 0x494E464F
    · by_cases b2 : d.infoOffset + 8 ≤ data.length
      · by_cases hl : valueAt data (d.infoOffset + 4) 4 true = d.infoLength
        · by_cases b3 : d.infoOffset + 12 ≤ data.length
          · rw [readInfo_ok data d b3 hm hl] at h
            refine ⟨b3, hm, hl, ?_⟩
            cases h1 : readSlots data d.infoOffset (valueAt data (d.infoOffset + 8) 4 true)
                (d.infoOffset + 12) [] with
            | error e => rw [h1] at h; cases h
            | ok r1 =>
              obtain ⟨r, q1⟩ := r1
              rw [h1] at h
              simp only [Except.bind] at h
              cases h2 : readFiles data d.fileOffset (valueAt data (d.infoOffset + 8) 4 true)
                  q1 [] with
              | error e => rw [h2] at h; cases h
              | ok r2 =>
                obtain ⟨fs, q2⟩ := r2
                rw [h2] at h
                simp only [Except.ok.injEq] at h
                subst h
                exact ⟨r, q1, q2, rfl, h2⟩
          · exfalso
            unfold readInfo at h
            rw [rd_ok false b1] at h
            simp only [bind, Except.bind, Assert, hm, if_true] at h
            rw [rd_ok true (by omega : d.infoOffset + 4 + 4 ≤ data.length)] at h
            simp only [hl, if_true] at h
            rw [rd_eq, if_neg (by omega)] at h
            cases h
        · rw [readInfo_bad_length data d b2 hm hl] at h
          cases h
      · exfalso
        unfold readInfo at h
        rw [rd_ok false b1] at h
        simp only [bind, Except.bind, Assert, hm, if_true] at h
        rw [rd_eq, if_neg (by omega)] at h
        cases h
    · rw [readInfo_bad_magic data d b1 hm] at h
      cases h
  · exfalso
    unfold readInfo at h
    rw [rd_eq, if_neg b1] at h
    cases h

theorem entryPos_succ (data : List Nat) (pos k : Nat) :
    entryPos data pos (k + 1) = entryPos data pos k + entrySize data (entryPos data pos k) := by
  induction k generalizing pos with
  | zero => rfl
  | succ n ih =>
    rw [entryPos, ih (pos + entrySize data pos)]
    rfl

/-- C15, as amended: in the INFO chunk of a container that `Extract` parses,
`n` being the entry count at the INFO offset + 8, the slot table takes eight
bytes per slot, the tag 0x7900 of slot `j` at the INFO offset + 12 + 8 j, and
the file table starts at the INFO offset + 12 + 8 n.  An entry takes sixteen
bytes when its flag is the sentinel 0x1F00 and twelve otherwise, so the position
of entry `k` is that of the entry before it plus the size of that entry: it
depends on the flags before it.  Entry `k` of the decoded table has its id at
that position `q`, its flag at `q + 4` and its length at `q + 12` after a raw
offset at `q + 8` when the flag is the sentinel, at `q + 8` otherwise. -/
theorem C15_info_chunk_layout (data : List Nat) (L : Nat) (d : Directory)
    (files : List CgrpFile) (h : parse data L = .ok (d, files)) :
    (∀ j < valueAt data (d.infoOffset + 8) 4 true,
      valueAt data (d.infoOffset + 12 + 8 * j) 4 true = 0x7900) ∧
    files = (List.range (valueAt data (d.infoOffset + 8) 4 true)).map (fun k =>
      decodeEntry data d.fileOffset
        (entryPos data (d.infoOffset + 12 + 8 * valueAt data (d.infoOffset + 8) 4 true) k)) ∧
    (∀ pos k, entryPos data pos 0 = pos ∧
      entryPos data pos (k + 1) = entryPos data pos k +
        (if valueAt data (entryPos data pos k + 4) 4 true = 0x1F00 then 16 else 12)) ∧
    (∀ fo q, decodeEntry data fo q =
      if valueAt data (q + 4) 4 true = 0x1F00 then
        ⟨valueAt data q 4 true, some (fo + 8 + valueAt data (q + 8) 4 true),
          valueAt data (q + 12) 4 true⟩
      else ⟨valueAt data q 4 true, none, valueAt data (q + 8) 4 true⟩) := by
  obtain ⟨count, pos, pos1, -, -, e3⟩ := parse_inv h
  obtain ⟨-, -, -, r, q1, q2, hs, hf⟩ := readInfo_inv e3
  obtain ⟨rfl, -, htags⟩ := readSlots_tags hs
  obtain ⟨hfiles, -, -⟩ := readFiles_table hf
  refine ⟨htags, ?_, fun pos k => ⟨rfl, entryPos_succ data pos k⟩, fun fo q => rfl⟩
  rw [hfiles, List.nil_append]

set_option maxRecDepth 100000 in
/-- C15 as stated fails.  In this container of two entries, INFO offset 44, the
positions of the claim, 44 + 12 + 4 n + 12 k, are 64 and 76: they hold the tag
of the second slot and the flag of the first entry, while the ids `Extract`
decodes are 7 and 9, from the positions 72 and 88; the second entry is sixteen
bytes after the first, whose flag is the sentinel. -/
theorem C15_counterexample :
    parse layoutProbe layoutProbe.length =
      .ok (⟨44, 56, 100, 24, 0, 0⟩, [⟨7, some 108, 16⟩, ⟨9, none, 3⟩]) ∧
    valueAt layoutProbe (44 + 8) 4 true = 2 ∧
    valueAt layoutProbe (44 + 12 + 4 * 2 + 12 * 0) 4 true = 0x7900 ∧
    valueAt layoutProbe (44 + 12 + 4 * 2 + 12 * 1) 4 true = 0x1F00 ∧
    valueAt layoutProbe 72 4 true = 7 ∧ valueAt layoutProbe 88 4 true = 9 ∧
    (extract allSucceed layoutProbe false).outcome = .returned true :=
  ⟨by rfl, by rfl, by rfl, by rfl, by rfl, by rfl, by rfl⟩

set_option maxRecDepth 100000 in
/-- C15, as amended, at the container of two entries: the entries are decoded
at the positions 72 and 88. -/
theorem C15_info_chunk_layout_witness :
    [(⟨7, some 108, 16⟩ : CgrpFile), ⟨9, none, 3⟩] =
      (List.range (valueAt layoutProbe (44 + 8) 4 true)).map (fun k =>
        decodeEntry layoutProbe 100
          (entryPos layoutProbe (44 + 12 + 8 * valueAt layoutProbe (44 + 8) 4 true) k)) ∧
    entryPos layoutProbe 72 0 = 72 ∧ entryPos layoutProbe 72 1 = 88 :=
  ⟨(C15_info_chunk_layout layoutProbe layoutProbe.length ⟨44, 56, 100, 24, 0, 0⟩
    [⟨7, some 108, 16⟩, ⟨9, none, 3⟩] (by rfl)).2.1, by rfl, by rfl⟩

/-! ## C16: the working directory when `Extract` returns -/

set_option maxRecDepth 100000 in
/-- C16 fails on the code: when `Cwars[i]->Extract()` or `Cbnks[i]->Convert("..")`
reports failure, the `return false` of lines 285 and 305 comes before the
`chdir("..")` of its loop body.  On the container of one wave archive whose
converter fails, and on the container of one bank whose converter fails,
`Extract` returns false in the directory `0`, not in the directory it was
called in; when the converters succeed it returns in the starting directory. -/
theorem C16_cwd_not_restored :
    (extract archiveFails (containerOf [some (tinyPayload 0x43574152)]) false).outcome =
      .returned false ∧
    (extract archiveFails (containerOf [some (tinyPayload 0x43574152)]) false).state.cwd =
      ["0".toList] ∧
    State.fresh.cwd = [] ∧
    (extract bankFails (containerOf [some (tinyPayload 0x43424E4B)]) false).outcome =
      .returned false ∧
    (extract bankFails (containerOf [some (tinyPayload 0x43424E4B)]) false).state.cwd =
      ["0".toList] ∧
    (extract allSucceed (containerOf [some (tinyPayload 0x43574152)]) false).outcome =
      .returned true ∧
    (extract allSucceed (containerOf [some (tinyPayload 0x43574152)]) false).state.cwd = [] :=
  ⟨by rfl, by rfl, by rfl, by rfl, by rfl, by rfl, by rfl⟩

/-! ## C17: the RIFF writer -/

theorem le32_mod (v : Nat) : le32 (v % 2 ^ 32) = le32 v := by
  simp only [le32]
  have e1 : v % 2 ^ 32 % 256 = v % 256 := by omega
  have e2 : v % 2 ^ 32 / 256 % 256 = v / 256 % 256 := by omega
  have e3 : v % 2 ^ 32 / 65536 % 256 = v / 65536 % 256 := by omega
  have e4 : v % 2 ^ 32 / 16777216 % 256 = v / 16777216 % 256 := by omega
  rw [e1, e2, e3, e4]

mutual
theorem Write_serialised (c : RIFFChunkInterface) (out : List Nat) (h : c.fits = true) :
    c.Write out = .ok (out ++ c.serialised) ∧ c.serialised.length = c.size := by
  match c with
  | .chunk name data =>
    simp only [RIFFChunkInterface.fits, Bool.and_eq_true, decide_eq_true_eq] at h
    obtain ⟨h1, h2⟩ := h
    simp only [RIFFChunkInterface.Write, RIFFChunk.WriteHeader, RIFFChunkInterface.serialised,
      RIFFChunkInterface.size, if_neg (Nat.not_lt.mpr h2), InsertInt32L, InsertInt8, le32_mod,
      List.length_append, length_le32, h1]
    split_ifs
    · simp [List.append_assoc]
      omega
    · simp [List.append_assoc]
  | .list name subchunks =>
    simp only [RIFFChunkInterface.fits, Bool.and_eq_true, decide_eq_true_eq] at h
    obtain ⟨⟨h1, h2⟩, h3⟩ := h
    obtain ⟨e1, e2⟩ := writeEach_serialised subchunks
      (out ++ [0x4C, 0x49, 0x53, 0x54] ++
        le32 ((RIFFChunkInterface.list name subchunks).size - 8) ++ name) h3
    simp only [RIFFChunkInterface.size] at h2 e1
    simp only [RIFFChunkInterface.Write, RIFFListChunk.WriteHeader,
      RIFFChunkInterface.serialised, RIFFChunkInterface.size, if_neg (Nat.not_lt.mpr h2),
      InsertInt32L, le32_mod, e1, List.length_append, length_le32, h1, e2]
    exact ⟨by simp [List.append_assoc], by simp⟩
theorem writeEach_serialised (cs : List RIFFChunkInterface) (out : List Nat)
    (h : fitEach cs = true) :
    writeEach cs out = .ok (out ++ serialisedEach cs) ∧ (serialisedEach cs).length = sizeSum cs := by
  match cs with
  | [] => simp [writeEach, serialisedEach, sizeSum]
  | c :: cs =>
    simp only [fitEach, Bool.and_eq_true] at h
    obtain ⟨e1, e2⟩ := Write_serialised c out h.1
    obtain ⟨e3, e4⟩ := writeEach_serialised cs (out ++ c.serialised) h.2
    simp only [writeEach, e1, e3, serialisedEach, sizeSum, List.length_append, e2, e4,
      List.append_assoc, and_self]
end


theorem sizeSum_eq (cs : List RIFFChunkInterface) :
    sizeSum cs = (cs.map RIFFChunkInterface.size).sum := by
  induction cs with
  | nil => rfl
  | cons c cs ih => simp only [sizeSum, ih, List.map_cons, List.sum_cons]

theorem valueAt_sizeField (a rest : List Nat) (v : Nat) (ha : a.length = 4) (hv : v ≤ UINT32_MAX) :
    valueAt (a ++ le32 v ++ rest) 4 4 true = v := by
  rw [List.append_assoc, valueAt_skip a _ 4 4 true (by omega), ha, Nat.sub_self, valueAt_le32]
  simp only [UINT32_MAX] at hv
  omega

theorem RIFF.Write_too_large (r : RIFF) (out : List Nat) (h : UINT32_MAX < r.size - 8) :
    r.Write out = .error out := by
  simp only [RIFF.Write, RIFF.WriteHeader, gt_iff_lt, if_pos h]

/-- C17: a chunk `c` and a `RIFF` object `r` in which every name has four bytes
and every payload size is at most `UINT32_MAX` (the data length of a
`RIFFChunk`, `size() - 8` of a `RIFFListChunk` or `RIFF`), written to a stream
that takes every byte: `Write` throws nothing and appends exactly `size()`
bytes, those of `serialised`; the little-endian u32 at the bytes 4..7 of what it
appends is the
unpadded data length for a `RIFFChunk` and `size() - 8` for a `RIFFListChunk`
and for a `RIFF`.  A `RIFFChunk` has the size 8 + its data length rounded up to
the next even number, its bytes being the name, the size field, the data and one
zero byte after data of odd length; a `RIFFListChunk` and a `RIFF` have the size
12 + the sum of the sizes of their chunks. -/
theorem C17_riff_size_is_written_length (c : RIFFChunkInterface) (r : RIFF) (out : List Nat)
    (hc : c.fits = true) (hr : r.fits = true) :
    (c.Write out = .ok (out ++ c.serialised) ∧ c.serialised.length = c.size ∧
      valueAt c.serialised 4 4 true = c.payloadSize) ∧
    (r.Write out = .ok (out ++ r.serialised) ∧ r.serialised.length = r.size ∧
      valueAt r.serialised 4 4 true = r.size - 8) ∧
    (∀ name data, (RIFFChunkInterface.chunk name data).size = 8 + 2 * ((data.length + 1) / 2) ∧
      (RIFFChunkInterface.chunk name data).serialised =
        name ++ le32 data.length ++ data ++ (if data.length % 2 = 1 then [0] else [])) ∧
    (∀ name subchunks, (RIFFChunkInterface.list name subchunks).size =
      12 + (subchunks.map RIFFChunkInterface.size).sum) ∧
    r.size = 12 + (r.chunks.map RIFFChunkInterface.size).sum := by
  refine ⟨⟨(Write_serialised c out hc).1, (Write_serialised c out hc).2, ?_⟩,
    ⟨?_, ?_, ?_⟩, fun name data => ⟨?_, ?_⟩, fun name subchunks => ?_, ?_⟩
  · cases c with
    | chunk name data =>
      simp only [RIFFChunkInterface.fits, Bool.and_eq_true, decide_eq_true_eq] at hc
      simp only [RIFFChunkInterface.serialised, RIFFChunkInterface.payloadSize, List.append_assoc]
      rw [← List.append_assoc]
      exact valueAt_sizeField name _ _ hc.1 hc.2
    | list name subchunks =>
      simp only [RIFFChunkInterface.fits, Bool.and_eq_true, decide_eq_true_eq] at hc
      simp only [RIFFChunkInterface.serialised, RIFFChunkInterface.payloadSize,
        RIFFChunkInterface.size, List.append_assoc]
      rw [← List.append_assoc]
      exact valueAt_sizeField _ _ _ rfl hc.1.2
  · simp only [RIFF.fits, Bool.and_eq_true, decide_eq_true_eq] at hr
    obtain ⟨⟨h1, h2⟩, h3⟩ := hr
    simp only [RIFF.Write, RIFF.WriteHeader, gt_iff_lt, if_neg (Nat.not_lt.mpr h2), InsertInt32L,
      le32_mod, (writeEach_serialised r.chunks _ h3).1, RIFF.serialised, List.append_assoc]
  · simp only [RIFF.fits, Bool.and_eq_true, decide_eq_true_eq] at hr
    obtain ⟨⟨h1, h2⟩, h3⟩ := hr
    simp only [RIFF.serialised, List.length_append, (writeEach_serialised r.chunks [] h3).2,
      length_le32, h1, RIFF.size, List.length_cons, List.length_nil]
  · simp only [RIFF.fits, Bool.and_eq_true, decide_eq_true_eq] at hr
    simp only [RIFF.serialised, List.append_assoc]
    rw [← List.append_assoc]
    exact valueAt_sizeField _ _ _ rfl hr.1.2
  · simp only [RIFFChunkInterface.size]
    split_ifs <;> omega
  · simp only [RIFFChunkInterface.serialised]
    congr 1
    have : (data.length % 2 ≠ 0) = (data.length % 2 = 1) := by
      apply propext
      omega
    simp only [this]
  · simp only [RIFFChunkInterface.size, sizeSum_eq]
  · simp only [RIFF.size, sizeSum_eq]

/-- C17 at a list chunk of 24 bytes and a `RIFF` object of 46 bytes, written to
an empty stream. -/
theorem C17_riff_size_is_written_length_witness :
    (smallList.Write [] = .ok ([] ++ smallList.serialised) ∧
      smallList.serialised.length = 24 ∧ valueAt smallList.serialised 4 4 true = 16) ∧
    (smallRiff.Write [] = .ok ([] ++ smallRiff.serialised) ∧
      smallRiff.serialised.length = 46 ∧ valueAt smallRiff.serialised 4 4 true = 38) :=
  have h := C17_riff_size_is_written_length smallList smallRiff [] (by rfl) (by rfl)
  ⟨h.1, h.2.1⟩

/-! ## C18: reads past the end of the buffer -/

theorem readHeader_short (data : List Nat) (hlen : data.length < 20)
    (h : ¬ HeaderCheckFails data) : readHeader data data.length = .error .outOfBounds := by
  simp only [HeaderCheckFails, field_eq, not_or, not_exists, not_and, not_not] at h
  obtain ⟨h0, h4, h6, h12⟩ := h
  unfold readHeader
  simp only [rd_eq, Assert, bind, Except.bind]
  by_cases b1 : 0 + 4 ≤ data.length
  · have v1 := h0 _ (by rw [if_pos b1])
    simp only [b1, if_true, v1]
    by_cases b2 : 0 + 4 + 2 ≤ data.length
    · have v2 := h4 _ (by rw [if_pos (by omega : 4 + 2 ≤ data.length)])
      simp only [Nat.zero_add] at b2 ⊢
      simp only [b2, if_true, v2]
      by_cases b3 : 4 + 2 + 2 ≤ data.length
      · have v3 := h6 _ (by rw [if_pos (by omega : 6 + 2 ≤ data.length)])
        simp only [Nat.reduceAdd] at b3 v3 ⊢
        simp only [b3, if_true, v3]
        by_cases b4 : 8 + 4 ≤ data.length
        · simp only [b4, if_true]
          by_cases b5 : 8 + 4 + 4 ≤ data.length
          · have v5 := h12 _ (by rw [if_pos (by omega : 12 + 4 ≤ data.length)])
            simp only [Nat.reduceAdd] at b5 v5 ⊢
            simp only [b5, if_true, v5]
            rw [if_neg (by omega)]
          · simp only [b5, if_false]
        · simp only [b4, if_false]
      · simp only [b3, if_false]
    · simp only [b2, if_false]
  · simp only [b1, if_false]

theorem extractFile_overrun (data : List Nat) (P : Bool) (f : CgrpFile) (s : State) (p : Nat)
    (hp : f.Offset = some p)
    (h : data.length < p + 4 ∨ (CopiedTag (valueAt data p 4 false) ∧
      (data.length < p + 16 ∨ data.length < p + valueAt data (p + 12) 4 true))) :
    ∃ s1, extractFile data P f s = .halt ⟨.outOfBounds, s1⟩ ∧ writes s1.log = writes s.log := by
  by_cases hb : p + 4 ≤ data.length
  · rcases h with h | ⟨htag, h⟩
    · omega
    · rw [extractFile_some data P f s p hp hb]
      have hn : ¬ (p + 16 ≤ data.length ∧ p + valueAt data (p + 12) 4 true ≤ data.length) := by
        omega
      rcases htag with t | t | t
      · rw [if_pos t, extractCwar_eq]
        split_ifs
        · exact absurd ⟨‹_›, ‹_›⟩ hn
        · exact ⟨_, rfl, by simp [State.mkdir, State.chdir, writes_append, writes]⟩
        · exact ⟨_, rfl, rfl⟩
      · rw [if_neg (by rw [t]; decide), if_pos t, extractCbnk_eq]
        split_ifs
        · exact absurd ⟨‹_›, ‹_›⟩ hn
        · exact ⟨_, rfl, by simp [State.mkdir, State.chdir, writes_append, writes]⟩
        · exact ⟨_, rfl, rfl⟩
      · rw [if_neg (by rw [t]; decide), if_neg (by rw [t]; decide), if_pos t, extractCseq_eq]
        split_ifs
        · exact absurd ⟨‹_›, ‹_›⟩ hn
        · exact ⟨_, rfl, rfl⟩
        · exact ⟨_, rfl, rfl⟩
  · exact ⟨s, extractFile_oob data P f s p hp hb, rfl⟩

/-- C18, as amended: `Extract` checks no read against the length of the buffer,
and a read that would exceed the buffer does not make it return false: the run
reads outside the buffer.  This is so for a buffer shorter than the 20-byte
header on whose fields no header check fails; for a container whose INFO offset
points past the end; and for an entry the walk reaches whose payload pointer,
payload length field or payload range, for a payload that is copied, points past
the end. -/
theorem C18_reads_are_unchecked (cv : Converters) (data : List Nat) (P : Bool) :
    (data.length < 20 → ¬ HeaderCheckFails data →
      extract cv data P = ⟨.outOfBounds, State.fresh⟩) ∧
    (∀ count pos pos1 d, readHeader data data.length = .ok (count, pos) →
      readChunks data count pos Directory.zero = .ok (d, pos1) →
      data.length < d.infoOffset + 4 → extract cv data P = ⟨.outOfBounds, State.fresh⟩) ∧
    (∀ d pre f post p s1, parse data data.length = .ok (d, pre ++ f :: post) →
      f.Offset = some p → extractFiles data P pre State.fresh = .next s1 →
      (data.length < p + 4 ∨ (CopiedTag (valueAt data p 4 false) ∧
        (data.length < p + 16 ∨ data.length < p + valueAt data (p + 12) 4 true))) →
      (extract cv data P).outcome = .outOfBounds ∧
        writes (extract cv data P).state.log = writes s1.log) := by
  refine ⟨fun hlen hh => ?_, fun count pos pos1 d hh hd hb => ?_,
    fun d pre f post p s1 hparse hp hreach hb => ?_⟩
  · apply extract_of_parse_outOfBounds
    simp only [parse, readHeader_short data hlen hh, bind, Except.bind]
  · exact extract_of_parse_outOfBounds cv data P
      (parse_of_readInfo_error data _ count pos pos1 d _ hh hd (readInfo_outOfBounds data d hb))
  · obtain ⟨s2, h2, hw⟩ := extractFile_overrun data P f s1 p hp hb
    rw [extract_of_parse cv data P d _ hparse,
      extractFrom_append_next cv data P d pre (f :: post) _ s1 hreach,
      extractFrom_of_halt cv data P d (f :: post) s1 _
        (extractFiles_cons_halt data P f post s1 _ h2)]
    exact ⟨rfl, hw⟩

set_option maxRecDepth 100000 in
/-- C18 as stated fails: no run of these three ends with `Extract` returning
false.  The empty buffer and a buffer of sixteen bytes that passes the header
checks are read past their end for the header; the minimal container around a
sequence whose length field says 1000 is read past its end for the payload. -/
theorem C18_counterexample :
    extract allSucceed [] false = ⟨.outOfBounds, State.fresh⟩ ∧
    extract allSucceed shortHeader false = ⟨.outOfBounds, State.fresh⟩ ∧
    overlongPayload.length = 104 ∧ valueAt overlongPayload (88 + 12) 4 true = 1000 ∧
    extract allSucceed overlongPayload false = ⟨.outOfBounds, State.fresh⟩ :=
  ⟨by rfl, by rfl, by rfl, by rfl, by rfl⟩

/-- C18, as amended, at the buffer of sixteen bytes that passes the header
checks: the run reads past its end. -/
theorem C18_reads_are_unchecked_witness :
    shortHeader.length < 20 ∧ extract allSucceed shortHeader false = ⟨.outOfBounds, State.fresh⟩ :=
  ⟨by decide, (C18_reads_are_unchecked allSucceed shortHeader false).1 (by decide) (by
    simp only [HeaderCheckFails, field_eq, not_or, not_exists, not_and, not_not]
    refine ⟨?_, ?_, ?_, ?_⟩ <;> intro v hv <;>
      simp only [shortHeader, List.length_cons, List.length_nil, Nat.reduceAdd, Nat.reduceLeDiff,
        if_true, Option.some.injEq] at hv <;> rw [← hv] <;> rfl)⟩

/-! ## C19: a directory without an INFO or without a FILE triple -/

theorem readHeader_magic {data : List Nat} {L count pos : Nat}
    (h : readHeader data L = .ok (count, pos)) (hb : 4 ≤ data.length) :
    valueAt data 0 4 false = 0x43475250 := by
  by_contra hne
  unfold readHeader at h
  rw [rd_ok false (by omega : 0 + 4 ≤ data.length)] at h
  simp only [bind, Except.bind, Assert, if_neg (Ne.symm hne)] at h
  cases h

theorem parse_of_readChunks_error (data : List Nat) (L count pos : Nat) (e : ParseStop)
    (hh : readHeader data L = .ok (count, pos))
    (hd : readChunks data count pos Directory.zero = .error e) : parse data L = .error e := by
  simp only [parse, hh, hd, bind, Except.bind]

theorem parse_of_readInfo_ok (data : List Nat) (L count pos pos1 : Nat) (d : Directory)
    (files : List CgrpFile) (hh : readHeader data L = .ok (count, pos))
    (hd : readChunks data count pos Directory.zero = .ok (d, pos1))
    (hi : readInfo data d = .ok files) : parse data L = .ok (d, files) := by
  simp only [parse, hh, hd, hi, bind, Except.bind, pure, Except.pure]

/-- C19: on a buffer that passes the four header checks, `count` being its
chunk count.  When the directory lies inside the buffer and none of its triples
has the tag INFO 0x7800 (so also when `count` is 0), `Extract` returns false and
has written no file, made no directory and opened no handle; and when every tag
is a recognised one, the INFO offset is still 0, the INFO magic check reads the
header magic 'CGRP' at offset 0 and the failed comparison of 'INFO' with 'CGRP'
is all the run reports.  When no triple has the tag FILE 0x7801 and the
directory and the INFO chunk are parsed, nothing rejects the container: the
FILE offset is 0, `Extract` goes on to the walk and the conversion pass, and
every payload pointer is 8 plus the raw offset of its entry. -/
theorem C19_missing_info_or_file_entry (cv : Converters) (data : List Nat) (P : Bool)
    (count pos : Nat) (hh : readHeader data data.length = .ok (count, pos)) :
    (20 + 12 * count ≤ data.length →
      (∀ k < count, valueAt data (20 + 12 * k) 4 true ≠ 0x7800) →
      (extract cv data P).outcome = .returned false ∧
      writes (extract cv data P).state.log = [] ∧ mkdirs (extract cv data P).state.log = [] ∧
      (extract cv data P).state.Cwars = [] ∧ (extract cv data P).state.Cbnks = [] ∧
      (extract cv data P).state.Cseqs = [] ∧
      ((∀ k < count, RecognisedTag (valueAt data (20 + 12 * k) 4 true)) →
        (Directory.ofLast data count 20).infoOffset = 0 ∧
        valueAt data 0 4 false = 0x43475250 ∧
        extract cv data P =
          ⟨.returned false, State.fresh.emit (.assertFailed 0x494E464F 0x43475250)⟩)) ∧
    ((∀ k < count, valueAt data (20 + 12 * k) 4 true ≠ 0x7801) →
      ∀ d pos1 files, readChunks data count pos Directory.zero = .ok (d, pos1) →
        readInfo data d = .ok files →
        d.fileOffset = 0 ∧
        extract cv data P = extractFrom cv data P d files State.fresh ∧
        ∀ f ∈ files, ∀ p, f.Offset = some p →
          ∃ q, valueAt data (q + 4) 4 true = 0x1F00 ∧ p = 8 + valueAt data (q + 8) 4 true) := by
  obtain ⟨rfl, rfl⟩ := readHeader_pos hh
  constructor
  · intro hb hno
    have key : (∀ k < valueAt data 16 4 true, RecognisedTag (valueAt data (20 + 12 * k) 4 true)) →
        (Directory.ofLast data (valueAt data 16 4 true) 20).infoOffset = 0 ∧
        valueAt data 0 4 false = 0x43475250 ∧
        extract cv data P =
          ⟨.returned false, State.fresh.emit (.assertFailed 0x494E464F 0x43475250)⟩ := by
      intro hrec
      obtain ⟨d, hd⟩ := readChunks_recognised data _ 20 Directory.zero hb hrec
      have e := readChunks_ofLast hd
      subst e
      have h0 : (Directory.ofLast data (valueAt data 16 4 true) 20).infoOffset = 0 := by
        simp only [Directory.ofLast, lastTriple_of_none data 0x7800 _ 20 (0, 0) hno]
      have hm := readHeader_magic hh (by omega)
      refine ⟨h0, hm, ?_⟩
      have hbad := readInfo_bad_magic data _ (by rw [h0]; omega) (by rw [h0, hm]; decide)
      rw [h0, hm] at hbad
      exact extract_of_parse_rejected cv data P _
        (parse_of_readInfo_error data _ _ 20 _ _ _ hh hd hbad)
    by_cases hall : ∀ k < valueAt data 16 4 true, RecognisedTag (valueAt data (20 + 12 * k) 4 true)
    · obtain ⟨k1, k2, k3⟩ := key hall
      rw [k3]
      exact ⟨rfl, rfl, rfl, rfl, rfl, rfl, fun _ => ⟨k1, k2, rfl⟩⟩
    · have hex : ∃ k, k < valueAt data 16 4 true ∧
          ¬ RecognisedTag (valueAt data (20 + 12 * k) 4 true) := by
        push_neg at hall
        exact hall
      classical
      have hk := Nat.find_spec hex
      have hmin := fun m (hm : m < Nat.find hex) => Nat.find_min hex hm
      have hfirst := readChunks_first_unknown data (Nat.find hex) (valueAt data 16 4 true) 20
        Directory.zero hk.1 (by omega) (fun i hi => by
          have := hmin i hi
          simp only [not_and, not_not] at this
          exact this (by omega)) hk.2
      rw [extract_of_parse_rejected cv data P _
        (parse_of_readChunks_error data _ _ 20 _ hh hfirst)]
      exact ⟨rfl, rfl, rfl, rfl, rfl, rfl, fun h => absurd h hall⟩
  · intro hno d pos1 files hd hi
    have e := readChunks_ofLast hd
    have h0 : d.fileOffset = 0 := by
      rw [e]
      simp only [Directory.ofLast, lastTriple_of_none data 0x7801 _ 20 (0, 0) hno]
    have hparse := parse_of_readInfo_ok data _ _ 20 pos1 d files hh hd hi
    refine ⟨h0, extract_of_parse cv data P d files hparse, fun f hf p hp => ?_⟩
    obtain ⟨q, q1, hq⟩ := parse_entries data _ d files hparse f hf
    obtain ⟨-, a2, a3⟩ := readFile_inv data _ q q1 f p hq hp
    exact ⟨q, a2, by rw [a3, h0]⟩

set_option maxRecDepth 100000 in
/-- C19 at a header with the chunk count 0, which is rejected on the
comparison of 'INFO' with 'CGRP', and at a container of one sequence without a
FILE triple, which is extracted. -/
theorem C19_missing_info_or_file_entry_witness :
    extract allSucceed (headerBytes 20 0) false =
      ⟨.returned false, State.fresh.emit (.assertFailed 0x494E464F 0x43475250)⟩ ∧
    extract allSucceed filelessContainer false =
      extractFrom allSucceed filelessContainer false ⟨32, 36, 0, 0, 0, 0⟩ [⟨0, some 68, 16⟩]
        State.fresh ∧
    (extract allSucceed filelessContainer false).outcome = .returned true ∧
    writes (extract allSucceed filelessContainer false).state.log =
      [([], "0.cseq".toList, tinyPayload 0x43534551)] :=
  ⟨((C19_missing_info_or_file_entry allSucceed (headerBytes 20 0) false 0 20 (by rfl)).1
      (by decide) (fun k hk => absurd hk (Nat.not_lt_zero k))).2.2.2.2.2.2
      (fun k hk => absurd hk (Nat.not_lt_zero k)) |>.2.2,
    ((C19_missing_info_or_file_entry allSucceed filelessContainer false 1 20 (by rfl)).2
      (fun k hk => by
        interval_cases k
        show valueAt filelessContainer 20 4 true ≠ 0x7801
        decide)
      ⟨32, 36, 0, 0, 0, 0⟩ 32 [⟨0, some 68, 16⟩] (by rfl) (by rfl)).2.1,
    by rfl, by rfl⟩

/-! ## C20: the fields that are read and not used -/

theorem SameAt.value {d1 d2 : List Nat} {pos n : Nat} (h : SameAt d1 d2 pos n) (le : Bool) :
    valueAt d1 pos n le = valueAt d2 pos n le := by
  unfold valueAt
  rw [h]

theorem readHeader_closed (data : List Nat) (L : Nat) :
    readHeader data L =
      if 4 ≤ data.length then
        if 0x43475250 = valueAt data 0 4 false then
          if 6 ≤ data.length then
            if 0xFEFF = valueAt data 4 2 true then
              if 8 ≤ data.length then
                if 0x40 = valueAt data 6 2 true then
                  if 16 ≤ data.length then
                    if L = valueAt data 12 4 true then
                      if 20 ≤ data.length then .ok (valueAt data 16 4 true, 20)
                      else .error .outOfBounds
                    else .error (.rejected (.assertFailed L (valueAt data 12 4 true)))
                  else .error .outOfBounds
                else .error (.rejected (.assertFailed 0x40 (valueAt data 6 2 true)))
              else .error .outOfBounds
            else .error (.rejected (.assertFailed 0xFEFF (valueAt data 4 2 true)))
          else .error .outOfBounds
        else .error (.rejected (.assertFailed 0x43475250 (valueAt data 0 4 false)))
      else .error .outOfBounds := by
  unfold readHeader
  by_cases b1 : 4 ≤ data.length
  · rw [if_pos b1, rd_ok false (by omega : 0 + 4 ≤ data.length)]
    simp only [bind, Except.bind, Assert, Nat.zero_add]
    by_cases m1 : 0x43475250 = valueAt data 0 4 false
    · simp only [if_pos m1]
      by_cases b2 : 6 ≤ data.length
      · rw [if_pos b2, rd_ok true (by omega : 4 + 2 ≤ data.length)]
        simp only [Nat.reduceAdd]
        by_cases m2 : 0xFEFF = valueAt data 4 2 true
        · simp only [if_pos m2]
          by_cases b3 : 8 ≤ data.length
          · rw [if_pos b3, rd_ok true (by omega : 6 + 2 ≤ data.length)]
            simp only [Nat.reduceAdd]
            by_cases m3 : 0x40 = valueAt data 6 2 true
            · simp only [if_pos m3]
              by_cases b4 : 16 ≤ data.length
              · rw [if_pos b4, rd_ok true (by omega : 8 + 4 ≤ data.length)]
                simp only [Nat.reduceAdd]
                rw [rd_ok true (by omega : 12 + 4 ≤ data.length)]
                simp only [Nat.reduceAdd]
                by_cases m4 : L = valueAt data 12 4 true
                · simp only [if_pos m4]
                  rw [rd_eq]
                · simp only [if_neg m4]
              · rw [if_neg b4]
                by_cases b5 : 8 + 4 ≤ data.length
                · rw [rd_ok true b5]
                  simp only [Nat.reduceAdd]
                  rw [rd_eq, if_neg (by omega)]
                · rw [rd_eq, if_neg b5]
            · simp only [if_neg m3]
          · rw [if_neg b3, rd_eq, if_neg (by omega)]
        · simp only [if_neg m2]
      · rw [if_neg b2, rd_eq, if_neg (by omega)]
    · simp only [if_neg m1]
  · rw [if_neg b1, rd_eq, if_neg (by omega)]
    rfl

theorem readHeader_same (d1 d2 : List Nat) (L : Nat) (hlen : d1.length = d2.length)
    (h : SameHeader d1 d2) : readHeader d1 L = readHeader d2 L := by
  obtain ⟨h0, h4, h6, h12, h16⟩ := h
  rw [readHeader_closed, readHeader_closed, hlen, h0.value, h4.value, h6.value,
    h12.value, h16.value]

theorem readChunks_short (data : List Nat) (count pos : Nat) (d : Directory)
    (h4 : pos + 4 ≤ data.length) (hrec : RecognisedTag (valueAt data pos 4 true))
    (h12 : ¬ pos + 12 ≤ data.length) :
    readChunks data (count + 1) pos d = .error .outOfBounds := by
  rw [readChunks, rd_ok true h4]
  simp only [bind, Except.bind, rd_eq]
  by_cases h8 : pos + 4 + 4 ≤ data.length
  · have h12 : ¬ pos + 4 + 4 + 4 ≤ data.length := by omega
    simp only [if_pos h8, if_neg h12]
    rcases hrec with t | t | t <;> simp [t]
  · simp only [if_neg h8]
    rcases hrec with t | t | t <;> simp [t]

theorem readChunks_tooShort (data : List Nat) (count pos : Nat) (d : Directory)
    (h4 : ¬ pos + 4 ≤ data.length) :
    readChunks data (count + 1) pos d = .error .outOfBounds := by
  rw [readChunks, rd_eq, if_neg h4]
  rfl

theorem Directory.assign_used {dA dB : Directory} {tag o lA lB : Nat} {a b : Directory}
    (hu : dA.used = dB.used) (hl : tag = 0x7800 → lA = lB)
    (ha : dA.assign tag o lA = some a) (hb : dB.assign tag o lB = some b) : a.used = b.used := by
  simp only [Directory.used, Prod.mk.injEq] at hu
  obtain ⟨u1, u2, u3, u4⟩ := hu
  simp only [Directory.assign] at ha hb
  split_ifs at ha hb with t1 t2 t3
  · simp only [Option.some.injEq] at ha hb
    subst ha hb
    simp [Directory.used, u3, u4, hl t1]
  · simp only [Option.some.injEq] at ha hb
    subst ha hb
    simp [Directory.used, u1, u2, u4]
  · simp only [Option.some.injEq] at ha hb
    subst ha hb
    simp [Directory.used, u1, u2, u3]

theorem readChunks_same (d1 d2 : List Nat) (hlen : d1.length = d2.length) (count pos : Nat)
    (dA dB : Directory) (hu : dA.used = dB.used) (h : SameDirectory d1 d2 count pos) :
    Alike (fun a b => a.1.used = b.1.used) (readChunks d1 count pos dA)
      (readChunks d2 count pos dB) := by
  induction count generalizing pos dA dB with
  | zero => exact hu
  | succ n ih =>
    obtain ⟨t0, o0, l0⟩ := h 0 (by omega)
    simp only [Nat.mul_zero, Nat.add_zero] at t0 o0 l0
    have ht := t0.value true
    have ho := o0.value true
    by_cases b4 : pos + 4 ≤ d1.length
    · by_cases hrec : RecognisedTag (valueAt d1 pos 4 true)
      · by_cases b12 : pos + 12 ≤ d1.length
        · obtain ⟨a, ha⟩ := Directory.assign_of_recognised dA _ (valueAt d1 (pos + 4) 4 true)
            (valueAt d1 (pos + 8) 4 true) hrec
          obtain ⟨b, hb⟩ := Directory.assign_of_recognised dB _ (valueAt d1 (pos + 4) 4 true)
            (valueAt d2 (pos + 8) 4 true) hrec
          rw [readChunks_succ d1 n pos dA b12, readChunks_succ d2 n pos dB (by omega), ha, ← ht,
            ← ho, hb]
          refine ih (pos + 12) a b
            (Directory.assign_used hu (fun t => (l0 t).value true) ha hb) fun k hk => ?_
          have := h (k + 1) (by omega)
          rwa [show pos + 12 * (k + 1) = pos + 12 + 12 * k by omega] at this
        · rw [readChunks_short d1 n pos dA b4 hrec b12,
            readChunks_short d2 n pos dB (by omega) (by rw [← ht]; exact hrec) (by omega)]
          rfl
      · rw [readChunks_unknown d1 n pos dA b4 (Directory.assign_of_not_recognised dA _ 0 0 hrec),
          readChunks_unknown d2 n pos dB (by omega)
            (Directory.assign_of_not_recognised dB _ 0 0 (by rw [← ht]; exact hrec)), ht]
        rfl
    · rw [readChunks_tooShort d1 n pos dA b4, readChunks_tooShort d2 n pos dB (by omega)]
      rfl

theorem readSlots_step (data : List Nat) (io count pos : Nat) (acc : List Nat) :
    readSlots data io (count + 1) pos acc =
      if pos + 4 ≤ data.length then
        if 0x7900 = valueAt data pos 4 true then
          if pos + 8 ≤ data.length then
            readSlots data io count (pos + 8) (acc ++ [io + 8 + valueAt data (pos + 4) 4 true])
          else .error .outOfBounds
        else .error (.rejected (.assertFailed 0x7900 (valueAt data pos 4 true)))
      else .error .outOfBounds := by
  rw [readSlots]
  by_cases b1 : pos + 4 ≤ data.length
  · rw [if_pos b1, rd_ok true b1]
    simp only [bind, Except.bind, Assert]
    by_cases m : 0x7900 = valueAt data pos 4 true
    · simp only [if_pos m]
      by_cases b2 : pos + 8 ≤ data.length
      · rw [if_pos b2, rd_ok true (by omega : pos + 4 + 4 ≤ data.length)]
      · rw [if_neg b2, rd_eq, if_neg (by omega)]
    · simp only [if_neg m]
  · rw [if_neg b1, rd_eq, if_neg b1]
    rfl

theorem readSlots_same (d1 d2 : List Nat) (hlen : d1.length = d2.length) (io count pos : Nat)
    (acc1 acc2 : List Nat) (h : ∀ j < count, SameAt d1 d2 (pos + 8 * j) 4) :
    Alike (fun a b => a.2 = b.2) (readSlots d1 io count pos acc1)
      (readSlots d2 io count pos acc2) := by
  induction count generalizing pos acc1 acc2 with
  | zero => rfl
  | succ n ih =>
    have t0 := h 0 (by omega)
    simp only [Nat.mul_zero, Nat.add_zero] at t0
    rw [readSlots_step, readSlots_step, hlen, t0.value]
    by_cases b1 : pos + 4 ≤ d2.length
    · rw [if_pos b1, if_pos b1]
      by_cases m : 0x7900 = valueAt d2 pos 4 true
      · rw [if_pos m, if_pos m]
        by_cases b2 : pos + 8 ≤ d2.length
        · rw [if_pos b2, if_pos b2]
          refine ih (pos + 8) _ _ fun j hj => ?_
          have := h (j + 1) (by omega)
          rwa [show pos + 8 * (j + 1) = pos + 8 + 8 * j by omega] at this
        · rw [if_neg b2, if_neg b2]
          rfl
      · rw [if_neg m, if_neg m]
        rfl
    · rw [if_neg b1, if_neg b1]
      rfl

theorem entrySize_same {d1 d2 : List Nat} {q : Nat} (h : SameAt d1 d2 (q + 4) 4) :
    entrySize d1 q = entrySize d2 q := by
  simp only [entrySize, h.value]

theorem decodeEntry_same {d1 d2 : List Nat} {q : Nat} (fo : Nat) (h : SameAt d1 d2 (q + 4) 4)
    (hr : valueAt d1 (q + 4) 4 true = 0x1F00 → SameAt d1 d2 (q + 8) 4) :
    (decodeEntry d1 fo q).Offset = (decodeEntry d2 fo q).Offset := by
  simp only [decodeEntry, ← h.value]
  split_ifs with hf
  · simp only [(hr hf).value]
  · rfl

theorem readFiles_same (d1 d2 : List Nat) (hlen : d1.length = d2.length) (fo count pos : Nat)
    (acc1 acc2 : List CgrpFile)
    (hacc : acc1.map (fun f => f.Offset) = acc2.map (fun f => f.Offset))
    (h : SameEntries d1 d2 count pos) :
    Alike (fun a b => a.1.map (fun f => f.Offset) = b.1.map (fun f => f.Offset))
      (readFiles d1 fo count pos acc1) (readFiles d2 fo count pos acc2) := by
  induction count generalizing pos acc1 acc2 with
  | zero => exact hacc
  | succ n ih =>
    obtain ⟨f0, r0⟩ := h 0 (by omega)
    simp only [entryPos] at f0 r0
    rw [readFiles, readFiles, readFile_closed, readFile_closed, hlen, ← entrySize_same f0]
    by_cases b : pos + entrySize d1 pos ≤ d2.length
    · simp only [if_pos b, bind, Except.bind]
      refine ih (pos + entrySize d1 pos) _ _ ?_ fun k hk => ?_
      · simp only [List.map_append, List.map_cons, List.map_nil, hacc, decodeEntry_same fo f0 r0]
      · exact h (k + 1) (by omega)
    · simp only [if_neg b, bind, Except.bind]
      rfl

theorem readInfo_closed (data : List Nat) (d : Directory) :
    readInfo data d =
      if d.infoOffset + 4 ≤ data.length then
        if 0x494E464F = valueAt data d.infoOffset 4 false then
          if d.infoOffset + 8 ≤ data.length then
            if d.infoLength = valueAt data (d.infoOffset + 4) 4 true then
              if d.infoOffset + 12 ≤ data.length then
                (readSlots data d.infoOffset (valueAt data (d.infoOffset + 8) 4 true)
                    (d.infoOffset + 12) []).bind fun r =>
                  (readFiles data d.fileOffset (valueAt data (d.infoOffset + 8) 4 true) r.2
                    []).bind fun q => .ok q.1
              else .error .outOfBounds
            else .error (.rejected (.assertFailed d.infoLength
              (valueAt data (d.infoOffset + 4) 4 true)))
          else .error .outOfBounds
        else .error (.rejected (.assertFailed 0x494E464F (valueAt data d.infoOffset 4 false)))
      else .error .outOfBounds := by
  by_cases b1 : d.infoOffset + 4 ≤ data.length
  · rw [if_pos b1]
    by_cases m1 : 0x494E464F = valueAt data d.infoOffset 4 false
    · rw [if_pos m1]
      by_cases b2 : d.infoOffset + 8 ≤ data.length
      · rw [if_pos b2]
        by_cases m2 : d.infoLength = valueAt data (d.infoOffset + 4) 4 true
        · rw [if_pos m2]
          by_cases b3 : d.infoOffset + 12 ≤ data.length
          · rw [if_pos b3]
            exact readInfo_ok data d b3 m1.symm m2.symm
          · rw [if_neg b3]
            unfold readInfo
            rw [rd_ok false b1]
            simp only [bind, Except.bind, Assert, if_pos m1]
            rw [rd_ok true (by omega : d.infoOffset + 4 + 4 ≤ data.length)]
            simp only [if_pos m2]
            rw [rd_eq, if_neg (by omega)]
        · rw [if_neg m2]
          exact readInfo_bad_length data d b2 m1.symm (fun h => m2 h.symm)
      · rw [if_neg b2]
        unfold readInfo
        rw [rd_ok false b1]
        simp only [bind, Except.bind, Assert, if_pos m1]
        rw [rd_eq, if_neg (by omega)]
    · rw [if_neg m1]
      exact readInfo_bad_magic data d b1 (fun h => m1 h.symm)
  · rw [if_neg b1]
    exact readInfo_outOfBounds data d (by omega)

theorem readInfo_same (d1 d2 : List Nat) (hlen : d1.length = d2.length) (dA dB : Directory)
    (hu : dA.used = dB.used) (hi : SameInfo d1 d2 dA.infoOffset)
    (he : SameEntries d1 d2 (valueAt d1 (dA.infoOffset + 8) 4 true)
      (dA.infoOffset + 12 + 8 * valueAt d1 (dA.infoOffset + 8) 4 true)) :
    Alike (fun a b => a.map (fun f => f.Offset) = b.map (fun f => f.Offset))
      (readInfo d1 dA) (readInfo d2 dB) := by
  simp only [Directory.used, Prod.mk.injEq] at hu
  obtain ⟨u1, u2, u3, -⟩ := hu
  obtain ⟨i0, i4, i8, islots⟩ := hi
  rw [readInfo_closed, readInfo_closed, ← u1, ← u2, ← u3, ← hlen, ← i0.value,
    ← i4.value, ← i8.value]
  by_cases b1 : dA.infoOffset + 4 ≤ d1.length
  · rw [if_pos b1, if_pos b1]
    by_cases m1 : 0x494E464F = valueAt d1 dA.infoOffset 4 false
    · rw [if_pos m1, if_pos m1]
      by_cases b2 : dA.infoOffset + 8 ≤ d1.length
      · rw [if_pos b2, if_pos b2]
        by_cases m2 : dA.infoLength = valueAt d1 (dA.infoOffset + 4) 4 true
        · rw [if_pos m2, if_pos m2]
          by_cases b3 : dA.infoOffset + 12 ≤ d1.length
          · rw [if_pos b3, if_pos b3]
            have hs := readSlots_same d1 d2 hlen dA.infoOffset
              (valueAt d1 (dA.infoOffset + 8) 4 true) (dA.infoOffset + 12) [] [] islots
            cases h1 : readSlots d1 dA.infoOffset (valueAt d1 (dA.infoOffset + 8) 4 true)
                (dA.infoOffset + 12) [] with
            | error e1 =>
              cases h2 : readSlots d2 dA.infoOffset (valueAt d1 (dA.infoOffset + 8) 4 true)
                  (dA.infoOffset + 12) [] with
              | error e2 =>
                rw [h1, h2] at hs
                exact hs
              | ok r2 =>
                rw [h1, h2] at hs
                exact hs.elim
            | ok r1 =>
              cases h2 : readSlots d2 dA.infoOffset (valueAt d1 (dA.infoOffset + 8) 4 true)
                  (dA.infoOffset + 12) [] with
              | error e2 =>
                rw [h1, h2] at hs
                exact hs.elim
              | ok r2 =>
                rw [h1, h2] at hs
                have hq : r2.2 = r1.2 := hs.symm
                obtain ⟨r1a, r1b⟩ := r1
                obtain ⟨q1, -, -⟩ := readSlots_tags h1
                simp only [Except.bind, hq]
                subst q1
                have hf := readFiles_same d1 d2 hlen dA.fileOffset
                  (valueAt d1 (dA.infoOffset + 8) 4 true)
                  (dA.infoOffset + 12 + 8 * valueAt d1 (dA.infoOffset + 8) 4 true) [] [] rfl he
                revert hf
                cases readFiles d1 dA.fileOffset (valueAt d1 (dA.infoOffset + 8) 4 true)
                    (dA.infoOffset + 12 + 8 * valueAt d1 (dA.infoOffset + 8) 4 true) [] <;>
                  cases readFiles d2 dA.fileOffset (valueAt d1 (dA.infoOffset + 8) 4 true)
                    (dA.infoOffset + 12 + 8 * valueAt d1 (dA.infoOffset + 8) 4 true) [] <;>
                  exact fun hf => hf
          · rw [if_neg b3, if_neg b3]
            rfl
        · rw [if_neg m2, if_neg m2]
          rfl
      · rw [if_neg b2, if_neg b2]
        rfl
    · rw [if_neg m1, if_neg m1]
      rfl
  · rw [if_neg b1, if_neg b1]
    rfl

theorem SamePayload.bytes {d1 d2 : List Nat} {p : Nat} (h : SamePayload d1 d2 p)
    (ht : CopiedTag (valueAt d1 p 4 false)) :
    valueAt d1 (p + 12) 4 true = valueAt d2 (p + 12) 4 true ∧
      payloadBytes d1 p = payloadBytes d2 p := by
  obtain ⟨h1, h2⟩ := h.2 ht
  refine ⟨h1.value true, ?_⟩
  unfold payloadBytes
  rw [← h1.value true]
  exact h2

theorem extractFile_same (d1 d2 : List Nat) (hlen : d1.length = d2.length) (P : Bool)
    (f1 f2 : CgrpFile) (s : State) (ho : f1.Offset = f2.Offset)
    (h : ∀ p, f1.Offset = some p → SamePayload d1 d2 p) :
    extractFile d1 P f1 s = extractFile d2 P f2 s := by
  cases hp : f1.Offset with
  | none => rw [extractFile_none d1 P f1 s hp, extractFile_none d2 P f2 s (by rw [← ho, hp])]
  | some p =>
    have hp2 : f2.Offset = some p := by rw [← ho, hp]
    have hs := h p hp
    have ht := hs.1.value false
    by_cases hb : p + 4 ≤ d1.length
    · rw [extractFile_some d1 P f1 s p hp hb, extractFile_some d2 P f2 s p hp2 (by omega), ← ht]
      by_cases t1 : valueAt d1 p 4 false = 0x43574152
      · obtain ⟨e1, e2⟩ := hs.bytes (Or.inl t1)
        rw [if_pos t1, if_pos t1, extractCwar_eq, extractCwar_eq, ← e1, ← e2, hlen]
      · rw [if_neg t1, if_neg t1]
        by_cases t2 : valueAt d1 p 4 false = 0x43424E4B
        · obtain ⟨e1, e2⟩ := hs.bytes (Or.inr (Or.inl t2))
          rw [if_pos t2, if_pos t2, extractCbnk_eq, extractCbnk_eq, ← e1, ← e2, hlen]
        · rw [if_neg t2, if_neg t2]
          by_cases t3 : valueAt d1 p 4 false = 0x43534551
          · obtain ⟨e1, e2⟩ := hs.bytes (Or.inr (Or.inr t3))
            rw [if_pos t3, if_pos t3, extractCseq_eq, extractCseq_eq, ← e1, ← e2, hlen]
          · rw [if_neg t3, if_neg t3]
    · rw [extractFile_oob d1 P f1 s p hp hb, extractFile_oob d2 P f2 s p hp2 (by omega)]

theorem extractFiles_same (d1 d2 : List Nat) (hlen : d1.length = d2.length) (P : Bool)
    (fs1 fs2 : List CgrpFile) (s : State)
    (ho : fs1.map (fun f => f.Offset) = fs2.map (fun f => f.Offset))
    (h : ∀ f ∈ fs1, ∀ p, f.Offset = some p → SamePayload d1 d2 p) :
    extractFiles d1 P fs1 s = extractFiles d2 P fs2 s := by
  induction fs1 generalizing fs2 s with
  | nil =>
    cases fs2 with
    | nil => rfl
    | cons g gs => simp at ho
  | cons f fs ih =>
    cases fs2 with
    | nil => simp at ho
    | cons g gs =>
      simp only [List.map_cons, List.cons.injEq] at ho
      simp only [extractFiles]
      rw [extractFile_same d1 d2 hlen P f g s ho.1 (h f (List.mem_cons_self _ _))]
      cases extractFile d2 P g s with
      | halt r => rfl
      | next s1 => exact ih gs s1 ho.2 fun f1 hf1 => h f1 (List.mem_cons_of_mem _ hf1)

theorem convertAll_used (cv : Converters) (dA dB : Directory) (s : State)
    (hu : dA.used = dB.used) : convertAll cv dA s = convertAll cv dB s := by
  simp only [Directory.used, Prod.mk.injEq] at hu
  simp only [convertAll, hu.2.2.2]

theorem extractFrom_same (cv : Converters) (d1 d2 : List Nat) (hlen : d1.length = d2.length)
    (P : Bool) (dA dB : Directory) (fs1 fs2 : List CgrpFile) (s : State)
    (hu : dA.used = dB.used)
    (ho : fs1.map (fun f => f.Offset) = fs2.map (fun f => f.Offset))
    (h : ∀ f ∈ fs1, ∀ p, f.Offset = some p → SamePayload d1 d2 p) :
    extractFrom cv d1 P dA fs1 s = extractFrom cv d2 P dB fs2 s := by
  unfold extractFrom
  rw [extractFiles_same d1 d2 hlen P fs1 fs2 s ho h]
  cases extractFiles d2 P fs2 s with
  | halt r => rfl
  | next s1 => exact convertAll_used cv dA dB s1 hu

theorem parse_same (d1 d2 : List Nat) (hlen : d1.length = d2.length)
    (hheader : SameHeader d1 d2) (hdir : SameDirectory d1 d2 (valueAt d1 16 4 true) 20)
    (hinfo : ∀ count pos d pos1, readHeader d1 d1.length = .ok (count, pos) →
      readChunks d1 count pos Directory.zero = .ok (d, pos1) →
      SameInfo d1 d2 d.infoOffset ∧
        SameEntries d1 d2 (valueAt d1 (d.infoOffset + 8) 4 true)
          (d.infoOffset + 12 + 8 * valueAt d1 (d.infoOffset + 8) 4 true)) :
    Alike (fun a b => a.1.used = b.1.used ∧
        a.2.map (fun f => f.Offset) = b.2.map (fun f => f.Offset))
      (parse d1 d1.length) (parse d2 d1.length) := by
  have hH := readHeader_same d1 d2 d1.length hlen hheader
  unfold parse
  cases h1 : readHeader d1 d1.length with
  | error e =>
    rw [← hH, h1]
    rfl
  | ok r =>
    obtain ⟨count, pos⟩ := r
    rw [← hH, h1]
    obtain ⟨rfl, rfl⟩ := readHeader_pos h1
    simp only [bind, Except.bind]
    have hC := readChunks_same d1 d2 hlen (valueAt d1 16 4 true) 20 Directory.zero
      Directory.zero rfl hdir
    cases h2 : readChunks d1 (valueAt d1 16 4 true) 20 Directory.zero with
    | error e =>
      cases h3 : readChunks d2 (valueAt d1 16 4 true) 20 Directory.zero with
      | error e2 =>
        rw [h2, h3] at hC
        exact hC
      | ok r2 =>
        rw [h2, h3] at hC
        exact hC.elim
    | ok r1 =>
      cases h3 : readChunks d2 (valueAt d1 16 4 true) 20 Directory.zero with
      | error e2 =>
        rw [h2, h3] at hC
        exact hC.elim
      | ok r2 =>
        rw [h2, h3] at hC
        obtain ⟨dA, q1⟩ := r1
        obtain ⟨dB, q2⟩ := r2
        have hu : dA.used = dB.used := hC
        obtain ⟨hi, he⟩ := hinfo _ _ dA q1 h1 h2
        have hI := readInfo_same d1 d2 hlen dA dB hu hi he
        simp only []
        revert hI
        cases readInfo d1 dA <;> cases readInfo d2 dB <;> intro hI
        · exact hI
        · exact hI.elim
        · exact hI.elim
        · exact ⟨hu, hI⟩

/-- C20, as amended: two buffers of equal length that hold the same bytes in
every field `Extract` uses and in every payload range it copies give the same
run: the same boolean, the same files with the same contents, the same handles
with the same indices, the same reports.  The fields used are, in the layout of
the first buffer: the header but for the version at the bytes 8..11; of every
directory triple the tag and the offset, and the length of an INFO triple; the
magic, the length and the entry count of the INFO chunk and the tag of every
slot; of every entry the flag, and the raw offset when the flag is the
sentinel; of every payload the type tag and, when it is copied, its length field
and its range.  The buffers may differ anywhere else: in the version, in the
FILE and INFX lengths of the directory, in the slot offsets, in the ids and the
lengths of the entries. -/
theorem C20_unused_fields (cv : Converters) (d1 d2 : List Nat) (P : Bool)
    (hlen : d1.length = d2.length) (hheader : SameHeader d1 d2)
    (hdir : SameDirectory d1 d2 (valueAt d1 16 4 true) 20)
    (hinfo : ∀ count pos d pos1, readHeader d1 d1.length = .ok (count, pos) →
      readChunks d1 count pos Directory.zero = .ok (d, pos1) →
      SameInfo d1 d2 d.infoOffset ∧
        SameEntries d1 d2 (valueAt d1 (d.infoOffset + 8) 4 true)
          (d.infoOffset + 12 + 8 * valueAt d1 (d.infoOffset + 8) 4 true))
    (hpay : ∀ d files, parse d1 d1.length = .ok (d, files) →
      ∀ f ∈ files, ∀ p, f.Offset = some p → SamePayload d1 d2 p) :
    extract cv d1 P = extract cv d2 P := by
  have hp := parse_same d1 d2 hlen hheader hdir hinfo
  unfold extract Cgrp.Extract Cgrp.open
  simp only []
  rw [← hlen]
  cases h1 : parse d1 d1.length with
  | error e1 =>
    cases h2 : parse d2 d1.length with
    | error e2 =>
      rw [h1, h2] at hp
      have : e1 = e2 := hp
      subst this
      cases e1 <;> rfl
    | ok r2 =>
      rw [h1, h2] at hp
      exact hp.elim
  | ok r1 =>
    cases h2 : parse d2 d1.length with
    | error e2 =>
      rw [h1, h2] at hp
      exact hp.elim
    | ok r2 =>
      rw [h1, h2] at hp
      obtain ⟨dA, fs1⟩ := r1
      obtain ⟨dB, fs2⟩ := r2
      obtain ⟨hu, ho⟩ := hp
      exact extractFrom_same cv d1 d2 hlen P dA dB fs1 fs2 State.fresh hu ho (hpay dA fs1 h1)

set_option maxRecDepth 100000 in
/-- C20 as stated fails: these two buffers of 56 bytes differ only in the bytes
28..31, the length field of the INFX triple of the directory, and neither run
writes a file, so no payload range overlaps those bytes; `Extract` returns true
for the first and false for the second.  The INFO triple points at offset 28:
the INFO magic is read from the INFX length field. -/
theorem C20_counterexample :
    (headerBytes 56 3 ++ encodeDir selfPointingDir).length =
      (headerBytes 56 3 ++ encodeDir selfPointingDirBlank).length ∧
    valueAt (headerBytes 56 3 ++ encodeDir selfPointingDir) 20 4 true = 0x7802 ∧
    (headerBytes 56 3 ++ encodeDir selfPointingDir).take 28 =
      (headerBytes 56 3 ++ encodeDir selfPointingDirBlank).take 28 ∧
    (headerBytes 56 3 ++ encodeDir selfPointingDir).drop 32 =
      (headerBytes 56 3 ++ encodeDir selfPointingDirBlank).drop 32 ∧
    writes (extract allSucceed (headerBytes 56 3 ++ encodeDir selfPointingDir) false).state.log =
      [] ∧
    writes (extract allSucceed (headerBytes 56 3 ++ encodeDir selfPointingDirBlank)
      false).state.log = [] ∧
    (extract allSucceed (headerBytes 56 3 ++ encodeDir selfPointingDir) false).outcome =
      .returned true ∧
    (extract allSucceed (headerBytes 56 3 ++ encodeDir selfPointingDirBlank) false).outcome =
      .returned false :=
  ⟨by rfl, by rfl, by rfl, by rfl, by rfl, by rfl, by rfl, by rfl⟩

set_option maxRecDepth 100000 in
/-- C20, as amended, at the container of two entries and at the same container
with other values in every field that is read and not used. -/
theorem C20_unused_fields_witness :
    layoutProbe ≠ layoutProbeOther ∧
    extract allSucceed layoutProbe false = extract allSucceed layoutProbeOther false :=
  ⟨by decide, C20_unused_fields allSucceed layoutProbe layoutProbeOther false (by rfl)
    ⟨by rfl, by rfl, by rfl, by rfl, by rfl⟩
    (by
      intro k hk
      have h2 : valueAt layoutProbe 16 4 true = 2 := by rfl
      rw [h2] at hk
      interval_cases k
      · exact ⟨by rfl, by rfl, fun _ => by rfl⟩
      · exact ⟨by rfl, by rfl, fun h => absurd h (by decide)⟩)
    (by
      intro count pos d pos1 hh hd
      have e1 : readHeader layoutProbe layoutProbe.length = .ok (2, 20) := by rfl
      rw [e1] at hh
      simp only [Except.ok.injEq, Prod.mk.injEq] at hh
      obtain ⟨rfl, rfl⟩ := hh
      have e2 : readChunks layoutProbe 2 20 Directory.zero =
          .ok (⟨44, 56, 100, 24, 0, 0⟩, 44) := by rfl
      rw [e2] at hd
      simp only [Except.ok.injEq, Prod.mk.injEq] at hd
      obtain ⟨rfl, rfl⟩ := hd
      have e3 : valueAt layoutProbe (44 + 8) 4 true = 2 := by rfl
      refine ⟨⟨by rfl, by rfl, by rfl, ?_⟩, ?_⟩
      · intro j hj
        simp only [e3] at hj
        interval_cases j
        · rfl
        · rfl
      · simp only [e3]
        intro k hk
        interval_cases k
        · exact ⟨by rfl, fun _ => by rfl⟩
        · exact ⟨by rfl, fun h => absurd h (by decide)⟩)
    (by
      intro d files hparse f hf p hp
      have e1 : parse layoutProbe layoutProbe.length =
          .ok (⟨44, 56, 100, 24, 0, 0⟩, [⟨7, some 108, 16⟩, ⟨9, none, 3⟩]) := by rfl
      rw [e1] at hparse
      simp only [Except.ok.injEq, Prod.mk.injEq] at hparse
      obtain ⟨rfl, rfl⟩ := hparse
      simp only [List.mem_cons, List.mem_singleton, List.not_mem_nil, or_false] at hf
      rcases hf with rfl | rfl
      · simp only [Option.some.injEq] at hp
        subst hp
        exact ⟨by rfl, fun _ => ⟨by rfl, by rfl⟩⟩
      · simp at hp)⟩

end Caesar
